import Mathlib

/-!
The catalog engine of kubernetes-usage-log.

A shallow embedding of `core/pkg/catalog` (`types.go`, `main.go`) and the
properties of its aggregation, fetch-error handling, partitioning and
scheduling code.

Conventions of the embedding:
* Go slices are `List`s, Go `map[string]T` values are association lists;
* a `*bool` is an `Option Bool` (`none` is the nil pointer);
* `Namespaces` is a slice of pointers: a pointer into it is the index of a
  slot, and `nil` is `none`;
* a run-time panic (nil pointer dereference) is the result `none` of a
  function returning `Option`;
* a `resource.Quantity` is represented by the `int64` its `Value()` returns.
-/

set_option autoImplicit false

namespace Catalog

/-! ## Inventory objects handed over by the cluster (k8s.io/api/core/v1) -/

/-- A `map[string]string`. -/
abbrev StringMap := List (String × String)

/-- A `resource.Quantity`, represented by what `Value()` returns. -/
structure Quantity where
  Value : Int
  deriving DecidableEq, Repr

/-- A `coreapi.ResourceList`: `map[ResourceName]resource.Quantity`. -/
abbrev ResourceList := List (String × Quantity)

/-- Modelled from the spec: `ResourceList.Cpu()` of k8s.io/api/core/v1, which is
not part of this repository's sources. It yields the quantity stored under
`"cpu"`, and the zero quantity when there is none ("missing entries default to
zero rather than being absent"). -/
def ResourceList.Cpu (l : ResourceList) : Quantity :=
  match l.lookup "cpu" with
  | some val => val
  | none => { Value := 0 }

/-- Modelled from the spec: `ResourceList.Memory()` of k8s.io/api/core/v1, which
is not part of this repository's sources. It yields the quantity stored under
`"memory"`, and the zero quantity when there is none. -/
def ResourceList.Memory (l : ResourceList) : Quantity :=
  match l.lookup "memory" with
  | some val => val
  | none => { Value := 0 }

structure OwnerReference where
  APIVersion : String
  Kind : String
  Name : String
  Controller : Option Bool
  BlockOwnerDeletion : Option Bool
  deriving DecidableEq, Repr

structure ResourceRequirements where
  Limits : ResourceList
  Requests : ResourceList
  deriving DecidableEq, Repr

structure RawContainer where
  Name : String
  Image : String
  Resources : ResourceRequirements
  deriving DecidableEq, Repr

/-- A `coreapi.Pod`, with `Spec.NodeName` and `Spec.Containers` flattened. -/
structure RawPod where
  Name : String
  Namespace : String
  UID : String
  Annotations : StringMap
  Labels : StringMap
  OwnerReferences : List OwnerReference
  NodeName : String
  Containers : List RawContainer
  deriving DecidableEq, Repr

structure RawNamespace where
  Name : String
  Annotations : StringMap
  Labels : StringMap
  deriving DecidableEq, Repr

/-- A `coreapi.ResourceQuota`: `Spec.Hard`, `Status.Hard`, `Status.Used`. -/
structure RawResourceQuota where
  Name : String
  Namespace : String
  SpecHard : ResourceList
  StatusHard : ResourceList
  StatusUsed : ResourceList
  deriving DecidableEq, Repr

structure NodeAddress where
  Type_ : String
  Address : String
  deriving DecidableEq, Repr

structure NodeCondition where
  Type_ : String
  Status : String
  deriving DecidableEq, Repr

/-- A `coreapi.Node`, with the `Spec` and `Status` fields the catalog reads. -/
structure RawNode where
  Name : String
  Labels : StringMap
  ExternalID : String
  Allocatable : ResourceList
  Capacity : ResourceList
  Addresses : List NodeAddress
  Conditions : List NodeCondition
  deriving DecidableEq, Repr

/-! ## types.go -/

structure ResourceValues where
  Name : String
  CPULimits : Int
  MemoryLimits : Int
  CPURequests : Int
  MemoryRequests : Int
  deriving DecidableEq, Repr

structure Owner where
  ApiVersion : String
  BlockOwnerDeletion : Option Bool
  Controller : Option Bool
  Kind : String
  Name : String
  deriving DecidableEq, Repr

structure Container where
  Name : String
  Image : String
  Resources : ResourceValues
  OwnerUID : String
  deriving DecidableEq, Repr

structure Pod where
  Name : String
  Annotations : StringMap
  Labels : StringMap
  Owners : List Owner
  Containers : List Container
  Status : String
  IP : String
  NodeName : String
  Namespace : String
  UID : String
  deriving DecidableEq, Repr

structure ResourceQuota where
  Name : String
  Namespace : String
  SpecHardResources : ResourceValues
  StatusHardResources : ResourceValues
  StatusUsedResources : ResourceValues
  deriving DecidableEq, Repr

structure Namespace where
  Name : String
  Annotations : StringMap
  Labels : StringMap
  ResourceQuotas : List ResourceQuota
  Pods : List Pod
  deriving DecidableEq, Repr

/-- The slice `[]*Namespace`; slot `i` is what the `i`-th pointer points to. -/
abbrev Namespaces := List Namespace

structure Node where
  Name : String
  ExternalID : String
  InternalIP : String
  ExternalIP : String
  Allocatable : ResourceValues
  Capacity : ResourceValues
  Status : String
  Labels : StringMap
  deriving DecidableEq, Repr

/-- The snapshot. `Duration` is kept in nanoseconds, the `time.Duration`
that `Seconds()` is applied to. -/
structure AuditResults where
  ClusterID : String
  Time : String
  Duration : Int
  Nodes : List Node
  Namespaces : Namespaces
  Success : Bool
  ErrorMessage : String
  deriving DecidableEq, Repr

/-- The zero value of `ResourceValues`. -/
def ResourceValues.zero : ResourceValues :=
  { Name := "", CPULimits := 0, MemoryLimits := 0, CPURequests := 0, MemoryRequests := 0 }

def NewAuditResults : AuditResults :=
  { ClusterID := "", Time := "", Duration := 0, Nodes := [], Namespaces := [],
    Success := false, ErrorMessage := "" }

def NewNamespace (name : String) : Namespace :=
  { Name := name, Annotations := [], Labels := [], ResourceQuotas := [], Pods := [] }

def NewResourceQuota (name : String) : ResourceQuota :=
  { Name := name, Namespace := "", SpecHardResources := ResourceValues.zero,
    StatusHardResources := ResourceValues.zero, StatusUsedResources := ResourceValues.zero }

def NewPod (name : String) : Pod :=
  { Name := name, Annotations := [], Labels := [], Owners := [], Containers := [],
    Status := "", IP := "", NodeName := "", Namespace := "", UID := "" }

/-- `Namespaces.Find`: the pointer to the first record named `s` (its slot
index), or `none` for the `nil` the Go function returns. -/
def Namespaces.Find : Namespaces → String → Option Nat
  | [], _ => none
  | ns :: rest, s =>
    if ns.Name = s then some 0
    else match Namespaces.Find rest s with
      | some i => some (i + 1)
      | none => none

/-- Assignment through a pointer into the slice: `*p = f (*p)` for the slot `i`. -/
def Namespaces.update (f : Namespace → Namespace) : Namespaces → Nat → Namespaces
  | [], _ => []
  | ns :: rest, 0 => f ns :: rest
  | ns :: rest, i + 1 => ns :: Namespaces.update f rest i

/-! ## main.go: extraction -/

/-- `extractResourceQuota`: the value under `resource`, or 0. -/
def extractResourceQuota (list : ResourceList) (resource : String) : Int :=
  match list.lookup resource with
  | some val => val.Value
  | none => 0

def extractResourceQuotas (name : String) (list : ResourceList) : ResourceValues :=
  { Name := name,
    CPULimits := extractResourceQuota list "limits.cpu",
    MemoryLimits := extractResourceQuota list "limits.memory",
    CPURequests := extractResourceQuota list "requests.cpu",
    MemoryRequests := extractResourceQuota list "requests.memory" }

/-- The body of the loop over `p.OwnerReferences`. -/
def ownerOf (o : OwnerReference) : Owner :=
  { ApiVersion := o.APIVersion, BlockOwnerDeletion := o.BlockOwnerDeletion,
    Controller := o.Controller, Kind := o.Kind, Name := o.Name }

/-- The body of the loop over `p.Spec.Containers`. -/
def containerOf (uid : String) (c : RawContainer) : Container :=
  { Name := c.Name, Image := c.Image,
    Resources :=
      { Name := "",
        CPULimits := c.Resources.Limits.Cpu.Value,
        MemoryLimits := c.Resources.Limits.Memory.Value,
        CPURequests := c.Resources.Requests.Cpu.Value,
        MemoryRequests := c.Resources.Requests.Memory.Value },
    OwnerUID := uid }

/-- The `Pod` record built from one inventory pod (lines 114-146). -/
def podOf (p : RawPod) : Pod :=
  let pod := NewPod p.Name
  let pod := { pod with Annotations := p.Annotations, Labels := p.Labels,
                        NodeName := p.NodeName, Namespace := p.Namespace, UID := p.UID }
  let pod := p.OwnerReferences.foldl
    (fun (pod : Pod) o => { pod with Owners := pod.Owners ++ [ownerOf o] }) pod
  p.Containers.foldl
    (fun (pod : Pod) c => { pod with Containers := pod.Containers ++ [containerOf p.UID c] }) pod

/-- The `ResourceQuota` record built from one inventory quota (lines 153-157). -/
def quotaOf (q : RawResourceQuota) : ResourceQuota :=
  let quota := NewResourceQuota q.Name
  { quota with Namespace := q.Namespace,
               SpecHardResources := extractResourceQuotas "spec.hard" q.SpecHard,
               StatusHardResources := extractResourceQuotas "status.hard" q.StatusHard,
               StatusUsedResources := extractResourceQuotas "status.used" q.StatusUsed }

/-- One step of the loop over `each.Status.Addresses`. -/
def addressStep (node : Node) (address : NodeAddress) : Node :=
  if address.Type_ = "InternalIP" then { node with InternalIP := address.Address }
  else if address.Type_ = "ExternalIP" then { node with ExternalIP := address.Address }
  else node

/-- One step of the loop over `each.Status.Conditions`. -/
def conditionStep (node : Node) (condition : NodeCondition) : Node :=
  if condition.Type_ = "Ready" then { node with Status := condition.Status } else node

/-- The `Node` record built from one inventory node (lines 164-192). -/
def nodeOf (each : RawNode) : Node :=
  let node : Node :=
    { Name := each.Name, ExternalID := each.ExternalID, Labels := each.Labels,
      InternalIP := "", ExternalIP := "", Status := "",
      Allocatable := { ResourceValues.zero with
        CPULimits := each.Allocatable.Cpu.Value,
        MemoryLimits := each.Allocatable.Memory.Value },
      Capacity := { ResourceValues.zero with
        CPULimits := each.Capacity.Cpu.Value,
        MemoryLimits := each.Capacity.Memory.Value } }
  let node := each.Addresses.foldl addressStep node
  each.Conditions.foldl conditionStep node

/-! ## main.go: aggregation -/

/-- The loop body over `namespaces.Items` (lines 106-110). -/
def namespaceStep (results : AuditResults) (each : RawNamespace) : AuditResults :=
  let namespace_ := { NewNamespace each.Name with
    Annotations := each.Annotations, Labels := each.Labels }
  { results with Namespaces := results.Namespaces ++ [namespace_] }

/-- The loop body over `pods.Items` (lines 114-149): `Find`, then the append
through the pointer it returned, which panics on `nil`. -/
def podStep (results : AuditResults) (p : RawPod) : Option AuditResults :=
  let pod := podOf p
  match results.Namespaces.Find pod.Namespace with
  | none => none
  | some n =>
    let attached :=
      Namespaces.update (fun ns => { ns with Pods := ns.Pods ++ [pod] }) results.Namespaces n
    some { results with Namespaces := attached }

/-- The loop body over `resourceQuotas.Items` (lines 153-160). -/
def quotaStep (results : AuditResults) (q : RawResourceQuota) : Option AuditResults :=
  let quota := quotaOf q
  match results.Namespaces.Find quota.Namespace with
  | none => none
  | some n =>
    let attached :=
      Namespaces.update (fun ns => { ns with ResourceQuotas := ns.ResourceQuotas ++ [quota] })
        results.Namespaces n
    some { results with Namespaces := attached }

/-- The loop body over `nodes.Items` (lines 164-194). -/
def nodeStep (results : AuditResults) (each : RawNode) : AuditResults :=
  { results with Nodes := results.Nodes ++ [nodeOf each] }

/-- `generateAuditResults`; `none` is the nil-pointer panic. -/
def generateAuditResults (namespaces : List RawNamespace) (pods : List RawPod)
    (resourceQuotas : List RawResourceQuota) (nodes : List RawNode) : Option AuditResults := do
  let results := NewAuditResults
  let results := namespaces.foldl namespaceStep results
  let results ← pods.foldlM podStep results
  let results ← resourceQuotas.foldlM quotaStep results
  let results := nodes.foldl nodeStep results
  return results

/-! ## main.go: one audit of the cluster -/

/-- The four list calls of the clientset, each with the `(list, err)` pair it
returns: `.error` stands for `err != nil`. -/
structure Clientset where
  Namespaces : Except String (List RawNamespace)
  Pods : Except String (List RawPod)
  ResourceQuotas : Except String (List RawResourceQuota)
  Nodes : Except String (List RawNode)

/-- `auditCluster`; `none` is a panic raised inside `generateAuditResults`. -/
def auditCluster (clientset : Clientset) (clusterID : String) : Option AuditResults :=
  let results := NewAuditResults
  match clientset.Namespaces with
  | .error _ => some { results with ErrorMessage := "Unable to return list of namespaces" }
  | .ok namespaces =>
    match clientset.Pods with
    | .error _ => some { results with ErrorMessage := "Unable to return list of pods" }
    | .ok pods =>
      match clientset.ResourceQuotas with
      | .error _ =>
        some { results with ErrorMessage := "Unable to return list of resource quotas" }
      | .ok resourceQuotas =>
        match clientset.Nodes with
        | .error _ => some { results with ErrorMessage := "Unable to return list of nodes" }
        | .ok nodes =>
          match generateAuditResults namespaces pods resourceQuotas nodes with
          | none => none
          | some results => some { results with ClusterID := clusterID }

/-- A list call failed. -/
def failed {α : Type} (call : Except String α) : Prop :=
  match call with
  | .error _ => True
  | .ok _ => False

instance {α : Type} (call : Except String α) : Decidable (failed call) := by
  cases call <;> simp only [failed] <;> infer_instance

/-! ## Specification vocabulary -/

/-- The fields of a snapshot that the pod and quota loops leave alone. -/
def sameFrame (a b : AuditResults) : Prop :=
  a.ClusterID = b.ClusterID ∧ a.Time = b.Time ∧ a.Duration = b.Duration ∧
    a.Nodes = b.Nodes ∧ a.Success = b.Success ∧ a.ErrorMessage = b.ErrorMessage

/-- The identity of a namespace record: name, annotations and labels. -/
def Namespace.header (ns : Namespace) : String × StringMap × StringMap :=
  (ns.Name, ns.Annotations, ns.Labels)

/-- Every child stored in a record carries the record's name. -/
def childrenMatch (n : Namespaces) : Prop :=
  ∀ ns ∈ n, (∀ p ∈ ns.Pods, p.Namespace = ns.Name) ∧
    (∀ q ∈ ns.ResourceQuotas, q.Namespace = ns.Name)

/-! ## Example inventory -/

def exNamespaces : List RawNamespace :=
  [ { Name := "ns-a", Annotations := [], Labels := [("team", "a")] },
    { Name := "ns-b", Annotations := [], Labels := [] } ]

def exPod (name ns uid : String) : RawPod :=
  { Name := name, Namespace := ns, UID := uid, Annotations := [], Labels := [],
    OwnerReferences := [], NodeName := "node-1", Containers := [] }

def exPods : List RawPod :=
  [exPod "p1" "ns-a" "u1", exPod "p2" "ns-b" "u2", exPod "p3" "ns-a" "u3"]

def exQuotas : List RawResourceQuota :=
  [ { Name := "q1", Namespace := "ns-b", SpecHard := [("limits.cpu", { Value := 2 })],
      StatusHard := [], StatusUsed := [] } ]

def exNodes : List RawNode :=
  [ { Name := "node-1", Labels := [], ExternalID := "i-1", Allocatable := [], Capacity := [],
      Addresses := [ { Type_ := "InternalIP", Address := "10.0.0.1" },
                     { Type_ := "ExternalIP", Address := "1.2.3.4" } ],
      Conditions := [ { Type_ := "Ready", Status := "True" } ] } ]

/-- All four list calls succeed on the example inventory. -/
def exClientset : Clientset :=
  { Namespaces := .ok exNamespaces, Pods := .ok exPods, ResourceQuotas := .ok exQuotas,
    Nodes := .ok exNodes }

/-- The pod list call fails, and so does the later node list call. -/
def exClientsetPodsDown : Clientset :=
  { Namespaces := .ok exNamespaces, Pods := .error "timeout", ResourceQuotas := .ok exQuotas,
    Nodes := .error "timeout" }

/-! ## Calendar time (package `time` of the Go standard library)

A `time.Time` in UTC is represented by its civil fields, the values that
`Year()`, `Month()`, `Day()`, `Clock()` and `Nanosecond()` read; the instant it
denotes is computed by `Time.abs`, the day-and-second count of `time.Date`. -/

structure Time where
  year : Int
  month : Int
  day : Int
  hour : Int
  min : Int
  sec : Int
  nsec : Int
  deriving DecidableEq, Repr

/-- The year of the absolute epoch of package `time`. -/
def absoluteZeroYear : Int := -292277022399

/-- `daysBefore[m]`: the days of a non-leap year before month `m+1` starts. -/
def daysBefore : List Int := [0, 31, 59, 90, 120, 151, 181, 212, 243, 273, 304, 334, 365]

/-- `isLeap` of package `time`; divisibility is the same for Go's truncated
remainder and for the remainder used here. -/
def isLeap (year : Int) : Bool :=
  year % 4 == 0 && (year % 100 != 0 || year % 400 == 0)

/-- `daysIn` of package `time`. -/
def daysIn (m : Int) (year : Int) : Int :=
  if m = 2 ∧ isLeap year = true then 29
  else daysBefore.getD m.toNat 0 - daysBefore.getD (m - 1).toNat 0

/-- `norm` of package `time`: carry `lo` into `hi` so that `0 ≤ lo < base`. -/
def norm (hi lo base : Int) : Int × Int :=
  let first : Int × Int := if lo < 0 then
      let n := (-lo - 1) / base + 1
      (hi - n, lo + n * base)
    else (hi, lo)
  let hi := first.1
  let lo := first.2
  if lo ≥ base then
    let n := lo / base
    (hi + n, lo - n * base)
  else (hi, lo)

/-- The civil fields of `time.Date(year, month, day, hour, min, sec, nsec, UTC)`:
the month is carried into the year and the clock fields into the day, as
`time.Date` does. The day itself is kept as given, so the fields are the ones
Go reads back whenever the resulting day lies within its month, which is the
case for the day 1 the catalog passes. -/
def Date (year month day hour min sec nsec : Int) : Time :=
  let m := month - 1
  let ym := norm year m 12
  let year := ym.1
  let month := ym.2 + 1
  let sn := norm sec nsec 1000000000
  let sec := sn.1
  let nsec := sn.2
  let ms := norm min sec 60
  let min := ms.1
  let sec := ms.2
  let hm := norm hour min 60
  let hour := hm.1
  let min := hm.2
  let dh := norm day hour 24
  let day := dh.1
  let hour := dh.2
  { year := year, month := month, day := day, hour := hour, min := min, sec := sec,
    nsec := nsec }

/-- The days from the absolute epoch to 1 January of `year` (the cycle
arithmetic of `time.Date`). -/
def daysSinceEpoch (year : Int) : Int :=
  let y := year - absoluteZeroYear
  let n := y / 400
  let y := y - 400 * n
  let d := 146097 * n
  let n := y / 100
  let y := y - 100 * n
  let d := d + 36524 * n
  let n := y / 4
  let y := y - 4 * n
  let d := d + 1461 * n
  let n := y
  d + 365 * n

/-- The seconds from the absolute epoch to the instant of `t` (`time.Date`). -/
def Time.abs (t : Time) : Int :=
  let d := daysSinceEpoch t.year
  let d := d + daysBefore.getD (t.month - 1).toNat 0
  let d := if isLeap t.year = true ∧ t.month ≥ 3 then d + 1 else d
  let d := d + (t.day - 1)
  d * 86400 + (t.hour * 3600 + t.min * 60 + t.sec)

/-- The instant of `t` in nanoseconds from the absolute epoch. -/
def Time.nanos (t : Time) : Int := t.abs * 1000000000 + t.nsec

/-- The civil fields of a `time.Time` are in range. -/
def Time.valid (t : Time) : Prop :=
  absoluteZeroYear ≤ t.year ∧ 1 ≤ t.month ∧ t.month ≤ 12 ∧
    1 ≤ t.day ∧ t.day ≤ daysIn t.month t.year ∧
    0 ≤ t.hour ∧ t.hour < 24 ∧ 0 ≤ t.min ∧ t.min < 60 ∧ 0 ≤ t.sec ∧ t.sec < 60 ∧
    0 ≤ t.nsec ∧ t.nsec < 1000000000

instance (t : Time) : Decidable t.valid := by
  unfold Time.valid
  infer_instance

/-- `Time.AddDate`. -/
def Time.AddDate (t : Time) (years months days : Int) : Time :=
  Date (t.year + years) (t.month + months) (t.day + days) t.hour t.min t.sec t.nsec

/-- The decimal digits of `u`, most significant first (the loop of `appendInt`
over its 20-byte buffer). -/
def decimalDigits : Nat → Nat → List Char
  | 0, u => [Char.ofNat (48 + u % 10)]
  | fuel + 1, u =>
    if u ≥ 10 then decimalDigits fuel (u / 10) ++ [Char.ofNat (48 + u % 10)]
    else [Char.ofNat (48 + u)]

/-- `appendInt` of package `time`: sign, zero padding up to `width`, digits. -/
def appendInt (x : Int) (width : Nat) : List Char :=
  let sign := if x < 0 then ['-'] else []
  let digits := decimalDigits 19 x.natAbs
  sign ++ List.replicate (width - digits.length) '0' ++ digits

/-- `t.Format("20060102")`: the year on four digits, month and day on two. -/
def Time.Format20060102 (t : Time) : String :=
  String.mk (appendInt t.year 4 ++ appendInt t.month 2 ++ appendInt t.day 2)

/-! ## main.go: partition and file name of one tick -/

/-- `periodBegin` (line 36). -/
def periodBegin (currentTime : Time) : Time :=
  Date currentTime.year currentTime.month 1 0 0 0 0

/-- `periodEnd` (line 37). -/
def periodEnd (currentTime : Time) : Time :=
  (periodBegin currentTime).AddDate 0 1 0

/-- `periodPath` (line 39). -/
def periodPath (currentTime : Time) : String :=
  "period=" ++ (periodBegin currentTime).Format20060102 ++ "-"
    ++ (periodEnd currentTime).Format20060102

/-- `strings.Replace(s, old, new, -1)` for a non-empty `old`: every
non-overlapping occurrence of `old`, scanning from the left, becomes `new`.
The counter is the number of characters of a matched `old` still to be skipped. -/
def stringsReplace (old new : List Char) : Nat → List Char → List Char
  | _, [] => []
  | skip + 1, _ :: cs => stringsReplace old new skip cs
  | 0, c :: cs =>
    if old.isPrefixOf (c :: cs) then new ++ stringsReplace old new (old.length - 1) cs
    else c :: stringsReplace old new 0 cs

/-- The file name of a tick (line 40); `rendering` is `currentTime` as `%s`
prints it. -/
def filename (clusterID rendering : String) : String :=
  String.mk (stringsReplace [' '] ['_'] 0 (clusterID ++ "---" ++ rendering ++ ".json").toList)

def exTime : Time :=
  { year := 2017, month := 12, day := 15, hour := 10, min := 30, sec := 0, nsec := 123456789 }

def exRendering : String := "2017-12-15 10:30:00.123456789 +0000 UTC"

/-! ## main.go: the scheduler loop -/

/-- `t.Sub(u)`: the nanoseconds from `u` to `t`, saturated to the range of
`time.Duration` (an `int64`). -/
def Time.Sub (t u : Time) : Int :=
  let d := t.nanos - u.nanos
  if d < -9223372036854775808 then -9223372036854775808
  else if d > 9223372036854775807 then 9223372036854775807
  else d

/-- `t.Format(time.RFC3339)` for a UTC time: `2006-01-02T15:04:05Z`. -/
def Time.FormatRFC3339 (t : Time) : String :=
  String.mk (appendInt t.year 4 ++ ['-'] ++ appendInt t.month 2 ++ ['-'] ++ appendInt t.day 2
    ++ ['T'] ++ appendInt t.hour 2 ++ [':'] ++ appendInt t.min 2 ++ [':'] ++ appendInt t.sec 2
    ++ ['Z'])

/-- What the environment contributes to one pass of the loop: the instant the
pass begins (`auditCluster` is called), the snapshot `auditCluster` returns, and
the reading of `time.Now().UTC()` on line 31, taken after `auditCluster`
returned. -/
structure Tick where
  start : Time
  results : AuditResults
  current : Time
  deriving DecidableEq, Repr

/-- One pass of the loop body (lines 29-61): the snapshot that is written and
the new value of `lastTime`. -/
def tickBody (lastTime : Time) (tk : Tick) : AuditResults × Time :=
  let currentTime := tk.current
  let results := { tk.results with
    Time := currentTime.FormatRFC3339, Duration := currentTime.Sub lastTime }
  (results, currentTime)

/-- The snapshots written by the loop of `GenerateCatalog` over the given
passes, `lastTime` being the loop state. -/
def GenerateCatalog (lastTime : Time) : List Tick → List AuditResults
  | [] => []
  | tk :: rest => (tickBody lastTime tk).1 :: GenerateCatalog (tickBody lastTime tk).2 rest

/-! ## The specification's reading of the node scans -/

/-- The address of the first entry of type `ty`, or the empty string. -/
def firstAddressOfType (ty : String) (addresses : List NodeAddress) : String :=
  match (addresses.filter (fun a => a.Type_ = ty)).head? with
  | some a => a.Address
  | none => ""

/-- The address of the last entry of type `ty`, or the empty string. -/
def lastAddressOfType (ty : String) (addresses : List NodeAddress) : String :=
  match (addresses.filter (fun a => a.Type_ = ty)).getLast? with
  | some a => a.Address
  | none => ""

/-- The conditions of type `Ready`. -/
def readyConditions (conditions : List NodeCondition) : List NodeCondition :=
  conditions.filter (fun c => c.Type_ = "Ready")

/-! ## More examples -/

/-- A node that reports two internal addresses. -/
def exNodeTwoInternal : RawNode :=
  { Name := "node-2", Labels := [], ExternalID := "i-2", Allocatable := [], Capacity := [],
    Addresses := [ { Type_ := "InternalIP", Address := "10.0.0.1" },
                   { Type_ := "InternalIP", Address := "10.0.0.2" } ],
    Conditions := [] }

def exTimeAt (hour min sec : Int) : Time :=
  { year := 2017, month := 12, day := 15, hour := hour, min := min, sec := sec, nsec := 0 }

/-- Two passes with a five-second audit each and a sixty-second sleep. -/
def exTicks : List Tick :=
  [ { start := exTimeAt 10 30 0, results := NewAuditResults, current := exTimeAt 10 30 5 },
    { start := exTimeAt 10 31 5, results := NewAuditResults, current := exTimeAt 10 31 10 } ]

/-- The node of the specification's example: one internal and one external
address, and a `Ready` condition with status `True`. -/
def exNodeReady : RawNode :=
  { Name := "node-1", Labels := [], ExternalID := "i-1", Allocatable := [], Capacity := [],
    Addresses := [ { Type_ := "InternalIP", Address := "10.0.0.1" },
                   { Type_ := "ExternalIP", Address := "1.2.3.4" } ],
    Conditions := [ { Type_ := "Ready", Status := "True" } ] }

/-- A node whose conditions are all of a type other than `Ready`. -/
def exNodeNotReported : RawNode :=
  { exNodeReady with Conditions := [ { Type_ := "DiskPressure", Status := "False" } ] }

/-! ## Vocabulary and examples for pods -/

/-- The value `v` is the quantity a resource list declares under `name`: the
stored value when the key is present (the list being a map, its keys are
distinct), and 0 when the key is absent. -/
def isDeclaredValue (list : ResourceList) (name : String) (v : Int) : Prop :=
  (∀ q, (name, q) ∈ list → (list.map Prod.fst).Nodup → v = q.Value) ∧
  ((∀ q, (name, q) ∉ list) → v = 0)

/-- A pod with two containers, the second without limits and requests, and
three owner references whose flags are absent, true and false. -/
def exPodFull : RawPod :=
  { Name := "p1", Namespace := "ns-a", UID := "u1", Annotations := [], Labels := [],
    NodeName := "node-1",
    OwnerReferences :=
      [ { APIVersion := "apps/v1", Kind := "ReplicaSet", Name := "rs-1",
          Controller := some true, BlockOwnerDeletion := some false },
        { APIVersion := "v1", Kind := "Job", Name := "job-1",
          Controller := none, BlockOwnerDeletion := some true },
        { APIVersion := "v1", Kind := "Custom", Name := "c-1",
          Controller := some false, BlockOwnerDeletion := none } ],
    Containers :=
      [ { Name := "app", Image := "app:1",
          Resources := { Limits := [("cpu", { Value := 2 }), ("memory", { Value := 4096 })],
                         Requests := [("cpu", { Value := 1 })] } },
        { Name := "sidecar", Image := "side:1",
          Resources := { Limits := [], Requests := [] } } ] }

/-- Namespaces `ns-a`, `ns-b`, `ns-a`: the name `ns-a` occurs twice. -/
def exNamespacesTwice : List RawNamespace :=
  [ { Name := "ns-a", Annotations := [], Labels := [] },
    { Name := "ns-b", Annotations := [], Labels := [] },
    { Name := "ns-a", Annotations := [("second", "yes")], Labels := [] } ]

/-- All four list calls fail. -/
def exClientsetDown : Clientset :=
  { Namespaces := .error "refused", Pods := .error "refused", ResourceQuotas := .error "refused",
    Nodes := .error "refused" }

/-- A node with cpu and memory in both resource lists, and other entries. -/
def exNodeSized : RawNode :=
  { Name := "node-3", Labels := [], ExternalID := "i-3",
    Allocatable := [("cpu", { Value := 4 }), ("memory", { Value := 8192 }),
                    ("pods", { Value := 110 })],
    Capacity := [("cpu", { Value := 8 }), ("memory", { Value := 16384 }),
                 ("requests.cpu", { Value := 3 })],
    Addresses := [], Conditions := [] }

/-- What the aggregation yields on the namespaces `ns-a`, `ns-b`, `ns-a` with
the example pods and quotas: the second `ns-a` record stays empty. -/
def exSnapshotTwice : AuditResults :=
  { NewAuditResults with Namespaces :=
      [ { NewNamespace "ns-a" with
            Pods := [podOf (exPod "p1" "ns-a" "u1"), podOf (exPod "p3" "ns-a" "u3")] },
        { NewNamespace "ns-b" with
            Pods := [podOf (exPod "p2" "ns-b" "u2")], ResourceQuotas := exQuotas.map quotaOf },
        { NewNamespace "ns-a" with Annotations := [("second", "yes")] } ] }

/-! ## The default rendering of a time (`Time.String`) -/

/-- The `k` low decimal digits of `u`, most significant first (the loop of
`formatNano` that fills its nine-byte buffer from the right). -/
def fixedDigits : Nat → Nat → List Char
  | 0, _ => []
  | k + 1, u => fixedDigits k (u / 10) ++ [Char.ofNat (48 + u % 10)]

/-- The digits without their trailing zeros (the trimming loop of `formatNano`). -/
def trimZeros (digits : List Char) : List Char :=
  (digits.reverse.dropWhile (fun c => c == '0')).reverse

/-- `formatNano(b, nanosec, 9, true)`: a point and the nine digits of the
nanoseconds without trailing zeros, or nothing when all nine are zero. -/
def formatNano (nanosec : Nat) : List Char :=
  let digits := trimZeros (fixedDigits 9 nanosec)
  if digits = [] then [] else '.' :: digits

/-- `t.String()` for a UTC time without monotonic clock reading, that is
`t.Format("2006-01-02 15:04:05.999999999 -0700 MST")`; this is what `%s`
prints for `currentTime`. -/
def Time.String (t : Time) : String :=
  String.mk (appendInt t.year 4 ++ ['-'] ++ appendInt t.month 2 ++ ['-'] ++ appendInt t.day 2
    ++ [' '] ++ appendInt t.hour 2 ++ [':'] ++ appendInt t.min 2 ++ [':'] ++ appendInt t.sec 2
    ++ formatNano t.nsec.toNat ++ [' ', '+', '0', '0', '0', '0', ' ', 'U', 'T', 'C'])

/-- The value of a character as a decimal digit. -/
def charVal (c : Char) : Nat := c.toNat - 48

/-- The number a list of decimal digits denotes. -/
def digitsValue (l : List Char) : Nat := l.foldl (fun acc c => 10 * acc + charVal c) 0

/-- The integer a sign followed by decimal digits denotes. -/
def signedValue (l : List Char) : Int :=
  match l with
  | [] => 0
  | c :: rest => if c = '-' then -(digitsValue rest : Int) else (digitsValue (c :: rest) : Int)

/-- The characters that `decimalDigits` and `fixedDigits` produce. -/
def isDigitChar (c : Char) : Prop := ∃ d, d < 10 ∧ c = Char.ofNat (48 + d)

/-- The replacement of line 40 seen character by character. -/
def spaceToUnderscore (c : Char) : Char := if c = ' ' then '_' else c

/-! ## Serialization (`encoding/json` applied to the types of types.go)

The snapshot is written with `json.Marshal` (line 50). For the round trip the
Go values are taken as `encoding/json` sees them: a string is a sequence of
bytes that need not be valid UTF-8, a `float64` may be a NaN or an infinity,
and a nil slice or map is told apart from an empty one (`none` is nil). A
document is a JSON value, the tree that its bytes denote. The packages
`encoding/json` and `unicode/utf8` belong to the Go standard library, not to
the repository; what they do is rendered here from their sources. -/

/-- A JSON value: a number is the rational number that its literal denotes, a
string the text that its literal denotes. -/
inductive JSON where
  | null
  | bool (b : Bool)
  | number (q : Rat)
  | string (s : String)
  | array (elems : List JSON)
  | object (members : List (String × JSON))

namespace GoValue

/-! ### Strings and `unicode/utf8` -/

/-- A Go `string`: its bytes, each a number below 256. -/
abbrev GoString := List Nat

/-- The rune `utf8.RuneError`, U+FFFD. -/
def RuneError : Nat := 0xFFFD

/-- The table `first` with `acceptRanges` of `unicode/utf8`: for a byte above
0x7F, the width of the encoding that it starts and the range accepted for the
second byte; width 1 for a byte that starts no encoding. -/
def leadByte (p0 : Nat) : Nat × Nat × Nat :=
  if p0 < 0xC2 then (1, 0, 0)
  else if p0 ≤ 0xDF then (2, 0x80, 0xBF)
  else if p0 = 0xE0 then (3, 0xA0, 0xBF)
  else if p0 = 0xED then (3, 0x80, 0x9F)
  else if p0 ≤ 0xEF then (3, 0x80, 0xBF)
  else if p0 = 0xF0 then (4, 0x90, 0xBF)
  else if p0 ≤ 0xF3 then (4, 0x80, 0xBF)
  else if p0 = 0xF4 then (4, 0x80, 0x8F)
  else (1, 0, 0)

/-- `utf8.DecodeRune`: the rune at the front of `p` and its width in bytes; an
invalid or cut-off encoding gives `(RuneError, 1)`, no bytes `(RuneError, 0)`.
The masks and shifts are written as remainders and products. -/
def DecodeRune (p : List Nat) : Nat × Nat :=
  if p.length < 1 then (RuneError, 0) else
  if p.getD 0 0 < 0x80 then (p.getD 0 0, 1) else
  if (leadByte (p.getD 0 0)).1 = 1 then (RuneError, 1) else
  if p.length < (leadByte (p.getD 0 0)).1 then (RuneError, 1) else
  if p.getD 1 0 < (leadByte (p.getD 0 0)).2.1 ∨ (leadByte (p.getD 0 0)).2.2 < p.getD 1 0 then
    (RuneError, 1) else
  if (leadByte (p.getD 0 0)).1 ≤ 2 then (p.getD 0 0 % 32 * 64 + p.getD 1 0 % 64, 2) else
  if p.getD 2 0 < 0x80 ∨ 0xBF < p.getD 2 0 then (RuneError, 1) else
  if (leadByte (p.getD 0 0)).1 ≤ 3 then
    (p.getD 0 0 % 16 * 4096 + p.getD 1 0 % 64 * 64 + p.getD 2 0 % 64, 3) else
  if p.getD 3 0 < 0x80 ∨ 0xBF < p.getD 3 0 then (RuneError, 1) else
  (p.getD 0 0 % 8 * 262144 + p.getD 1 0 % 64 * 4096 + p.getD 2 0 % 64 * 64 + p.getD 3 0 % 64, 4)

/-- `utf8.AppendRune`: the bytes of a rune; a surrogate or a value above
U+10FFFF is written as U+FFFD. -/
def EncodeRune (r : Nat) : List Nat :=
  if r ≤ 0x7F then [r]
  else if r ≤ 0x7FF then [0xC0 + r / 64, 0x80 + r % 64]
  else if 0x10FFFF < r ∨ (0xD800 ≤ r ∧ r ≤ 0xDFFF) then [0xEF, 0xBF, 0xBD]
  else if r ≤ 0xFFFF then [0xE0 + r / 4096, 0x80 + r / 64 % 64, 0x80 + r % 64]
  else [0xF0 + r / 262144, 0x80 + r / 4096 % 64, 0x80 + r / 64 % 64, 0x80 + r % 64]

/-- The loop over a string that the encoder and `utf8.Valid` make, one entry
per step: the rune read, or `none` where `DecodeRune` reports an error of width
1, after which the loop goes on one byte further. `fuel` bounds the steps. -/
def runes : Nat → List Nat → List (Option Nat)
  | 0, _ => []
  | fuel + 1, src =>
    if src = [] then []
    else if (DecodeRune src).1 = RuneError ∧ (DecodeRune src).2 = 1 then
      none :: runes fuel (src.drop 1)
    else some (DecodeRune src).1 :: runes fuel (src.drop (DecodeRune src).2)

/-- The text of the JSON string that the encoder writes for a Go string: every
byte that starts no valid encoding is written as U+FFFD. -/
def toText (src : GoString) : String :=
  String.mk ((runes src.length src).map (fun r => Char.ofNat (r.getD RuneError)))

/-- The Go string that the decoder builds from the text of a JSON string. -/
def ofText (s : String) : GoString := s.data.flatMap (fun c => EncodeRune c.toNat)

/-- `utf8.Valid`. -/
def utf8Valid (src : GoString) : Bool := (runes src.length src).all Option.isSome

/-- A string after encoding and decoding. -/
def coerce (src : GoString) : GoString := ofText (toText src)

/-! ### Numbers -/

/-- A `float64`: a finite value, given by the rational number it holds, a NaN
or an infinity. -/
inductive Float64 where
  | finite (value : Rat)
  | nan
  | inf (negative : Bool)
  deriving DecidableEq, Repr

def Float64.isFinite : Float64 → Bool
  | .finite _ => true
  | _ => false

/-! ### Maps -/

/-- A `map[string]string`: the list of its entries in increasing order of the
keys, the order in which `encoding/json` writes them. -/
abbrev GoMap := List (GoString × GoString)

/-- The comparison `<` of Go strings, byte by byte. -/
def bytesLess : List Nat → List Nat → Bool
  | [], [] => false
  | [], _ :: _ => true
  | _ :: _, [] => false
  | a :: s, b :: t => decide (a < b) || (a == b && bytesLess s t)

/-- The assignment `m[k] = v`. -/
def setEntry : GoMap → GoString → GoString → GoMap
  | [], k, v => [(k, v)]
  | (k0, v0) :: rest, k, v =>
    if k = k0 then (k, v) :: rest
    else if bytesLess k k0 then (k, v) :: (k0, v0) :: rest
    else (k0, v0) :: setEntry rest k v

/-- The entries are in increasing order of the keys. -/
def orderedKeys : GoMap → Bool
  | [] => true
  | kv :: rest => rest.all (fun e => bytesLess kv.1 e.1) && orderedKeys rest

/-! ### The types of types.go -/

/-- `ResourceValues` of types.go. -/
structure ResourceValues where
  Name : GoString
  CPULimits : Int
  MemoryLimits : Int
  CPURequests : Int
  MemoryRequests : Int
  deriving DecidableEq, Repr

/-- `Owner` of types.go. -/
structure Owner where
  ApiVersion : GoString
  BlockOwnerDeletion : Option Bool
  Controller : Option Bool
  Kind : GoString
  Name : GoString
  deriving DecidableEq, Repr

/-- `Container` of types.go. -/
structure Container where
  Name : GoString
  Image : GoString
  Resources : ResourceValues
  OwnerUID : GoString
  deriving DecidableEq, Repr

/-- `ResourceQuota` of types.go. -/
structure ResourceQuota where
  Name : GoString
  Namespace : GoString
  SpecHardResources : ResourceValues
  StatusHardResources : ResourceValues
  StatusUsedResources : ResourceValues
  deriving DecidableEq, Repr

/-- `Pod` of types.go. -/
structure Pod where
  Name : GoString
  Annotations : Option GoMap
  Labels : Option GoMap
  Owners : Option (List Owner)
  Containers : Option (List Container)
  Status : GoString
  IP : GoString
  NodeName : GoString
  Namespace : GoString
  UID : GoString
  deriving DecidableEq, Repr

/-- `Namespace` of types.go. -/
structure Namespace where
  Name : GoString
  Annotations : Option GoMap
  Labels : Option GoMap
  ResourceQuotas : Option (List ResourceQuota)
  Pods : Option (List Pod)
  deriving DecidableEq, Repr

/-- `Node` of types.go. -/
structure Node where
  Name : GoString
  ExternalID : GoString
  InternalIP : GoString
  ExternalIP : GoString
  Allocatable : ResourceValues
  Capacity : ResourceValues
  Status : GoString
  Labels : Option GoMap
  deriving DecidableEq, Repr

/-- `AuditResults` of types.go; `Namespaces` is a slice of pointers, each of
which may be nil. -/
structure AuditResults where
  ClusterID : GoString
  Time : GoString
  Duration : Float64
  Nodes : Option (List Node)
  Namespaces : Option (List (Option Namespace))
  Success : Bool
  ErrorMessage : GoString
  deriving DecidableEq, Repr

/-- The zero `ResourceValues`. -/
def ResourceValues.zero : ResourceValues :=
  { Name := [], CPULimits := 0, MemoryLimits := 0, CPURequests := 0, MemoryRequests := 0 }

/-- `NewAuditResults`: `Namespaces` is `make(Namespaces, 0)`, empty and not nil. -/
def NewAuditResults : AuditResults :=
  { ClusterID := [], Time := [], Duration := .finite 0, Nodes := none, Namespaces := some [],
    Success := false, ErrorMessage := [] }

/-- `NewPod`: `Containers` is `make([]Container, 0)`, empty and not nil. -/
def NewPod (name : GoString) : Pod :=
  { Name := name, Annotations := none, Labels := none, Owners := none, Containers := some [],
    Status := [], IP := [], NodeName := [], Namespace := [], UID := [] }

/-- `NewNamespace`. -/
def NewNamespace (name : GoString) : Namespace :=
  { Name := name, Annotations := none, Labels := none, ResourceQuotas := none, Pods := none }

/-! ### `json.Marshal` -/

/-- A member with the `omitempty` option: left out when the value is empty. -/
def omitempty (key : String) (isEmpty : Bool) (value : JSON) : List (String × JSON) :=
  if isEmpty then [] else [(key, value)]

/-- The empty values among slices and maps: nil, and length zero. -/
def isEmptyValue {α : Type} : Option (List α) → Bool
  | none => true
  | some l => l.isEmpty

def encodeString (s : GoString) : JSON := .string (toText s)

def encodeInt (n : Int) : JSON := .number n

def encodeSlice {α : Type} (encode : α → JSON) : Option (List α) → JSON
  | none => .null
  | some l => .array (l.map encode)

def encodeMap : Option GoMap → JSON
  | none => .null
  | some m => .object (m.map (fun kv => (toText kv.1, encodeString kv.2)))

def encodeBoolPointer : Option Bool → JSON
  | none => .null
  | some b => .bool b

def encodeResourceValues (r : ResourceValues) : JSON :=
  .object [("name", encodeString r.Name), ("cpuLimits", encodeInt r.CPULimits),
    ("memoryLimits", encodeInt r.MemoryLimits), ("cpuRequests", encodeInt r.CPURequests),
    ("memoryRequests", encodeInt r.MemoryRequests)]

def encodeOwner (o : Owner) : JSON :=
  .object [("apiVersion", encodeString o.ApiVersion),
    ("blockOwnerDeletion", encodeBoolPointer o.BlockOwnerDeletion),
    ("controller", encodeBoolPointer o.Controller), ("kind", encodeString o.Kind),
    ("name", encodeString o.Name)]

def encodeContainer (c : Container) : JSON :=
  .object [("name", encodeString c.Name), ("image", encodeString c.Image),
    ("resources", encodeResourceValues c.Resources), ("ownerUid", encodeString c.OwnerUID)]

def encodeResourceQuota (q : ResourceQuota) : JSON :=
  .object [("name", encodeString q.Name), ("namespace", encodeString q.Namespace),
    ("specHardResources", encodeResourceValues q.SpecHardResources),
    ("statusHardResources", encodeResourceValues q.StatusHardResources),
    ("statusUsedResources", encodeResourceValues q.StatusUsedResources)]

/-- `Pod`: the untagged field goes under its Go name `Name`. -/
def encodePod (p : Pod) : JSON :=
  .object ([("Name", encodeString p.Name)]
    ++ (omitempty "annotations" (isEmptyValue p.Annotations) (encodeMap p.Annotations)
    ++ (omitempty "labels" (isEmptyValue p.Labels) (encodeMap p.Labels)
    ++ (omitempty "owner" (isEmptyValue p.Owners) (encodeSlice encodeOwner p.Owners)
    ++ (omitempty "containers" (isEmptyValue p.Containers)
          (encodeSlice encodeContainer p.Containers)
    ++ [("status", encodeString p.Status), ("ip", encodeString p.IP),
        ("nodeName", encodeString p.NodeName), ("namespace", encodeString p.Namespace),
        ("uid", encodeString p.UID)])))))

def encodeNamespace (ns : Namespace) : JSON :=
  .object ([("name", encodeString ns.Name)]
    ++ (omitempty "annotations" (isEmptyValue ns.Annotations) (encodeMap ns.Annotations)
    ++ (omitempty "labels" (isEmptyValue ns.Labels) (encodeMap ns.Labels)
    ++ (omitempty "resourceQuotas" (isEmptyValue ns.ResourceQuotas)
          (encodeSlice encodeResourceQuota ns.ResourceQuotas)
    ++ omitempty "pods" (isEmptyValue ns.Pods) (encodeSlice encodePod ns.Pods)))))

def encodeNamespacePointer : Option Namespace → JSON
  | none => .null
  | some ns => encodeNamespace ns

/-- `Node`: `omitempty` on the struct fields `allocatable` and `capacity` never
applies, a struct is not an empty value. -/
def encodeNode (n : Node) : JSON :=
  .object ([("name", encodeString n.Name), ("externalId", encodeString n.ExternalID),
      ("internalIp", encodeString n.InternalIP), ("externalIp", encodeString n.ExternalIP),
      ("allocatable", encodeResourceValues n.Allocatable),
      ("capacity", encodeResourceValues n.Capacity), ("status", encodeString n.Status)]
    ++ omitempty "labels" (isEmptyValue n.Labels) (encodeMap n.Labels))

/-- A `float64` member: a NaN or an infinity is an `UnsupportedValueError`. -/
def encodeFloat : Float64 → Option JSON
  | .finite q => some (.number q)
  | _ => none

/-- `json.Marshal` of a snapshot; `none` when it returns an error. -/
def Marshal (r : AuditResults) : Option JSON :=
  match encodeFloat r.Duration with
  | none => none
  | some duration =>
    some (.object ([("clusterId", encodeString r.ClusterID), ("time", encodeString r.Time),
        ("duration", duration)]
      ++ (omitempty "nodes" (isEmptyValue r.Nodes) (encodeSlice encodeNode r.Nodes)
      ++ (omitempty "namespaces" (isEmptyValue r.Namespaces)
            (encodeSlice encodeNamespacePointer r.Namespaces)
      ++ [("success", .bool r.Success), ("errorMessage", encodeString r.ErrorMessage)]))))

/-! ### `json.Unmarshal` into a zero value

A decoder receives the member found under the field's key, if any. A missing
member and `null` leave the zero value; a value of another kind is an error
(`none`). `Marshal` writes every key once and with the exact spelling of the
field's key, so a field is looked up under its exact key. -/

def decodeString : Option JSON → Option GoString
  | none => some []
  | some .null => some []
  | some (.string s) => some (ofText s)
  | _ => none

/-- An `int64` member: the number has to be an integer. -/
def decodeInt : Option JSON → Option Int
  | none => some 0
  | some .null => some 0
  | some (.number q) => if q.den = 1 then some q.num else none
  | _ => none

def decodeFloat : Option JSON → Option Float64
  | none => some (.finite 0)
  | some .null => some (.finite 0)
  | some (.number q) => some (.finite q)
  | _ => none

def decodeBool : Option JSON → Option Bool
  | none => some false
  | some .null => some false
  | some (.bool b) => some b
  | _ => none

def decodeBoolPointer : Option JSON → Option (Option Bool)
  | none => some none
  | some .null => some none
  | some (.bool b) => some (some b)
  | _ => none

/-- Decode every element of an array. -/
def decodeAll {α : Type} (decode : JSON → Option α) : List JSON → Option (List α)
  | [] => some []
  | x :: xs =>
    match decode x, decodeAll decode xs with
    | some a, some rest => some (a :: rest)
    | _, _ => none

def decodeSlice {α : Type} (decode : JSON → Option α) : Option JSON → Option (Option (List α))
  | none => some none
  | some .null => some none
  | some (.array xs) => (decodeAll decode xs).map some
  | _ => none

/-- Decode the members of an object into the map `m`, one assignment per
member, so that a key met again replaces the earlier value. -/
def decodeEntries : List (String × JSON) → GoMap → Option GoMap
  | [], m => some m
  | (k, v) :: rest, m =>
    match decodeString (some v) with
    | some s => decodeEntries rest (setEntry m (ofText k) s)
    | none => none

def decodeMap : Option JSON → Option (Option GoMap)
  | none => some none
  | some .null => some none
  | some (.object ms) => (decodeEntries ms []).map some
  | _ => none

def decodeResourceValues : Option JSON → Option ResourceValues
  | none => some ResourceValues.zero
  | some .null => some ResourceValues.zero
  | some (.object ms) => do
    let name ← decodeString (ms.lookup "name")
    let cpuLimits ← decodeInt (ms.lookup "cpuLimits")
    let memoryLimits ← decodeInt (ms.lookup "memoryLimits")
    let cpuRequests ← decodeInt (ms.lookup "cpuRequests")
    let memoryRequests ← decodeInt (ms.lookup "memoryRequests")
    pure { Name := name, CPULimits := cpuLimits, MemoryLimits := memoryLimits,
           CPURequests := cpuRequests, MemoryRequests := memoryRequests }
  | _ => none

def decodeOwner : JSON → Option Owner
  | .object ms => do
    let apiVersion ← decodeString (ms.lookup "apiVersion")
    let blockOwnerDeletion ← decodeBoolPointer (ms.lookup "blockOwnerDeletion")
    let controller ← decodeBoolPointer (ms.lookup "controller")
    let kind ← decodeString (ms.lookup "kind")
    let name ← decodeString (ms.lookup "name")
    pure { ApiVersion := apiVersion, BlockOwnerDeletion := blockOwnerDeletion,
           Controller := controller, Kind := kind, Name := name }
  | .null => some { ApiVersion := [], BlockOwnerDeletion := none, Controller := none,
                    Kind := [], Name := [] }
  | _ => none

def decodeContainer : JSON → Option Container
  | .object ms => do
    let name ← decodeString (ms.lookup "name")
    let image ← decodeString (ms.lookup "image")
    let resources ← decodeResourceValues (ms.lookup "resources")
    let ownerUid ← decodeString (ms.lookup "ownerUid")
    pure { Name := name, Image := image, Resources := resources, OwnerUID := ownerUid }
  | .null => some { Name := [], Image := [], Resources := ResourceValues.zero, OwnerUID := [] }
  | _ => none

def decodeResourceQuota : JSON → Option ResourceQuota
  | .object ms => do
    let name ← decodeString (ms.lookup "name")
    let ns ← decodeString (ms.lookup "namespace")
    let specHard ← decodeResourceValues (ms.lookup "specHardResources")
    let statusHard ← decodeResourceValues (ms.lookup "statusHardResources")
    let statusUsed ← decodeResourceValues (ms.lookup "statusUsedResources")
    pure { Name := name, Namespace := ns, SpecHardResources := specHard,
           StatusHardResources := statusHard, StatusUsedResources := statusUsed }
  | .null => some { Name := [], Namespace := [], SpecHardResources := ResourceValues.zero,
                    StatusHardResources := ResourceValues.zero,
                    StatusUsedResources := ResourceValues.zero }
  | _ => none

def decodePod : JSON → Option Pod
  | .object ms => do
    let name ← decodeString (ms.lookup "Name")
    let annotations ← decodeMap (ms.lookup "annotations")
    let labels ← decodeMap (ms.lookup "labels")
    let owners ← decodeSlice decodeOwner (ms.lookup "owner")
    let containers ← decodeSlice decodeContainer (ms.lookup "containers")
    let status ← decodeString (ms.lookup "status")
    let ip ← decodeString (ms.lookup "ip")
    let nodeName ← decodeString (ms.lookup "nodeName")
    let ns ← decodeString (ms.lookup "namespace")
    let uid ← decodeString (ms.lookup "uid")
    pure { Name := name, Annotations := annotations, Labels := labels, Owners := owners,
           Containers := containers, Status := status, IP := ip, NodeName := nodeName,
           Namespace := ns, UID := uid }
  | .null => some { Name := [], Annotations := none, Labels := none, Owners := none,
                    Containers := none, Status := [], IP := [], NodeName := [],
                    Namespace := [], UID := [] }
  | _ => none

def decodeNamespace : JSON → Option Namespace
  | .object ms => do
    let name ← decodeString (ms.lookup "name")
    let annotations ← decodeMap (ms.lookup "annotations")
    let labels ← decodeMap (ms.lookup "labels")
    let quotas ← decodeSlice decodeResourceQuota (ms.lookup "resourceQuotas")
    let pods ← decodeSlice decodePod (ms.lookup "pods")
    pure { Name := name, Annotations := annotations, Labels := labels,
           ResourceQuotas := quotas, Pods := pods }
  | _ => none

/-- An element of `[]*Namespace`: `null` gives the nil pointer. -/
def decodeNamespacePointer : JSON → Option (Option Namespace)
  | .null => some none
  | j => (decodeNamespace j).map some

def decodeNode : JSON → Option Node
  | .object ms => do
    let name ← decodeString (ms.lookup "name")
    let externalId ← decodeString (ms.lookup "externalId")
    let internalIp ← decodeString (ms.lookup "internalIp")
    let externalIp ← decodeString (ms.lookup "externalIp")
    let allocatable ← decodeResourceValues (ms.lookup "allocatable")
    let capacity ← decodeResourceValues (ms.lookup "capacity")
    let status ← decodeString (ms.lookup "status")
    let labels ← decodeMap (ms.lookup "labels")
    pure { Name := name, ExternalID := externalId, InternalIP := internalIp,
           ExternalIP := externalIp, Allocatable := allocatable, Capacity := capacity,
           Status := status, Labels := labels }
  | .null => some { Name := [], ExternalID := [], InternalIP := [], ExternalIP := [],
                    Allocatable := ResourceValues.zero, Capacity := ResourceValues.zero,
                    Status := [], Labels := none }
  | _ => none

/-- `json.Unmarshal` of a document into a zero `AuditResults`. -/
def Unmarshal : JSON → Option AuditResults
  | .object ms => do
    let clusterId ← decodeString (ms.lookup "clusterId")
    let time ← decodeString (ms.lookup "time")
    let duration ← decodeFloat (ms.lookup "duration")
    let nodes ← decodeSlice decodeNode (ms.lookup "nodes")
    let namespaces ← decodeSlice decodeNamespacePointer (ms.lookup "namespaces")
    let success ← decodeBool (ms.lookup "success")
    let errorMessage ← decodeString (ms.lookup "errorMessage")
    pure { ClusterID := clusterId, Time := time, Duration := duration, Nodes := nodes,
           Namespaces := namespaces, Success := success, ErrorMessage := errorMessage }
  | .null => some { ClusterID := [], Time := [], Duration := .finite 0, Nodes := none,
                    Namespaces := none, Success := false, ErrorMessage := [] }
  | _ => none

/-! ### What comes back -/

/-- An empty slice comes back as nil; the elements come back as `back` says. -/
def nilIfEmpty {α : Type} (back : α → α) : Option (List α) → Option (List α)
  | none => none
  | some [] => none
  | some (x :: xs) => some ((x :: xs).map back)

/-- A map after encoding and decoding: the entries are assigned one after the
other under their coerced keys. -/
def coerceMap (m : GoMap) : GoMap :=
  m.foldl (fun acc kv => setEntry acc (coerce kv.1) (coerce kv.2)) []

/-- An empty map comes back as nil. -/
def backMap : Option GoMap → Option GoMap
  | none => none
  | some [] => none
  | some (kv :: rest) => some (coerceMap (kv :: rest))

def ResourceValues.back (v : ResourceValues) : ResourceValues :=
  { v with Name := coerce v.Name }

def Owner.back (o : Owner) : Owner :=
  { o with ApiVersion := coerce o.ApiVersion, Kind := coerce o.Kind, Name := coerce o.Name }

def Container.back (c : Container) : Container :=
  { Name := coerce c.Name, Image := coerce c.Image, Resources := c.Resources.back,
    OwnerUID := coerce c.OwnerUID }

def ResourceQuota.back (q : ResourceQuota) : ResourceQuota :=
  { Name := coerce q.Name, Namespace := coerce q.Namespace,
    SpecHardResources := q.SpecHardResources.back,
    StatusHardResources := q.StatusHardResources.back,
    StatusUsedResources := q.StatusUsedResources.back }

def Pod.back (p : Pod) : Pod :=
  { Name := coerce p.Name, Annotations := backMap p.Annotations, Labels := backMap p.Labels,
    Owners := nilIfEmpty Owner.back p.Owners,
    Containers := nilIfEmpty Container.back p.Containers, Status := coerce p.Status,
    IP := coerce p.IP, NodeName := coerce p.NodeName, Namespace := coerce p.Namespace,
    UID := coerce p.UID }

def Namespace.back (ns : Namespace) : Namespace :=
  { Name := coerce ns.Name, Annotations := backMap ns.Annotations,
    Labels := backMap ns.Labels,
    ResourceQuotas := nilIfEmpty ResourceQuota.back ns.ResourceQuotas,
    Pods := nilIfEmpty Pod.back ns.Pods }

def Node.back (n : Node) : Node :=
  { Name := coerce n.Name, ExternalID := coerce n.ExternalID,
    InternalIP := coerce n.InternalIP, ExternalIP := coerce n.ExternalIP,
    Allocatable := n.Allocatable.back, Capacity := n.Capacity.back,
    Status := coerce n.Status, Labels := backMap n.Labels }

/-- The snapshot that decoding the encoding of `r` yields: every string is
coerced to valid UTF-8, and every empty slice or map under an `omitempty` tag
is nil. -/
def AuditResults.back (r : AuditResults) : AuditResults :=
  { ClusterID := coerce r.ClusterID, Time := coerce r.Time, Duration := r.Duration,
    Nodes := nilIfEmpty Node.back r.Nodes,
    Namespaces := nilIfEmpty (Option.map Namespace.back) r.Namespaces,
    Success := r.Success, ErrorMessage := coerce r.ErrorMessage }

/-! ### The snapshot with its empty slices and maps made nil -/

def Pod.emptyToNil (p : Pod) : Pod :=
  { p with Annotations := nilIfEmpty id p.Annotations, Labels := nilIfEmpty id p.Labels,
           Owners := nilIfEmpty id p.Owners, Containers := nilIfEmpty id p.Containers }

def Namespace.emptyToNil (ns : Namespace) : Namespace :=
  { ns with Annotations := nilIfEmpty id ns.Annotations, Labels := nilIfEmpty id ns.Labels,
            ResourceQuotas := nilIfEmpty id ns.ResourceQuotas,
            Pods := nilIfEmpty Pod.emptyToNil ns.Pods }

def Node.emptyToNil (n : Node) : Node :=
  { n with Labels := nilIfEmpty id n.Labels }

/-- The snapshot `r` with every empty slice or map under an `omitempty` tag
replaced by nil, and nothing else changed. -/
def AuditResults.emptyToNil (r : AuditResults) : AuditResults :=
  { r with Nodes := nilIfEmpty Node.emptyToNil r.Nodes,
           Namespaces := nilIfEmpty (Option.map Namespace.emptyToNil) r.Namespaces }

/-- No slice or map under an `omitempty` tag is empty without being nil. -/
def noEmptyNonNil {α : Type} (inner : α → Prop) : Option (List α) → Prop
  | none => True
  | some [] => False
  | some (x :: xs) => ∀ a ∈ x :: xs, inner a

def Pod.canonical (p : Pod) : Prop :=
  noEmptyNonNil (fun _ => True) p.Annotations ∧ noEmptyNonNil (fun _ => True) p.Labels ∧
    noEmptyNonNil (fun _ => True) p.Owners ∧ noEmptyNonNil (fun _ => True) p.Containers

def Namespace.canonical (ns : Namespace) : Prop :=
  noEmptyNonNil (fun _ => True) ns.Annotations ∧ noEmptyNonNil (fun _ => True) ns.Labels ∧
    noEmptyNonNil (fun _ => True) ns.ResourceQuotas ∧ noEmptyNonNil Pod.canonical ns.Pods

def Node.canonical (n : Node) : Prop := noEmptyNonNil (fun _ => True) n.Labels

def AuditResults.canonical (r : AuditResults) : Prop :=
  noEmptyNonNil Node.canonical r.Nodes ∧
    noEmptyNonNil (fun ns => ∀ x, ns = some x → x.canonical) r.Namespaces

/-! ### Strings that are valid UTF-8, maps in key order -/

/-- Every element of a slice or map, if there is one, passes `inner`. -/
def allOf {α : Type} (inner : α → Bool) : Option (List α) → Bool
  | none => true
  | some l => l.all inner

def validMap (m : Option GoMap) : Bool :=
  allOf (fun kv => utf8Valid kv.1 && utf8Valid kv.2) m

def orderedMap : Option GoMap → Bool
  | none => true
  | some m => orderedKeys m

def ResourceValues.validUTF8 (v : ResourceValues) : Bool := utf8Valid v.Name

def Owner.validUTF8 (o : Owner) : Bool :=
  utf8Valid o.ApiVersion && utf8Valid o.Kind && utf8Valid o.Name

def Container.validUTF8 (c : Container) : Bool :=
  utf8Valid c.Name && utf8Valid c.Image && c.Resources.validUTF8 && utf8Valid c.OwnerUID

def ResourceQuota.validUTF8 (q : ResourceQuota) : Bool :=
  utf8Valid q.Name && utf8Valid q.Namespace && q.SpecHardResources.validUTF8 &&
    q.StatusHardResources.validUTF8 && q.StatusUsedResources.validUTF8

def Pod.validUTF8 (p : Pod) : Bool :=
  utf8Valid p.Name && validMap p.Annotations && validMap p.Labels &&
    allOf Owner.validUTF8 p.Owners && allOf Container.validUTF8 p.Containers &&
    utf8Valid p.Status && utf8Valid p.IP && utf8Valid p.NodeName && utf8Valid p.Namespace &&
    utf8Valid p.UID

def Namespace.validUTF8 (ns : Namespace) : Bool :=
  utf8Valid ns.Name && validMap ns.Annotations && validMap ns.Labels &&
    allOf ResourceQuota.validUTF8 ns.ResourceQuotas && allOf Pod.validUTF8 ns.Pods

def Node.validUTF8 (n : Node) : Bool :=
  utf8Valid n.Name && utf8Valid n.ExternalID && utf8Valid n.InternalIP &&
    utf8Valid n.ExternalIP && n.Allocatable.validUTF8 && n.Capacity.validUTF8 &&
    utf8Valid n.Status && validMap n.Labels

/-- Every string of the snapshot, the keys and values of its maps included, is
valid UTF-8. -/
def AuditResults.validUTF8 (r : AuditResults) : Bool :=
  utf8Valid r.ClusterID && utf8Valid r.Time && allOf Node.validUTF8 r.Nodes &&
    allOf (fun ns => match ns with
      | none => true
      | some x => x.validUTF8) r.Namespaces &&
    utf8Valid r.ErrorMessage

def Pod.ordered (p : Pod) : Bool := orderedMap p.Annotations && orderedMap p.Labels

def Namespace.ordered (ns : Namespace) : Bool :=
  orderedMap ns.Annotations && orderedMap ns.Labels && allOf Pod.ordered ns.Pods

def Node.ordered (n : Node) : Bool := orderedMap n.Labels

/-- Every map of the snapshot is given by its entries in increasing key order. -/
def AuditResults.ordered (r : AuditResults) : Bool :=
  allOf Node.ordered r.Nodes &&
    allOf (fun ns => match ns with
      | none => true
      | some x => x.ordered) r.Namespaces

/-! ### Example snapshots -/

/-- A snapshot with one namespace holding a pod from `NewPod`. -/
def exSnapshot : AuditResults :=
  { NewAuditResults with
    ClusterID := ofText "east-1",
    Namespaces := some [some { NewNamespace (ofText "ns-a") with
                               Pods := some [NewPod (ofText "p1")] }] }

/-- A snapshot without empty non-nil slices: one node, one namespace with a pod
that has an owner and a container. -/
def exSnapshotFull : AuditResults :=
  { ClusterID := ofText "east-1", Time := ofText "2017-12-15T10:30:00Z",
    Duration := .finite 65, Success := false, ErrorMessage := [],
    Nodes := some [ { Name := ofText "node-1", ExternalID := ofText "i-1",
                      InternalIP := ofText "10.0.0.1", ExternalIP := ofText "1.2.3.4",
                      Allocatable := ResourceValues.zero, Capacity := ResourceValues.zero,
                      Status := ofText "True",
                      Labels := some [(ofText "arch", ofText "amd64"),
                                      (ofText "zone", ofText "a")] } ],
    Namespaces := some [ some
      { Name := ofText "ns-a", Annotations := none,
        Labels := some [(ofText "team", ofText "a")], ResourceQuotas := none,
        Pods := some [ { Name := ofText "p1", Annotations := none, Labels := none,
                         Owners := some [ { ApiVersion := ofText "v1",
                                            BlockOwnerDeletion := none,
                                            Controller := some true, Kind := ofText "Job",
                                            Name := ofText "job-1" } ],
                         Containers := some [ { Name := ofText "app",
                                                Image := ofText "app:1",
                                                Resources := ResourceValues.zero,
                                                OwnerUID := ofText "u1" } ],
                         Status := [], IP := [], NodeName := ofText "node-1",
                         Namespace := ofText "ns-a", UID := ofText "u1" } ] } ] }

/-- A snapshot whose Duration is a NaN. -/
def exSnapshotNaN : AuditResults := { exSnapshotFull with Duration := .nan }

/-- A snapshot whose cluster id is the three bytes `a`, 0xFF, `b`: not valid
UTF-8. -/
def exSnapshotBadID : AuditResults := { exSnapshotFull with ClusterID := [0x61, 0xFF, 0x62] }

end GoValue

/-! ## Lemmas on `Find` and on assignment through the pointer it returns -/

/-- `Find` returns `nil` exactly when no record carries the name. -/
theorem find_eq_none_iff (n : Namespaces) (s : String) :
    n.Find s = none ↔ ∀ ns ∈ n, ns.Name ≠ s := by
  induction n with
  | nil => simp [Namespaces.Find]
  | cons ns rest ih =>
    by_cases h : ns.Name = s
    · simp [Namespaces.Find, h]
    · cases hf : Namespaces.Find rest s with
      | none => simpa [Namespaces.Find, h, hf] using ih.mp hf
      | some i =>
        have hne : ¬ ∀ x ∈ rest, x.Name ≠ s := fun hall => by
          rw [ih.mpr hall] at hf
          cases hf
        simpa [Namespaces.Find, h, hf] using hne

/-- A pointer returned by `Find` splits the slice around the first record
named `s`, and an assignment through it rewrites that record only. -/
theorem find_split (f : Namespace → Namespace) (n : Namespaces) (s : String) (i : Nat)
    (h : n.Find s = some i) :
    ∃ l ns r, n = l ++ ns :: r ∧ ns.Name = s ∧ (∀ x ∈ l, x.Name ≠ s) ∧ l.length = i ∧
      Namespaces.update f n i = l ++ f ns :: r := by
  induction n generalizing i with
  | nil => simp [Namespaces.Find] at h
  | cons hd rest ih =>
    by_cases hn : hd.Name = s
    · simp only [Namespaces.Find, hn, if_true, Option.some.injEq] at h
      subst h
      exact ⟨[], hd, rest, by simp, hn, by simp, rfl, rfl⟩
    · cases hf : Namespaces.Find rest s with
      | none => simp [Namespaces.Find, hn, hf] at h
      | some j =>
        simp only [Namespaces.Find, hn, if_false, hf, Option.some.injEq] at h
        subst h
        obtain ⟨l, ns, r, h1, h2, h3, h4, h5⟩ := ih j hf
        refine ⟨hd :: l, ns, r, by simp [h1], h2, ?_, by simp [h4], ?_⟩
        · intro x hx
          rcases List.mem_cons.mp hx with rfl | hx
          · exact hn
          · exact h3 x hx
        · simp [Namespaces.update, h5]

theorem podOf_namespace (p : RawPod) : (podOf p).Namespace = p.Namespace := by
  have h1 : ∀ (os : List OwnerReference) (pod : Pod),
      (os.foldl (fun (pod : Pod) o => { pod with Owners := pod.Owners ++ [ownerOf o] })
        pod).Namespace = pod.Namespace := by
    intro os
    induction os with
    | nil => intro pod; rfl
    | cons o os ih => intro pod; simp only [List.foldl_cons]; rw [ih]
  have h2 : ∀ (cs : List RawContainer) (pod : Pod),
      (cs.foldl (fun (pod : Pod) c =>
        { pod with Containers := pod.Containers ++ [containerOf p.UID c] })
        pod).Namespace = pod.Namespace := by
    intro cs
    induction cs with
    | nil => intro pod; rfl
    | cons c cs ih => intro pod; simp only [List.foldl_cons]; rw [ih]
  simp only [podOf]
  rw [h2, h1]

theorem quotaOf_namespace (q : RawResourceQuota) : (quotaOf q).Namespace = q.Namespace := rfl

/-- One pod whose namespace exists is attached to a record of that name. -/
theorem podStep_spec (results : AuditResults) (p : RawPod)
    (h : p.Namespace ∈ results.Namespaces.map (fun ns => ns.Name)) :
    ∃ r, podStep results p = some r ∧ sameFrame r results ∧
      r.Namespaces.map Namespace.header = results.Namespaces.map Namespace.header ∧
      r.Namespaces.map (fun ns => ns.ResourceQuotas)
        = results.Namespaces.map (fun ns => ns.ResourceQuotas) ∧
      (r.Namespaces.flatMap (fun ns => ns.Pods)).Perm
        (results.Namespaces.flatMap (fun ns => ns.Pods) ++ [podOf p]) ∧
      (childrenMatch results.Namespaces → childrenMatch r.Namespaces) := by
  cases hf : results.Namespaces.Find (podOf p).Namespace with
  | none =>
    exfalso
    rw [podOf_namespace] at hf
    obtain ⟨ns, hns, hname⟩ := List.mem_map.mp h
    exact (find_eq_none_iff _ _).mp hf ns hns hname
  | some i =>
    obtain ⟨l, ns, r, h1, h2, -, -, h5⟩ :=
      find_split (fun ns => { ns with Pods := ns.Pods ++ [podOf p] }) _ _ i hf
    refine ⟨{ results with Namespaces := l ++ { ns with Pods := ns.Pods ++ [podOf p] } :: r },
      by simp only [podStep, hf, h5], ⟨rfl, rfl, rfl, rfl, rfl, rfl⟩, ?_, ?_, ?_, ?_⟩
    · simp [h1, Namespace.header]
    · simp [h1]
    · simp only [h1, List.flatMap_append, List.flatMap_cons, List.append_assoc]
      refine List.Perm.append_left _ (List.Perm.append_left _ ?_)
      exact List.perm_append_comm
    · intro hc x hx
      simp only [List.mem_append, List.mem_cons] at hx
      have hc' : ∀ y, y ∈ l ∨ y = ns ∨ y ∈ r → _ := fun y hy =>
        hc y (by rw [h1]; simpa using hy)
      rcases hx with hx | rfl | hx
      · exact hc' x (Or.inl hx)
      · refine ⟨?_, (hc' ns (Or.inr (Or.inl rfl))).2⟩
        intro q hq
        rcases List.mem_append.mp hq with hq | hq
        · exact (hc' ns (Or.inr (Or.inl rfl))).1 q hq
        · rw [List.mem_singleton.mp hq]
          exact h2.symm
      · exact hc' x (Or.inr (Or.inr hx))

/-- One quota whose namespace exists is attached to a record of that name. -/
theorem quotaStep_spec (results : AuditResults) (q : RawResourceQuota)
    (h : q.Namespace ∈ results.Namespaces.map (fun ns => ns.Name)) :
    ∃ r, quotaStep results q = some r ∧ sameFrame r results ∧
      r.Namespaces.map Namespace.header = results.Namespaces.map Namespace.header ∧
      r.Namespaces.map (fun ns => ns.Pods) = results.Namespaces.map (fun ns => ns.Pods) ∧
      (r.Namespaces.flatMap (fun ns => ns.ResourceQuotas)).Perm
        (results.Namespaces.flatMap (fun ns => ns.ResourceQuotas) ++ [quotaOf q]) ∧
      (childrenMatch results.Namespaces → childrenMatch r.Namespaces) := by
  cases hf : results.Namespaces.Find (quotaOf q).Namespace with
  | none =>
    exfalso
    rw [quotaOf_namespace] at hf
    obtain ⟨ns, hns, hname⟩ := List.mem_map.mp h
    exact (find_eq_none_iff _ _).mp hf ns hns hname
  | some i =>
    obtain ⟨l, ns, r, h1, h2, -, -, h5⟩ :=
      find_split (fun ns => { ns with ResourceQuotas := ns.ResourceQuotas ++ [quotaOf q] })
        _ _ i hf
    refine ⟨{ results with Namespaces :=
        l ++ { ns with ResourceQuotas := ns.ResourceQuotas ++ [quotaOf q] } :: r },
      by simp only [quotaStep, hf, h5], ⟨rfl, rfl, rfl, rfl, rfl, rfl⟩, ?_, ?_, ?_, ?_⟩
    · simp [h1, Namespace.header]
    · simp [h1]
    · simp only [h1, List.flatMap_append, List.flatMap_cons, List.append_assoc]
      refine List.Perm.append_left _ (List.Perm.append_left _ ?_)
      exact List.perm_append_comm
    · intro hc x hx
      simp only [List.mem_append, List.mem_cons] at hx
      have hc' : ∀ y, y ∈ l ∨ y = ns ∨ y ∈ r → _ := fun y hy =>
        hc y (by rw [h1]; simpa using hy)
      rcases hx with hx | rfl | hx
      · exact hc' x (Or.inl hx)
      · refine ⟨(hc' ns (Or.inr (Or.inl rfl))).1, ?_⟩
        intro c hq
        rcases List.mem_append.mp hq with hq | hq
        · exact (hc' ns (Or.inr (Or.inl rfl))).2 c hq
        · rw [List.mem_singleton.mp hq]
          exact h2.symm
      · exact hc' x (Or.inr (Or.inr hx))

theorem names_of_header {a b : Namespaces}
    (h : a.map Namespace.header = b.map Namespace.header) :
    a.map (fun ns => ns.Name) = b.map (fun ns => ns.Name) := by
  have := congrArg (List.map Prod.fst) h
  simpa [List.map_map, Function.comp_def, Namespace.header] using this

theorem flatMap_of_map_eq {β : Type} (f : Namespace → List β) {a b : Namespaces}
    (h : a.map f = b.map f) : a.flatMap f = b.flatMap f := by
  have := congrArg List.flatten h
  simpa [List.flatMap, List.flatMap_def] using this

/-- The pod loop on a snapshot that has a record for every pod's namespace. -/
theorem podLoop_spec (pods : List RawPod) (results : AuditResults)
    (h : ∀ p ∈ pods, p.Namespace ∈ results.Namespaces.map (fun ns => ns.Name)) :
    ∃ r, pods.foldlM podStep results = some r ∧ sameFrame r results ∧
      r.Namespaces.map Namespace.header = results.Namespaces.map Namespace.header ∧
      r.Namespaces.map (fun ns => ns.ResourceQuotas)
        = results.Namespaces.map (fun ns => ns.ResourceQuotas) ∧
      (r.Namespaces.flatMap (fun ns => ns.Pods)).Perm
        (results.Namespaces.flatMap (fun ns => ns.Pods) ++ pods.map podOf) ∧
      (childrenMatch results.Namespaces → childrenMatch r.Namespaces) := by
  induction pods generalizing results with
  | nil => exact ⟨results, rfl, ⟨rfl, rfl, rfl, rfl, rfl, rfl⟩, rfl, rfl, by simp, id⟩
  | cons p ps ih =>
    obtain ⟨r1, e1, f1, n1, q1, p1, c1⟩ := podStep_spec results p (h p (by simp))
    have h' : ∀ x ∈ ps, x.Namespace ∈ r1.Namespaces.map (fun ns => ns.Name) := by
      intro x hx
      rw [names_of_header n1]
      exact h x (by simp [hx])
    obtain ⟨r2, e2, f2, n2, q2, p2, c2⟩ := ih r1 h'
    refine ⟨r2, by simp [List.foldlM_cons, e1, e2], ?_, n2.trans n1, q2.trans q1, ?_,
      fun hc => c2 (c1 hc)⟩
    · obtain ⟨a1, a2, a3, a4, a5, a6⟩ := f1
      obtain ⟨b1, b2, b3, b4, b5, b6⟩ := f2
      exact ⟨b1.trans a1, b2.trans a2, b3.trans a3, b4.trans a4, b5.trans a5, b6.trans a6⟩
    · refine p2.trans ?_
      simpa [List.append_assoc] using List.Perm.append_right (List.map podOf ps) p1

/-- The quota loop on a snapshot that has a record for every quota's namespace. -/
theorem quotaLoop_spec (quotas : List RawResourceQuota) (results : AuditResults)
    (h : ∀ q ∈ quotas, q.Namespace ∈ results.Namespaces.map (fun ns => ns.Name)) :
    ∃ r, quotas.foldlM quotaStep results = some r ∧ sameFrame r results ∧
      r.Namespaces.map Namespace.header = results.Namespaces.map Namespace.header ∧
      r.Namespaces.map (fun ns => ns.Pods) = results.Namespaces.map (fun ns => ns.Pods) ∧
      (r.Namespaces.flatMap (fun ns => ns.ResourceQuotas)).Perm
        (results.Namespaces.flatMap (fun ns => ns.ResourceQuotas) ++ quotas.map quotaOf) ∧
      (childrenMatch results.Namespaces → childrenMatch r.Namespaces) := by
  induction quotas generalizing results with
  | nil => exact ⟨results, rfl, ⟨rfl, rfl, rfl, rfl, rfl, rfl⟩, rfl, rfl, by simp, id⟩
  | cons q qs ih =>
    obtain ⟨r1, e1, f1, n1, q1, p1, c1⟩ := quotaStep_spec results q (h q (by simp))
    have h' : ∀ x ∈ qs, x.Namespace ∈ r1.Namespaces.map (fun ns => ns.Name) := by
      intro x hx
      rw [names_of_header n1]
      exact h x (by simp [hx])
    obtain ⟨r2, e2, f2, n2, q2, p2, c2⟩ := ih r1 h'
    refine ⟨r2, by simp [List.foldlM_cons, e1, e2], ?_, n2.trans n1, q2.trans q1, ?_,
      fun hc => c2 (c1 hc)⟩
    · obtain ⟨a1, a2, a3, a4, a5, a6⟩ := f1
      obtain ⟨b1, b2, b3, b4, b5, b6⟩ := f2
      exact ⟨b1.trans a1, b2.trans a2, b3.trans a3, b4.trans a4, b5.trans a5, b6.trans a6⟩
    · refine p2.trans ?_
      simpa [List.append_assoc] using List.Perm.append_right (List.map quotaOf qs) p1

/-- The namespace loop appends one childless record per inventory namespace. -/
theorem namespaceLoop_spec (namespaces : List RawNamespace) (results : AuditResults) :
    namespaces.foldl namespaceStep results =
      { results with Namespaces := results.Namespaces ++ namespaces.map (fun each =>
          { NewNamespace each.Name with Annotations := each.Annotations, Labels := each.Labels }) }
    := by
  induction namespaces generalizing results with
  | nil => simp
  | cons n ns ih => simp [List.foldl_cons, ih, namespaceStep]

/-- The node loop appends one record per inventory node. -/
theorem nodeLoop_spec (nodes : List RawNode) (results : AuditResults) :
    nodes.foldl nodeStep results =
      { results with Nodes := results.Nodes ++ nodes.map nodeOf } := by
  induction nodes generalizing results with
  | nil => simp
  | cons n ns ih => simp [List.foldl_cons, ih, nodeStep]

/-! ## Aggregation: every child lands in exactly one record -/

/-- C1: when every pod's and every quota's namespace is the name of an input
namespace, `generateAuditResults` returns a snapshot; the pods stored over all
its Namespace records are, as a multiset, exactly the records built from the
input pods (none dropped, none duplicated), likewise for the quotas; the totals
equal the input counts; and every child sits in a record whose Name equals the
child's Namespace field. -/
theorem generateAuditResults_attaches_every_child
    (namespaces : List RawNamespace) (pods : List RawPod)
    (resourceQuotas : List RawResourceQuota) (nodes : List RawNode)
    (hp : ∀ p ∈ pods, ∃ n ∈ namespaces, n.Name = p.Namespace)
    (hq : ∀ q ∈ resourceQuotas, ∃ n ∈ namespaces, n.Name = q.Namespace) :
    ∃ r, generateAuditResults namespaces pods resourceQuotas nodes = some r ∧
      (r.Namespaces.flatMap (fun ns => ns.Pods)).Perm (pods.map podOf) ∧
      (r.Namespaces.flatMap (fun ns => ns.ResourceQuotas)).Perm (resourceQuotas.map quotaOf) ∧
      (r.Namespaces.map (fun ns => ns.Pods.length)).sum = pods.length ∧
      (r.Namespaces.map (fun ns => ns.ResourceQuotas.length)).sum = resourceQuotas.length ∧
      (∀ ns ∈ r.Namespaces, ∀ p ∈ ns.Pods, p.Namespace = ns.Name) ∧
      (∀ ns ∈ r.Namespaces, ∀ q ∈ ns.ResourceQuotas, q.Namespace = ns.Name) := by
  have h0 := namespaceLoop_spec namespaces NewAuditResults
  set r0 := namespaces.foldl namespaceStep NewAuditResults with hr0
  have hnames : r0.Namespaces.map (fun ns => ns.Name) = namespaces.map (fun n => n.Name) := by
    rw [h0]; simp [NewAuditResults, NewNamespace, List.map_map, Function.comp_def]
  have hpods0 : r0.Namespaces.flatMap (fun ns => ns.Pods) = [] := by
    rw [h0]; simp [NewAuditResults, NewNamespace, List.flatMap_def]
  have hquotas0 : r0.Namespaces.flatMap (fun ns => ns.ResourceQuotas) = [] := by
    rw [h0]; simp [NewAuditResults, NewNamespace, List.flatMap_def]
  have hc0 : childrenMatch r0.Namespaces := by
    rw [h0]
    intro ns hns
    simp only [NewAuditResults, List.nil_append, List.mem_map] at hns
    obtain ⟨each, -, rfl⟩ := hns
    simp [NewNamespace]
  have hp' : ∀ p ∈ pods, p.Namespace ∈ r0.Namespaces.map (fun ns => ns.Name) := by
    intro p hpm
    obtain ⟨n, hn, e⟩ := hp p hpm
    rw [hnames]
    exact List.mem_map.mpr ⟨n, hn, e⟩
  obtain ⟨r1, e1, -, n1, q1, p1, c1⟩ := podLoop_spec pods r0 hp'
  have hq' : ∀ q ∈ resourceQuotas, q.Namespace ∈ r1.Namespaces.map (fun ns => ns.Name) := by
    intro q hqm
    obtain ⟨n, hn, e⟩ := hq q hqm
    rw [names_of_header n1, hnames]
    exact List.mem_map.mpr ⟨n, hn, e⟩
  obtain ⟨r2, e2, -, n2, q2, p2, c2⟩ := quotaLoop_spec resourceQuotas r1 hq'
  have hperm1 : (r2.Namespaces.flatMap (fun ns => ns.Pods)).Perm (pods.map podOf) := by
    rw [flatMap_of_map_eq _ q2]
    simpa [hpods0] using p1
  have hperm2 : (r2.Namespaces.flatMap (fun ns => ns.ResourceQuotas)).Perm
      (resourceQuotas.map quotaOf) := by
    have : r1.Namespaces.flatMap (fun ns => ns.ResourceQuotas) = [] := by
      rw [flatMap_of_map_eq _ q1]; exact hquotas0
    simpa [this] using p2
  have hc2 := c2 (c1 hc0)
  refine ⟨nodes.foldl nodeStep r2, ?_, ?_, ?_, ?_, ?_, ?_, ?_⟩
  · simp only [generateAuditResults, ← hr0, e1, e2, Option.bind_eq_bind, Option.some_bind,
      Option.pure_def, bind_pure_comp]
  · rw [nodeLoop_spec]; exact hperm1
  · rw [nodeLoop_spec]; exact hperm2
  · rw [nodeLoop_spec]
    have := hperm1.length_eq
    simpa [List.length_flatMap, Function.comp_def] using this
  · rw [nodeLoop_spec]
    have := hperm2.length_eq
    simpa [List.length_flatMap, Function.comp_def] using this
  · rw [nodeLoop_spec]; exact fun ns hns => (hc2 ns hns).1
  · rw [nodeLoop_spec]; exact fun ns hns => (hc2 ns hns).2

/-- The example inventory is referentially consistent, and C1 applies to it. -/
theorem generateAuditResults_attaches_every_child_witness :
    (∀ p ∈ exPods, ∃ n ∈ exNamespaces, n.Name = p.Namespace) ∧
    (∀ q ∈ exQuotas, ∃ n ∈ exNamespaces, n.Name = q.Namespace) ∧
    ∃ r, generateAuditResults exNamespaces exPods exQuotas exNodes = some r ∧
      (r.Namespaces.flatMap (fun ns => ns.Pods)).Perm (exPods.map podOf) ∧
      (r.Namespaces.flatMap (fun ns => ns.ResourceQuotas)).Perm (exQuotas.map quotaOf) ∧
      (r.Namespaces.map (fun ns => ns.Pods.length)).sum = exPods.length ∧
      (r.Namespaces.map (fun ns => ns.ResourceQuotas.length)).sum = exQuotas.length ∧
      (∀ ns ∈ r.Namespaces, ∀ p ∈ ns.Pods, p.Namespace = ns.Name) ∧
      (∀ ns ∈ r.Namespaces, ∀ q ∈ ns.ResourceQuotas, q.Namespace = ns.Name) :=
  have h1 : ∀ p ∈ exPods, ∃ n ∈ exNamespaces, n.Name = p.Namespace := by
    simp [exPods, exNamespaces, exPod]
  have h2 : ∀ q ∈ exQuotas, ∃ n ∈ exNamespaces, n.Name = q.Namespace := by
    simp [exQuotas, exNamespaces]
  ⟨h1, h2, generateAuditResults_attaches_every_child exNamespaces exPods exQuotas exNodes h1 h2⟩

/-! ## Aggregation: a child whose namespace is missing -/

theorem podStep_names (results r : AuditResults) (p : RawPod) (h : podStep results p = some r) :
    r.Namespaces.map (fun ns => ns.Name) = results.Namespaces.map (fun ns => ns.Name) := by
  cases hf : results.Namespaces.Find (podOf p).Namespace with
  | none => simp [podStep, hf] at h
  | some i =>
    obtain ⟨l, ns, t, h1, -, -, -, h5⟩ :=
      find_split (fun ns => { ns with Pods := ns.Pods ++ [podOf p] }) _ _ i hf
    simp only [podStep, hf, h5, Option.some.injEq] at h
    subst h
    simp [h1]

theorem quotaStep_names (results r : AuditResults) (q : RawResourceQuota)
    (h : quotaStep results q = some r) :
    r.Namespaces.map (fun ns => ns.Name) = results.Namespaces.map (fun ns => ns.Name) := by
  cases hf : results.Namespaces.Find (quotaOf q).Namespace with
  | none => simp [quotaStep, hf] at h
  | some i =>
    obtain ⟨l, ns, t, h1, -, -, -, h5⟩ :=
      find_split (fun ns => { ns with ResourceQuotas := ns.ResourceQuotas ++ [quotaOf q] })
        _ _ i hf
    simp only [quotaStep, hf, h5, Option.some.injEq] at h
    subst h
    simp [h1]

/-- The pod loop panics as soon as one pod names a namespace without a record. -/
theorem podLoop_panics (pods : List RawPod) (results : AuditResults)
    (h : ∃ p ∈ pods, p.Namespace ∉ results.Namespaces.map (fun ns => ns.Name)) :
    pods.foldlM podStep results = none := by
  induction pods generalizing results with
  | nil => simp at h
  | cons p ps ih =>
    rw [List.foldlM_cons]
    cases hs : podStep results p with
    | none => rfl
    | some r1 =>
      obtain ⟨x, hx, hmiss⟩ := h
      rcases List.mem_cons.mp hx with rfl | hx
      · exfalso
        have hnone : results.Namespaces.Find (podOf x).Namespace = none := by
          rw [podOf_namespace, find_eq_none_iff]
          intro ns hns e
          exact hmiss (List.mem_map.mpr ⟨ns, hns, e⟩)
        simp [podStep, hnone] at hs
      · exact ih r1 ⟨x, hx, by rw [podStep_names results r1 p hs]; exact hmiss⟩

/-- The quota loop panics as soon as one quota names a namespace without a record. -/
theorem quotaLoop_panics (quotas : List RawResourceQuota) (results : AuditResults)
    (h : ∃ q ∈ quotas, q.Namespace ∉ results.Namespaces.map (fun ns => ns.Name)) :
    quotas.foldlM quotaStep results = none := by
  induction quotas generalizing results with
  | nil => simp at h
  | cons q qs ih =>
    rw [List.foldlM_cons]
    cases hs : quotaStep results q with
    | none => rfl
    | some r1 =>
      obtain ⟨x, hx, hmiss⟩ := h
      rcases List.mem_cons.mp hx with rfl | hx
      · exfalso
        have hnone : results.Namespaces.Find (quotaOf x).Namespace = none := by
          rw [quotaOf_namespace, find_eq_none_iff]
          intro ns hns e
          exact hmiss (List.mem_map.mpr ⟨ns, hns, e⟩)
        simp [quotaStep, hnone] at hs
      · exact ih r1 ⟨x, hx, by rw [quotaStep_names results r1 q hs]; exact hmiss⟩

theorem podLoop_names (pods : List RawPod) (results r : AuditResults)
    (h : pods.foldlM podStep results = some r) :
    r.Namespaces.map (fun ns => ns.Name) = results.Namespaces.map (fun ns => ns.Name) := by
  induction pods generalizing results with
  | nil =>
    simp only [List.foldlM_nil, Option.pure_def, Option.some.injEq] at h
    rw [h]
  | cons p ps ih =>
    rw [List.foldlM_cons] at h
    cases hs : podStep results p with
    | none => simp [hs] at h
    | some r1 =>
      simp only [hs, Option.bind_eq_bind, Option.some_bind] at h
      rw [ih r1 h, podStep_names results r1 p hs]

/-- Whenever a pod or a quota names a namespace that is not in the namespace
list, `generateAuditResults` does not return: the `nil` that `Find` yields is
dereferenced. -/
theorem generateAuditResults_panics_of_missing_namespace
    (namespaces : List RawNamespace) (pods : List RawPod)
    (resourceQuotas : List RawResourceQuota) (nodes : List RawNode)
    (h : (∃ p ∈ pods, ∀ n ∈ namespaces, n.Name ≠ p.Namespace) ∨
         (∃ q ∈ resourceQuotas, ∀ n ∈ namespaces, n.Name ≠ q.Namespace)) :
    generateAuditResults namespaces pods resourceQuotas nodes = none := by
  have h0 := namespaceLoop_spec namespaces NewAuditResults
  set r0 := namespaces.foldl namespaceStep NewAuditResults with hr0
  have hnames : r0.Namespaces.map (fun ns => ns.Name) = namespaces.map (fun n => n.Name) := by
    rw [h0]; simp [NewAuditResults, NewNamespace, List.map_map, Function.comp_def]
  have key : ∀ (s : String), (∀ n ∈ namespaces, n.Name ≠ s) →
      s ∉ namespaces.map (fun n => n.Name) := by
    intro s hs hmem
    obtain ⟨n, hn, e⟩ := List.mem_map.mp hmem
    exact hs n hn e
  cases hl : pods.foldlM podStep r0 with
  | none => simp [generateAuditResults, ← hr0, hl]
  | some r1 =>
    rcases h with ⟨p, hp, hmiss⟩ | ⟨q, hq, hmiss⟩
    · have := podLoop_panics pods r0 ⟨p, hp, by rw [hnames]; exact key _ hmiss⟩
      rw [this] at hl
      cases hl
    · have hq1 := quotaLoop_panics resourceQuotas r1
        ⟨q, hq, by rw [podLoop_names pods r0 r1 hl, hnames]; exact key _ hmiss⟩
      simp [generateAuditResults, ← hr0, hl, hq1]

/-- C2: with the namespace list `[ns-a, ns-b]` and a pod list whose second pod
lives in the unlisted namespace `ghost`, `generateAuditResults` yields no
snapshot at all: the nil pointer returned by `Find` is dereferenced. -/
theorem generateAuditResults_missing_namespace_panics :
    generateAuditResults exNamespaces [exPod "p1" "ns-a" "u1", exPod "p9" "ghost" "u9"] [] []
      = none := by
  decide

/-! ## What every returned snapshot looks like -/

theorem podStep_frame (results r : AuditResults) (p : RawPod) (h : podStep results p = some r) :
    sameFrame r results ∧
      r.Namespaces.map Namespace.header = results.Namespaces.map Namespace.header := by
  cases hf : results.Namespaces.Find (podOf p).Namespace with
  | none => simp [podStep, hf] at h
  | some i =>
    obtain ⟨l, ns, t, h1, -, -, -, h5⟩ :=
      find_split (fun ns => { ns with Pods := ns.Pods ++ [podOf p] }) _ _ i hf
    simp only [podStep, hf, h5, Option.some.injEq] at h
    subst h
    exact ⟨⟨rfl, rfl, rfl, rfl, rfl, rfl⟩, by simp [h1, Namespace.header]⟩

theorem quotaStep_frame (results r : AuditResults) (q : RawResourceQuota)
    (h : quotaStep results q = some r) :
    sameFrame r results ∧
      r.Namespaces.map Namespace.header = results.Namespaces.map Namespace.header := by
  cases hf : results.Namespaces.Find (quotaOf q).Namespace with
  | none => simp [quotaStep, hf] at h
  | some i =>
    obtain ⟨l, ns, t, h1, -, -, -, h5⟩ :=
      find_split (fun ns => { ns with ResourceQuotas := ns.ResourceQuotas ++ [quotaOf q] })
        _ _ i hf
    simp only [quotaStep, hf, h5, Option.some.injEq] at h
    subst h
    exact ⟨⟨rfl, rfl, rfl, rfl, rfl, rfl⟩, by simp [h1, Namespace.header]⟩

theorem sameFrame_trans {a b c : AuditResults} (h1 : sameFrame a b) (h2 : sameFrame b c) :
    sameFrame a c := by
  obtain ⟨a1, a2, a3, a4, a5, a6⟩ := h1
  obtain ⟨b1, b2, b3, b4, b5, b6⟩ := h2
  exact ⟨a1.trans b1, a2.trans b2, a3.trans b3, a4.trans b4, a5.trans b5, a6.trans b6⟩

theorem podLoop_frame (pods : List RawPod) (results r : AuditResults)
    (h : pods.foldlM podStep results = some r) :
    sameFrame r results ∧
      r.Namespaces.map Namespace.header = results.Namespaces.map Namespace.header := by
  induction pods generalizing results with
  | nil =>
    simp only [List.foldlM_nil, Option.pure_def, Option.some.injEq] at h
    subst h
    exact ⟨⟨rfl, rfl, rfl, rfl, rfl, rfl⟩, rfl⟩
  | cons p ps ih =>
    rw [List.foldlM_cons] at h
    cases hs : podStep results p with
    | none => simp [hs] at h
    | some r1 =>
      simp only [hs, Option.bind_eq_bind, Option.some_bind] at h
      obtain ⟨f1, n1⟩ := podStep_frame results r1 p hs
      obtain ⟨f2, n2⟩ := ih r1 h
      exact ⟨sameFrame_trans f2 f1, n2.trans n1⟩

theorem quotaLoop_frame (quotas : List RawResourceQuota) (results r : AuditResults)
    (h : quotas.foldlM quotaStep results = some r) :
    sameFrame r results ∧
      r.Namespaces.map Namespace.header = results.Namespaces.map Namespace.header := by
  induction quotas generalizing results with
  | nil =>
    simp only [List.foldlM_nil, Option.pure_def, Option.some.injEq] at h
    subst h
    exact ⟨⟨rfl, rfl, rfl, rfl, rfl, rfl⟩, rfl⟩
  | cons q qs ih =>
    rw [List.foldlM_cons] at h
    cases hs : quotaStep results q with
    | none => simp [hs] at h
    | some r1 =>
      simp only [hs, Option.bind_eq_bind, Option.some_bind] at h
      obtain ⟨f1, n1⟩ := quotaStep_frame results r1 q hs
      obtain ⟨f2, n2⟩ := ih r1 h
      exact ⟨sameFrame_trans f2 f1, n2.trans n1⟩

/-- The shape of any snapshot `generateAuditResults` returns: the scalar fields
are still those of `NewAuditResults`, the nodes are the node records in input
order, and the namespace records carry the input headers in input order. -/
theorem generateAuditResults_shape
    (namespaces : List RawNamespace) (pods : List RawPod)
    (resourceQuotas : List RawResourceQuota) (nodes : List RawNode) (r : AuditResults)
    (h : generateAuditResults namespaces pods resourceQuotas nodes = some r) :
    r.ClusterID = "" ∧ r.Time = "" ∧ r.Duration = 0 ∧ r.Success = false ∧
      r.ErrorMessage = "" ∧ r.Nodes = nodes.map nodeOf ∧
      r.Namespaces.map Namespace.header
        = namespaces.map (fun each => (each.Name, each.Annotations, each.Labels)) := by
  have h0 := namespaceLoop_spec namespaces NewAuditResults
  set r0 := namespaces.foldl namespaceStep NewAuditResults with hr0
  cases hl : pods.foldlM podStep r0 with
  | none => simp [generateAuditResults, ← hr0, hl] at h
  | some r1 =>
    cases hq : resourceQuotas.foldlM quotaStep r1 with
    | none => simp [generateAuditResults, ← hr0, hl, hq] at h
    | some r2 =>
      simp only [generateAuditResults, ← hr0, hl, hq, Option.bind_eq_bind, Option.some_bind,
        Option.pure_def, Option.some.injEq] at h
      obtain ⟨f1, n1⟩ := podLoop_frame pods r0 r1 hl
      obtain ⟨f2, n2⟩ := quotaLoop_frame resourceQuotas r1 r2 hq
      obtain ⟨c1, c2, c3, c4, c5, c6⟩ := sameFrame_trans f2 f1
      have hn := n2.trans n1
      rw [← h, nodeLoop_spec]
      rw [h0] at c1 c2 c3 c4 c5 c6 hn
      refine ⟨c1, c2, c3, c5, c6, ?_, ?_⟩
      · simp only [c4]
        simp [NewAuditResults]
      · simp only [hn]
        simp [NewAuditResults, NewNamespace, Namespace.header, List.map_map, Function.comp_def]

/-! ## Fetch errors: fixed precedence, empty body -/

/-- C3: if at least one of the four list calls fails, `auditCluster` returns a
snapshot whose ErrorMessage is non-empty and names the first failing call in the
order namespaces, pods, quotas, nodes, and whose Namespaces and Nodes are empty
(aggregation is skipped); and any snapshot `auditCluster` returns has a non-empty
ErrorMessage if and only if at least one call failed. -/
theorem auditCluster_error_precedence (clientset : Clientset) (clusterID : String) :
    ((failed clientset.Namespaces ∨ failed clientset.Pods ∨ failed clientset.ResourceQuotas ∨
        failed clientset.Nodes) →
      ∃ r, auditCluster clientset clusterID = some r ∧ r.ErrorMessage ≠ "" ∧
        r.Namespaces = [] ∧ r.Nodes = [] ∧
        (failed clientset.Namespaces →
          r.ErrorMessage = "Unable to return list of namespaces") ∧
        (¬ failed clientset.Namespaces → failed clientset.Pods →
          r.ErrorMessage = "Unable to return list of pods") ∧
        (¬ failed clientset.Namespaces → ¬ failed clientset.Pods →
          failed clientset.ResourceQuotas →
          r.ErrorMessage = "Unable to return list of resource quotas") ∧
        (¬ failed clientset.Namespaces → ¬ failed clientset.Pods →
          ¬ failed clientset.ResourceQuotas → failed clientset.Nodes →
          r.ErrorMessage = "Unable to return list of nodes")) ∧
    (∀ r, auditCluster clientset clusterID = some r →
      (r.ErrorMessage ≠ "" ↔
        (failed clientset.Namespaces ∨ failed clientset.Pods ∨
          failed clientset.ResourceQuotas ∨ failed clientset.Nodes))) := by
  obtain ⟨ns, ps, qs, nds⟩ := clientset
  cases ns with
  | error e =>
    refine ⟨fun _ => ⟨_, rfl, by decide, rfl, rfl, ?_⟩, ?_⟩
    · simp [failed, NewAuditResults]
    · intro r h
      simp only [auditCluster, Option.some.injEq] at h
      subst h
      simp [failed]
  | ok namespaces =>
    cases ps with
    | error e =>
      refine ⟨fun _ => ⟨_, rfl, by decide, rfl, rfl, ?_⟩, ?_⟩
      · simp [failed, NewAuditResults]
      · intro r h
        simp only [auditCluster, Option.some.injEq] at h
        subst h
        simp [failed]
    | ok pods =>
      cases qs with
      | error e =>
        refine ⟨fun _ => ⟨_, rfl, by decide, rfl, rfl, ?_⟩, ?_⟩
        · simp [failed, NewAuditResults]
        · intro r h
          simp only [auditCluster, Option.some.injEq] at h
          subst h
          simp [failed]
      | ok quotas =>
        cases nds with
        | error e =>
          refine ⟨fun _ => ⟨_, rfl, by decide, rfl, rfl, ?_⟩, ?_⟩
          · simp [failed, NewAuditResults]
          · intro r h
            simp only [auditCluster, Option.some.injEq] at h
            subst h
            simp [failed]
        | ok nodes =>
          refine ⟨fun h => by simp [failed] at h, ?_⟩
          intro r h
          cases hg : generateAuditResults namespaces pods quotas nodes with
          | none => simp [auditCluster, hg] at h
          | some g =>
            simp only [auditCluster, hg, Option.some.injEq] at h
            subst h
            have hs := generateAuditResults_shape namespaces pods quotas nodes g hg
            simp [failed, hs.2.2.2.2.1]

/-- A failure at the pod-list stage (followed by a failing node call) yields the
pods message with empty Namespaces and Nodes; when all four calls succeed on the
example inventory, a snapshot is returned and its ErrorMessage is empty. -/
theorem auditCluster_error_precedence_witness :
    (∃ r, auditCluster exClientsetPodsDown "east-1" = some r ∧
      r.ErrorMessage = "Unable to return list of pods" ∧ r.Namespaces = [] ∧ r.Nodes = []) ∧
    (∃ r, auditCluster exClientset "east-1" = some r ∧ r.ErrorMessage = "") := by
  constructor
  · obtain ⟨r, h1, -, h3, h4, -, h6, -, -⟩ :=
      (auditCluster_error_precedence exClientsetPodsDown "east-1").1 (Or.inr (Or.inl trivial))
    exact ⟨r, h1, h6 (fun h => h) trivial, h3, h4⟩
  · have hsome : (auditCluster exClientset "east-1").isSome = true := by decide
    obtain ⟨r, hr⟩ := Option.isSome_iff_exists.mp hsome
    have hiff := (auditCluster_error_precedence exClientset "east-1").2 r hr
    refine ⟨r, hr, ?_⟩
    by_contra hne
    have hfail := hiff.mp hne
    simp [failed, exClientset] at hfail

/-! ## Calendar arithmetic -/

theorem norm_of_inrange (hi lo base : Int) (h0 : 0 ≤ lo) (h1 : lo < base) :
    norm hi lo base = (hi, lo) := by
  simp [norm, not_lt.mpr h0, not_le.mpr h1]

theorem norm_twelve (hi : Int) : norm hi 12 12 = (hi + 1, 0) := by
  simp [norm]

theorem isLeap_iff (year : Int) :
    isLeap year = true ↔ year % 4 = 0 ∧ (year % 100 ≠ 0 ∨ year % 400 = 0) := by
  simp [isLeap]

/-- A year has 365 days, and one more when it is a leap year. -/
theorem daysSinceEpoch_succ (year : Int) :
    daysSinceEpoch (year + 1)
      = daysSinceEpoch year + 365 + (if isLeap year = true then 1 else 0) := by
  by_cases hl : isLeap year = true
  · rw [if_pos hl]
    rw [isLeap_iff] at hl
    simp only [daysSinceEpoch, absoluteZeroYear] at *
    omega
  · rw [if_neg hl]
    rw [isLeap_iff] at hl
    simp only [daysSinceEpoch, absoluteZeroYear] at *
    omega

/-- `time.Date` on fields that are already in range leaves them as they are. -/
theorem Date_of_inrange (year month day hour min sec nsec : Int)
    (hm : 1 ≤ month ∧ month ≤ 12) (hh : 0 ≤ hour ∧ hour < 24) (hmin : 0 ≤ min ∧ min < 60)
    (hs : 0 ≤ sec ∧ sec < 60) (hn : 0 ≤ nsec ∧ nsec < 1000000000) :
    Date year month day hour min sec nsec =
      { year := year, month := month, day := day, hour := hour, min := min, sec := sec,
        nsec := nsec } := by
  simp only [Date]
  rw [norm_of_inrange year (month - 1) 12 (by omega) (by omega),
    norm_of_inrange sec nsec 1000000000 hn.1 hn.2,
    norm_of_inrange min sec 60 hs.1 hs.2,
    norm_of_inrange hour min 60 hmin.1 hmin.2,
    norm_of_inrange day hour 24 hh.1 hh.2]
  simp

/-- `time.Date` with month 13 is January of the following year. -/
theorem Date_month_thirteen (year day : Int) :
    Date year 13 day 0 0 0 0 =
      { year := year + 1, month := 1, day := day, hour := 0, min := 0, sec := 0, nsec := 0 }
    := by
  simp only [Date, show (13 : Int) - 1 = 12 from rfl, norm_twelve,
    norm_of_inrange 0 0 1000000000 (by omega) (by omega),
    norm_of_inrange 0 0 60 (by omega) (by omega),
    norm_of_inrange day 0 24 (by omega) (by omega)]
  simp

theorem periodBegin_fields (t : Time) (h : t.valid) :
    periodBegin t = { year := t.year, month := t.month, day := 1, hour := 0, min := 0,
                      sec := 0, nsec := 0 } := by
  have hm := h.2
  exact Date_of_inrange t.year t.month 1 0 0 0 0 ⟨hm.1, hm.2.1⟩ (by omega) (by omega)
    (by omega) (by omega)

theorem periodEnd_fields (t : Time) (h : t.valid) :
    periodEnd t = { year := if t.month = 12 then t.year + 1 else t.year,
                    month := if t.month = 12 then 1 else t.month + 1,
                    day := 1, hour := 0, min := 0, sec := 0, nsec := 0 } := by
  have hm := h.2
  rw [periodEnd, periodBegin_fields t h]
  simp only [Time.AddDate, add_zero]
  by_cases h12 : t.month = 12
  · rw [h12, if_pos rfl, if_pos rfl]
    exact Date_month_thirteen t.year 1
  · rw [if_neg h12, if_neg h12]
    exact Date_of_inrange t.year (t.month + 1) 1 0 0 0 0 ⟨by omega, by omega⟩ (by omega)
      (by omega) (by omega) (by omega)

theorem decimalDigits_length_le (fuel u w : Nat) (hw : 1 ≤ w) (hu : u < 10 ^ w) :
    (decimalDigits fuel u).length ≤ w := by
  induction fuel generalizing u w with
  | zero => simpa [decimalDigits] using hw
  | succ fuel ih =>
    unfold decimalDigits
    split_ifs with h10
    · have hw2 : 2 ≤ w := by
        by_contra hlt
        have hw1 : w = 1 := by omega
        rw [hw1] at hu
        omega
      have hdiv : u / 10 < 10 ^ (w - 1) := by
        have hpow : 10 ^ w = 10 ^ (w - 1) * 10 := by
          rw [← pow_succ]
          congr 1
          omega
        rw [hpow] at hu
        exact Nat.div_lt_of_lt_mul (by rwa [mul_comm] at hu)
      have := ih (u / 10) (w - 1) (by omega) hdiv
      simp only [List.length_append, List.length_singleton]
      omega
    · simpa using hw

/-- `appendInt` prints a number of at most `width` digits on exactly `width`
characters. -/
theorem appendInt_length (x : Int) (width : Nat) (hw : 1 ≤ width) (h0 : 0 ≤ x)
    (hx : x < 10 ^ width) : (appendInt x width).length = width := by
  have hlt : x.natAbs < 10 ^ width := by
    have : (x.natAbs : Int) < ((10 ^ width : Nat) : Int) := by
      rw [Int.natAbs_of_nonneg h0]
      exact_mod_cast hx
    exact_mod_cast this
  have hlen := decimalDigits_length_le 19 x.natAbs width hw hlt
  simp only [appendInt, not_lt.mpr h0, if_false, List.nil_append, List.length_append,
    List.length_replicate]
  omega

/-- A date of a year from 0 to 9999 with month and day in range is formatted
on eight characters. -/
theorem Format20060102_length (t : Time) (hy : 0 ≤ t.year ∧ t.year ≤ 9999)
    (hm : 0 ≤ t.month ∧ t.month ≤ 12) (hd : 0 ≤ t.day ∧ t.day ≤ 31) :
    t.Format20060102.length = 8 := by
  have h1 := appendInt_length t.year 4 (by omega) hy.1 (by norm_num; omega)
  have h2 := appendInt_length t.month 2 (by omega) hm.1 (by norm_num; omega)
  have h3 := appendInt_length t.day 2 (by omega) hd.1 (by norm_num; omega)
  simp only [Time.Format20060102, String.length, List.length_append]
  omega

/-- C4: for every UTC timestamp `t` with civil fields in range, `periodBegin` is
midnight of day 1 of `t`'s year and month; `periodEnd` is midnight of day 1 of
the next month, which is January of the following year when `t` is in
December; the instants satisfy `periodBegin ≤ t < periodEnd`; the
partition directory name is `period=` followed by `periodBegin` formatted as
`20060102`, a hyphen, and `periodEnd` formatted as `20060102`; and for a year
from 0 to 9998 each of the two dates takes exactly eight characters. -/
theorem partition_covers_timestamp (t : Time) (h : t.valid) :
    periodBegin t = { year := t.year, month := t.month, day := 1, hour := 0, min := 0,
                      sec := 0, nsec := 0 } ∧
    periodEnd t = { year := if t.month = 12 then t.year + 1 else t.year,
                    month := if t.month = 12 then 1 else t.month + 1,
                    day := 1, hour := 0, min := 0, sec := 0, nsec := 0 } ∧
    (periodBegin t).nanos ≤ t.nanos ∧ t.nanos < (periodEnd t).nanos ∧
    periodPath t = "period=" ++ (periodBegin t).Format20060102 ++ "-"
      ++ (periodEnd t).Format20060102 ∧
    (0 ≤ t.year ∧ t.year ≤ 9998 →
      (periodBegin t).Format20060102.length = 8 ∧ (periodEnd t).Format20060102.length = 8) := by
  refine ⟨periodBegin_fields t h, periodEnd_fields t h, ?_, ?_, rfl, ?_⟩
  rotate_left 2
  · intro hy
    have hm := h.2
    rw [periodBegin_fields t h, periodEnd_fields t h]
    refine ⟨Format20060102_length _ ⟨hy.1, by simp only; omega⟩ ⟨by simp only; omega,
      by simp only; omega⟩ (by simp), Format20060102_length _ ?_ ?_ (by simp)⟩
    · simp only
      split_ifs <;> omega
    · simp only
      split_ifs <;> omega
  · rw [periodBegin_fields t h]
    obtain ⟨y, m, d, hh, mi, se, ns⟩ := t
    obtain ⟨-, hm1, hm2, hd1, hd2, h1, h2, h3, h4, h5, h6, h7, h8⟩ := h
    simp only [Time.nanos, Time.abs] at *
    split_ifs <;> omega
  · rw [periodEnd_fields t h]
    obtain ⟨y, m, d, hh, mi, se, ns⟩ := t
    obtain ⟨-, hm1, hm2, hd1, hd2, h1, h2, h3, h4, h5, h6, h7, h8⟩ := h
    have hs := daysSinceEpoch_succ y
    simp only at hm1 hm2 hd1 hd2 h1 h2 h3 h4 h5 h6 h7 h8
    by_cases hl : isLeap y = true
    · interval_cases m <;>
        simp [Time.nanos, Time.abs, daysBefore, daysIn, hl] at hd2 hs ⊢ <;> omega
    · interval_cases m <;>
        simp [Time.nanos, Time.abs, daysBefore, daysIn, hl] at hd2 hs ⊢ <;> omega

/-- C4 at 2017-12-15 10:30:00.123456789 UTC: the December partition ends on
1 January 2018. -/
theorem partition_covers_timestamp_witness :
    exTime.valid ∧ (periodBegin exTime).nanos ≤ exTime.nanos ∧
      exTime.nanos < (periodEnd exTime).nanos ∧
      periodPath exTime = "period=20171201-20180101" :=
  have h := partition_covers_timestamp exTime (by decide)
  ⟨by decide, h.2.2.1, h.2.2.2.1, h.2.2.2.2.1.trans (by decide)⟩

/-! ## Resource lookups -/

theorem lookup_none_of_absent (list : ResourceList) (resource : String)
    (h : ∀ q, (resource, q) ∉ list) : list.lookup resource = none := by
  induction list with
  | nil => rfl
  | cons kv rest ih =>
    obtain ⟨k, v⟩ := kv
    have hk : resource ≠ k := fun e => h v (by simp [e])
    have hb : (resource == k) = false := by simpa using hk
    have hrest : ∀ q, (resource, q) ∉ rest := fun q hq => h q (List.mem_cons_of_mem _ hq)
    rw [List.lookup_cons, hb, ih hrest]

theorem lookup_of_mem_nodup (list : ResourceList) (resource : String) (q : Quantity)
    (hmem : (resource, q) ∈ list) (hnd : (list.map Prod.fst).Nodup) :
    list.lookup resource = some q := by
  induction list with
  | nil => simp at hmem
  | cons kv rest ih =>
    obtain ⟨k, v⟩ := kv
    simp only [List.map_cons, List.nodup_cons] at hnd
    rcases List.mem_cons.mp hmem with e | hrest
    · cases e
      simp [List.lookup_cons]
    · have hk : resource ≠ k := by
        intro e
        exact hnd.1 (List.mem_map.mpr ⟨(resource, q), hrest, e⟩)
      have hb : (resource == k) = false := by simpa using hk
      rw [List.lookup_cons, hb, ih hrest hnd.2]

theorem addressLoop_frame (addresses : List NodeAddress) (node : Node) :
    (addresses.foldl addressStep node).Allocatable = node.Allocatable ∧
    (addresses.foldl addressStep node).Capacity = node.Capacity ∧
    (addresses.foldl addressStep node).Status = node.Status ∧
    (addresses.foldl addressStep node).Name = node.Name := by
  induction addresses generalizing node with
  | nil => exact ⟨rfl, rfl, rfl, rfl⟩
  | cons a rest ih =>
    simp only [List.foldl_cons]
    obtain ⟨h1, h2, h3, h4⟩ := ih (addressStep node a)
    rw [h1, h2, h3, h4]
    unfold addressStep
    split_ifs <;> exact ⟨rfl, rfl, rfl, rfl⟩

theorem conditionLoop_frame (conditions : List NodeCondition) (node : Node) :
    (conditions.foldl conditionStep node).Allocatable = node.Allocatable ∧
    (conditions.foldl conditionStep node).Capacity = node.Capacity ∧
    (conditions.foldl conditionStep node).InternalIP = node.InternalIP ∧
    (conditions.foldl conditionStep node).ExternalIP = node.ExternalIP ∧
    (conditions.foldl conditionStep node).Name = node.Name := by
  induction conditions generalizing node with
  | nil => exact ⟨rfl, rfl, rfl, rfl, rfl⟩
  | cons c rest ih =>
    simp only [List.foldl_cons]
    obtain ⟨h1, h2, h3, h4, h5⟩ := ih (conditionStep node c)
    rw [h1, h2, h3, h4, h5]
    unfold conditionStep
    split_ifs <;> exact ⟨rfl, rfl, rfl, rfl, rfl⟩

/-- The resource values of a node record, whatever its addresses and conditions. -/
theorem nodeOf_resources (each : RawNode) :
    (nodeOf each).Allocatable =
      { ResourceValues.zero with CPULimits := each.Allocatable.Cpu.Value,
                                 MemoryLimits := each.Allocatable.Memory.Value } ∧
    (nodeOf each).Capacity =
      { ResourceValues.zero with CPULimits := each.Capacity.Cpu.Value,
                                 MemoryLimits := each.Capacity.Memory.Value } := by
  simp only [nodeOf]
  obtain ⟨h1, h2, -⟩ := conditionLoop_frame each.Conditions
    (each.Addresses.foldl addressStep
      { Name := each.Name, ExternalID := each.ExternalID, Labels := each.Labels,
        InternalIP := "", ExternalIP := "", Status := "",
        Allocatable := { ResourceValues.zero with
          CPULimits := each.Allocatable.Cpu.Value,
          MemoryLimits := each.Allocatable.Memory.Value },
        Capacity := { ResourceValues.zero with
          CPULimits := each.Capacity.Cpu.Value,
          MemoryLimits := each.Capacity.Memory.Value } })
  rw [h1, h2]
  obtain ⟨h3, h4, -⟩ := addressLoop_frame each.Addresses
      { Name := each.Name, ExternalID := each.ExternalID, Labels := each.Labels,
        InternalIP := "", ExternalIP := "", Status := "",
        Allocatable := { ResourceValues.zero with
          CPULimits := each.Allocatable.Cpu.Value,
          MemoryLimits := each.Allocatable.Memory.Value },
        Capacity := { ResourceValues.zero with
          CPULimits := each.Capacity.Cpu.Value,
          MemoryLimits := each.Capacity.Memory.Value } }
  rw [h3, h4]
  exact ⟨rfl, rfl⟩

/-- C5: `extractResourceQuota` is total; on a resource list (a map, so with
distinct keys) it returns the value stored under the name when the key is
present and 0 when the key is absent, also on the empty list; the list
`limits.cpu ↦ 2` queried for `requests.cpu` gives 0; and a node whose
allocatable or capacity list has no `cpu` (no `memory`) entry gets 0 in the
corresponding field. -/
theorem extractResourceQuota_value_or_zero (list : ResourceList) (resource : String) :
    (∀ q, (resource, q) ∈ list → (list.map Prod.fst).Nodup →
      extractResourceQuota list resource = q.Value) ∧
    ((∀ q, (resource, q) ∉ list) → extractResourceQuota list resource = 0) ∧
    extractResourceQuota [] resource = 0 ∧
    extractResourceQuota [("limits.cpu", { Value := 2 })] "requests.cpu" = 0 ∧
    (∀ each : RawNode,
      ((∀ q, ("cpu", q) ∉ each.Allocatable) → (nodeOf each).Allocatable.CPULimits = 0) ∧
      ((∀ q, ("memory", q) ∉ each.Allocatable) → (nodeOf each).Allocatable.MemoryLimits = 0) ∧
      ((∀ q, ("cpu", q) ∉ each.Capacity) → (nodeOf each).Capacity.CPULimits = 0) ∧
      ((∀ q, ("memory", q) ∉ each.Capacity) → (nodeOf each).Capacity.MemoryLimits = 0)) := by
  refine ⟨?_, ?_, rfl, by decide, ?_⟩
  · intro q hmem hnd
    simp [extractResourceQuota, lookup_of_mem_nodup list resource q hmem hnd]
  · intro h
    simp [extractResourceQuota, lookup_none_of_absent list resource h]
  · intro each
    obtain ⟨ha, hc⟩ := nodeOf_resources each
    rw [ha, hc]
    refine ⟨?_, ?_, ?_, ?_⟩ <;> intro h
    · simp [ResourceList.Cpu, lookup_none_of_absent _ _ h]
    · simp [ResourceList.Memory, lookup_none_of_absent _ _ h]
    · simp [ResourceList.Cpu, lookup_none_of_absent _ _ h]
    · simp [ResourceList.Memory, lookup_none_of_absent _ _ h]

/-- C5 on the list `limits.cpu ↦ 2, limits.memory ↦ 4096`: the stored value for
a present key, 0 for an absent one. -/
theorem extractResourceQuota_value_or_zero_witness :
    extractResourceQuota [("limits.cpu", { Value := 2 }), ("limits.memory", { Value := 4096 })]
        "limits.memory" = 4096 ∧
    extractResourceQuota [("limits.cpu", { Value := 2 }), ("limits.memory", { Value := 4096 })]
        "requests.cpu" = 0 :=
  ⟨(extractResourceQuota_value_or_zero
      [("limits.cpu", { Value := 2 }), ("limits.memory", { Value := 4096 })]
      "limits.memory").1 { Value := 4096 } (by decide) (by decide),
   (extractResourceQuota_value_or_zero
      [("limits.cpu", { Value := 2 }), ("limits.memory", { Value := 4096 })]
      "requests.cpu").2.1 (by simp)⟩

/-! ## File name -/

theorem stringsReplace_space (s : List Char) :
    stringsReplace [' '] ['_'] 0 s = s.map (fun c => if c = ' ' then '_' else c) := by
  induction s with
  | nil => rfl
  | cons c cs ih =>
    by_cases h : c = ' '
    · subst h
      simp [stringsReplace, List.isPrefixOf, ih]
    · have hb : (' ' == c) = false := by
        simpa using fun e : ' ' = c => h e.symm
      simp [stringsReplace, List.isPrefixOf, hb, h, ih]

/-- C6: the file name is `<clusterID>---<rendering>.json` with every space,
those of the cluster id included, replaced by an underscore, so it contains no
space; for the cluster id `east-1` and a rendering with spaces it is
`east-1---2017-12-15_10:30:00.123456789_+0000_UTC.json`. -/
theorem filename_has_no_space (clusterID rendering : String) :
    filename clusterID rendering =
      String.mk ((clusterID ++ "---" ++ rendering ++ ".json").toList.map
        (fun c => if c = ' ' then '_' else c)) ∧
    ' ' ∉ (filename clusterID rendering).toList ∧
    filename "east-1" exRendering = "east-1---2017-12-15_10:30:00.123456789_+0000_UTC.json" ∧
    filename "east 1" "now" = "east_1---now.json" := by
  have h : filename clusterID rendering =
      String.mk ((clusterID ++ "---" ++ rendering ++ ".json").toList.map
        (fun c => if c = ' ' then '_' else c)) := by
    simp only [filename, stringsReplace_space]
  refine ⟨h, ?_, by decide, by decide⟩
  rw [h]
  intro hmem
  obtain ⟨c, -, hc⟩ := List.mem_map.mp hmem
  by_cases hsp : c = ' '
  · rw [if_pos hsp] at hc
    exact absurd hc (by decide)
  · rw [if_neg hsp] at hc
    exact hsp hc

/-! ## Node addresses and readiness -/

theorem addressLoop_internal (addresses : List NodeAddress) (node : Node) :
    (addresses.foldl addressStep node).InternalIP =
      match (addresses.filter (fun a => a.Type_ = "InternalIP")).getLast? with
      | some a => a.Address
      | none => node.InternalIP := by
  induction addresses using List.reverseRecOn with
  | nil => rfl
  | append_singleton l a ih =>
    rw [List.foldl_append, List.foldl_cons, List.foldl_nil, List.filter_append]
    by_cases h : a.Type_ = "InternalIP"
    · simp [addressStep, h, List.filter_cons]
    · by_cases h2 : a.Type_ = "ExternalIP"
      · simp [addressStep, h, h2, List.filter_cons, ih]
      · simp [addressStep, h, h2, List.filter_cons, ih]

theorem addressLoop_external (addresses : List NodeAddress) (node : Node) :
    (addresses.foldl addressStep node).ExternalIP =
      match (addresses.filter (fun a => a.Type_ = "ExternalIP")).getLast? with
      | some a => a.Address
      | none => node.ExternalIP := by
  induction addresses using List.reverseRecOn with
  | nil => rfl
  | append_singleton l a ih =>
    rw [List.foldl_append, List.foldl_cons, List.foldl_nil, List.filter_append]
    by_cases h : a.Type_ = "InternalIP"
    · have h2 : a.Type_ ≠ "ExternalIP" := by rw [h]; decide
      simp [addressStep, h, List.filter_cons, ih]
    · by_cases h2 : a.Type_ = "ExternalIP"
      · simp [addressStep, h2, List.filter_cons]
      · simp [addressStep, h, h2, List.filter_cons, ih]

theorem conditionLoop_status (conditions : List NodeCondition) (node : Node) :
    (conditions.foldl conditionStep node).Status =
      match (readyConditions conditions).getLast? with
      | some c => c.Status
      | none => node.Status := by
  induction conditions using List.reverseRecOn with
  | nil => rfl
  | append_singleton l c ih =>
    rw [List.foldl_append, List.foldl_cons, List.foldl_nil, readyConditions, List.filter_append]
    by_cases h : c.Type_ = "Ready"
    · simp [conditionStep, h, List.filter_cons]
    · simpa [conditionStep, h, List.filter_cons, readyConditions] using ih

/-- The three scanned fields of a node record. -/
theorem nodeOf_scans (each : RawNode) :
    (nodeOf each).InternalIP = lastAddressOfType "InternalIP" each.Addresses ∧
    (nodeOf each).ExternalIP = lastAddressOfType "ExternalIP" each.Addresses ∧
    (nodeOf each).Status =
      match (readyConditions each.Conditions).getLast? with
      | some c => c.Status
      | none => "" := by
  simp only [nodeOf]
  refine ⟨?_, ?_, ?_⟩
  · rw [(conditionLoop_frame _ _).2.2.1, addressLoop_internal]
    rfl
  · rw [(conditionLoop_frame _ _).2.2.2.1, addressLoop_external]
    rfl
  · rw [conditionLoop_status, (addressLoop_frame _ _).2.2.1]

/-- C7 as stated fails: on a node that reports the internal addresses
`10.0.0.1` and `10.0.0.2`, in this order, the record's InternalIP is `10.0.0.2`,
not the address `10.0.0.1` of the first `InternalIP` entry. -/
theorem node_addresses_first_match_fails :
    (nodeOf exNodeTwoInternal).InternalIP = "10.0.0.2" ∧
    firstAddressOfType "InternalIP" exNodeTwoInternal.Addresses = "10.0.0.1" ∧
    (nodeOf exNodeTwoInternal).InternalIP
      ≠ firstAddressOfType "InternalIP" exNodeTwoInternal.Addresses := by
  decide

/-- C7, amended: InternalIP is the address of the last entry of type
`InternalIP` and ExternalIP the address of the last entry of type `ExternalIP`
(each later match overwrites the earlier one); each is the empty string when
there is no entry of that type; and when the list has at most one entry of a
type, the last entry of that type is also the first. -/
theorem node_addresses_last_match_wins (each : RawNode) :
    (nodeOf each).InternalIP = lastAddressOfType "InternalIP" each.Addresses ∧
    (nodeOf each).ExternalIP = lastAddressOfType "ExternalIP" each.Addresses ∧
    ((∀ a ∈ each.Addresses, a.Type_ ≠ "InternalIP") → (nodeOf each).InternalIP = "") ∧
    ((∀ a ∈ each.Addresses, a.Type_ ≠ "ExternalIP") → (nodeOf each).ExternalIP = "") ∧
    (∀ ty, (each.Addresses.filter (fun a => a.Type_ = ty)).length ≤ 1 →
      lastAddressOfType ty each.Addresses = firstAddressOfType ty each.Addresses) := by
  obtain ⟨h1, h2, -⟩ := nodeOf_scans each
  have hnone : ∀ ty, (∀ a ∈ each.Addresses, a.Type_ ≠ ty) →
      lastAddressOfType ty each.Addresses = "" := by
    intro ty h
    have : each.Addresses.filter (fun a => a.Type_ = ty) = [] := by
      rw [List.filter_eq_nil_iff]
      intro a ha
      simpa using h a ha
    simp [lastAddressOfType, this]
  refine ⟨h1, h2, fun h => h1.trans (hnone _ h), fun h => h2.trans (hnone _ h), ?_⟩
  intro ty hlen
  unfold lastAddressOfType firstAddressOfType
  generalize each.Addresses.filter (fun a => a.Type_ = ty) = l at hlen
  match l, hlen with
  | [], _ => rfl
  | [a], _ => rfl
  | a :: b :: rest, hlen => simp at hlen

/-- C7, amended, on the specification's example node: one entry of each type,
so the last match is the first one. -/
theorem node_addresses_last_match_wins_witness :
    (nodeOf exNodeReady).InternalIP = "10.0.0.1" ∧
    (nodeOf exNodeReady).ExternalIP = "1.2.3.4" ∧
    lastAddressOfType "InternalIP" exNodeReady.Addresses
      = firstAddressOfType "InternalIP" exNodeReady.Addresses :=
  have h := node_addresses_last_match_wins exNodeReady
  ⟨h.1.trans (by decide), h.2.1.trans (by decide), h.2.2.2.2 "InternalIP" (by decide)⟩

/-- C8: the Status of a node record is the status of the `Ready` condition when
the condition list holds exactly one condition of that type, and the empty
string when it holds none; two condition lists with the same `Ready`
conditions give the same Status, so conditions of another type never affect
it; and the specification's example node yields InternalIP `10.0.0.1`,
ExternalIP `1.2.3.4`, Status `True`. -/
theorem node_status_from_ready_condition (each : RawNode) :
    (∀ c, readyConditions each.Conditions = [c] → (nodeOf each).Status = c.Status) ∧
    (readyConditions each.Conditions = [] → (nodeOf each).Status = "") ∧
    (∀ other : List NodeCondition, readyConditions other = readyConditions each.Conditions →
      (nodeOf { each with Conditions := other }).Status = (nodeOf each).Status) ∧
    ((nodeOf exNodeReady).InternalIP = "10.0.0.1" ∧ (nodeOf exNodeReady).ExternalIP = "1.2.3.4" ∧
      (nodeOf exNodeReady).Status = "True") := by
  have hs := (nodeOf_scans each).2.2
  refine ⟨?_, ?_, ?_, by decide⟩
  · intro c hc
    rw [hs, hc]
    rfl
  · intro hc
    rw [hs, hc]
    rfl
  · intro other ho
    rw [hs, (nodeOf_scans { each with Conditions := other }).2.2]
    simp only [ho]

/-- C8 on two concrete nodes: one `Ready` condition with status `True`, and a
node that only reports a `DiskPressure` condition. -/
theorem node_status_from_ready_condition_witness :
    (nodeOf exNodeReady).Status = "True" ∧ (nodeOf exNodeNotReported).Status = "" :=
  ⟨(node_status_from_ready_condition exNodeReady).1 { Type_ := "Ready", Status := "True" }
      (by decide),
   (node_status_from_ready_condition exNodeNotReported).2.1 (by decide)⟩

/-! ## Order of namespaces and nodes -/

/-- C9: whenever `generateAuditResults` returns, the Namespaces list has as
many records as the input namespace list and its i-th record carries the name,
annotations and labels of the i-th input namespace; the Nodes list has one
record per input node, the i-th one built from the i-th input node. -/
theorem generateAuditResults_keeps_input_order
    (namespaces : List RawNamespace) (pods : List RawPod)
    (resourceQuotas : List RawResourceQuota) (nodes : List RawNode) (r : AuditResults)
    (h : generateAuditResults namespaces pods resourceQuotas nodes = some r) :
    r.Namespaces.length = namespaces.length ∧
    (∀ i : Nat, (r.Namespaces[i]?).map Namespace.header
      = (namespaces[i]?).map (fun each => (each.Name, each.Annotations, each.Labels))) ∧
    r.Nodes.length = nodes.length ∧
    (∀ i : Nat, r.Nodes[i]? = (nodes[i]?).map nodeOf) ∧
    r.Nodes = nodes.map nodeOf := by
  obtain ⟨-, -, -, -, -, hn, hh⟩ := generateAuditResults_shape _ _ _ _ r h
  refine ⟨?_, ?_, ?_, ?_, hn⟩
  · simpa using congrArg List.length hh
  · intro i
    have := congrArg (fun l => l[i]?) hh
    simpa [List.getElem?_map] using this
  · simp [hn]
  · intro i
    simp [hn, List.getElem?_map]

/-- C9 on the specification's example: namespace `ns-a` and pod `p1` in `ns-a`
give the single record `ns-a` holding `p1`. -/
theorem generateAuditResults_keeps_input_order_witness :
    generateAuditResults [{ Name := "ns-a", Annotations := [], Labels := [] }]
        [exPod "p1" "ns-a" "u1"] [] []
      = some { NewAuditResults with Namespaces :=
          [{ NewNamespace "ns-a" with Pods := [podOf (exPod "p1" "ns-a" "u1")] }] } ∧
    ([{ NewNamespace "ns-a" with Pods := [podOf (exPod "p1" "ns-a" "u1")] }] : Namespaces).length
      = [({ Name := "ns-a", Annotations := [], Labels := [] } : RawNamespace)].length :=
  have h : generateAuditResults [{ Name := "ns-a", Annotations := [], Labels := [] }]
        [exPod "p1" "ns-a" "u1"] [] []
      = some { NewAuditResults with Namespaces :=
          [{ NewNamespace "ns-a" with Pods := [podOf (exPod "p1" "ns-a" "u1")] }] } := by
    decide
  ⟨h, (generateAuditResults_keeps_input_order _ _ _ _ _ h).1⟩

/-! ## The Duration field -/

/-- C10 as stated fails: with a five-second audit in each pass and a
sixty-second sleep, the second snapshot's Duration is 65 s, the time since the
first pass read the clock after its audit, whereas 70 s have elapsed since the
first pass began its fetch. -/
theorem duration_is_not_since_previous_start :
    ((GenerateCatalog (exTimeAt 10 30 0) exTicks)[1]?).map (fun r => r.Duration)
      = some 65000000000 ∧
    (exTimeAt 10 31 10).Sub (exTimeAt 10 30 0) = 70000000000 ∧
    (exTicks[0]?).map (fun tk => tk.start) = some (exTimeAt 10 30 0) ∧
    (exTicks[1]?).map (fun tk => tk.current) = some (exTimeAt 10 31 10) := by
  decide

/-- C10, amended: the first snapshot's Duration is the time from the clock
reading taken before the loop to the first pass's reading; for every later
pass, the Duration is the time from the previous pass's clock reading, taken
after that pass's audit returned and recorded in its Time field, to the
current pass's reading. -/
theorem duration_since_previous_reading (lastTime : Time) (ticks : List Tick) :
    (∀ tk, ticks[0]? = some tk →
      ((GenerateCatalog lastTime ticks)[0]?).map (fun r => r.Duration)
        = some (tk.current.Sub lastTime)) ∧
    (∀ k prev tk, ticks[k]? = some prev → ticks[k + 1]? = some tk →
      ((GenerateCatalog lastTime ticks)[k + 1]?).map (fun r => r.Duration)
        = some (tk.current.Sub prev.current) ∧
      ((GenerateCatalog lastTime ticks)[k]?).map (fun r => r.Time)
        = some prev.current.FormatRFC3339) := by
  have hfirst : ∀ (lastTime : Time) (ticks : List Tick) (tk : Tick), ticks[0]? = some tk →
      ((GenerateCatalog lastTime ticks)[0]?).map (fun r => r.Duration)
        = some (tk.current.Sub lastTime) := by
    intro lastTime ticks tk h
    cases ticks with
    | nil => simp at h
    | cons t rest =>
      simp only [List.getElem?_cons_zero, Option.some.injEq] at h
      subst h
      simp [GenerateCatalog, tickBody]
  refine ⟨hfirst lastTime ticks, ?_⟩
  intro k
  induction k generalizing lastTime ticks with
  | zero =>
    intro prev tk hp ht
    cases ticks with
    | nil => simp at hp
    | cons t rest =>
      simp only [List.getElem?_cons_zero, Option.some.injEq] at hp
      subst hp
      simp only [zero_add, List.getElem?_cons_succ] at ht
      refine ⟨?_, by simp [GenerateCatalog, tickBody]⟩
      simp only [GenerateCatalog, zero_add, List.getElem?_cons_succ]
      exact hfirst _ rest tk ht
  | succ k ih =>
    intro prev tk hp ht
    cases ticks with
    | nil => simp at hp
    | cons t rest =>
      simp only [List.getElem?_cons_succ] at hp ht
      simp only [GenerateCatalog, List.getElem?_cons_succ]
      exact ih _ rest prev tk hp ht

/-- C10, amended, on the two example passes: 5 s for the first snapshot, 65 s
for the second. -/
theorem duration_since_previous_reading_witness :
    ((GenerateCatalog (exTimeAt 10 30 0) exTicks)[1]?).map (fun r => r.Duration)
      = some ((exTimeAt 10 31 10).Sub (exTimeAt 10 30 5)) ∧
    (exTimeAt 10 31 10).Sub (exTimeAt 10 30 5) = 65000000000 :=
  ⟨((duration_since_previous_reading (exTimeAt 10 30 0) exTicks).2 0
      { start := exTimeAt 10 30 0, results := NewAuditResults, current := exTimeAt 10 30 5 }
      { start := exTimeAt 10 31 5, results := NewAuditResults, current := exTimeAt 10 31 10 }
      rfl rfl).1,
   by decide⟩

/-! ## Pods: containers and owners -/

theorem ownerLoop_spec (os : List OwnerReference) (pod : Pod) :
    os.foldl (fun (pod : Pod) o => { pod with Owners := pod.Owners ++ [ownerOf o] }) pod
      = { pod with Owners := pod.Owners ++ os.map ownerOf } := by
  induction os generalizing pod with
  | nil => simp
  | cons o os ih => simp [List.foldl_cons, ih]

theorem containerLoop_spec (uid : String) (cs : List RawContainer) (pod : Pod) :
    cs.foldl (fun (pod : Pod) c =>
        { pod with Containers := pod.Containers ++ [containerOf uid c] }) pod
      = { pod with Containers := pod.Containers ++ cs.map (containerOf uid) } := by
  induction cs generalizing pod with
  | nil => simp
  | cons c cs ih => simp [List.foldl_cons, ih]

/-- The record built from an inventory pod, field by field. -/
theorem podOf_eq (p : RawPod) :
    podOf p =
      { Name := p.Name, Annotations := p.Annotations, Labels := p.Labels,
        Owners := p.OwnerReferences.map ownerOf,
        Containers := p.Containers.map (containerOf p.UID),
        Status := "", IP := "", NodeName := p.NodeName, Namespace := p.Namespace,
        UID := p.UID } := by
  simp only [podOf, ownerLoop_spec, containerLoop_spec, NewPod, List.nil_append]

theorem cpu_isDeclaredValue (list : ResourceList) :
    isDeclaredValue list "cpu" list.Cpu.Value := by
  constructor
  · intro q hmem hnd
    simp [ResourceList.Cpu, lookup_of_mem_nodup list "cpu" q hmem hnd]
  · intro h
    simp [ResourceList.Cpu, lookup_none_of_absent list "cpu" h]

theorem memory_isDeclaredValue (list : ResourceList) :
    isDeclaredValue list "memory" list.Memory.Value := by
  constructor
  · intro q hmem hnd
    simp [ResourceList.Memory, lookup_of_mem_nodup list "memory" q hmem hnd]
  · intro h
    simp [ResourceList.Memory, lookup_none_of_absent list "memory" h]

/-- C11: the Containers list of a pod record has one record per input
container, in input order; the record of the i-th container carries its name
and image, the cpu limit, memory limit, cpu request and memory request the
container declares, each being 0 when that entry is not declared (so 0, 0, 0, 0
for a container without limits and requests), and an OwnerUID equal to the UID
of the pod record. -/
theorem podOf_containers (p : RawPod) :
    (podOf p).Containers.length = p.Containers.length ∧
    (∀ (i : Nat) (c : RawContainer), p.Containers[i]? = some c →
      ∃ r, (podOf p).Containers[i]? = some r ∧
        r.Name = c.Name ∧ r.Image = c.Image ∧
        r.OwnerUID = (podOf p).UID ∧ r.OwnerUID = p.UID ∧
        isDeclaredValue c.Resources.Limits "cpu" r.Resources.CPULimits ∧
        isDeclaredValue c.Resources.Limits "memory" r.Resources.MemoryLimits ∧
        isDeclaredValue c.Resources.Requests "cpu" r.Resources.CPURequests ∧
        isDeclaredValue c.Resources.Requests "memory" r.Resources.MemoryRequests ∧
        (c.Resources.Limits = [] → c.Resources.Requests = [] →
          r.Resources.CPULimits = 0 ∧ r.Resources.MemoryLimits = 0 ∧
          r.Resources.CPURequests = 0 ∧ r.Resources.MemoryRequests = 0)) := by
  rw [podOf_eq]
  refine ⟨by simp, ?_⟩
  intro i c hc
  refine ⟨containerOf p.UID c, by simp [List.getElem?_map, hc], rfl, rfl, rfl, rfl,
    cpu_isDeclaredValue _, memory_isDeclaredValue _, cpu_isDeclaredValue _,
    memory_isDeclaredValue _, ?_⟩
  intro hl hr
  simp [containerOf, hl, hr, ResourceList.Cpu, ResourceList.Memory]

/-- C11 on the example pod: the first container declares cpu 2, memory 4096
and a cpu request of 1; the second declares nothing. -/
theorem podOf_containers_witness :
    (podOf exPodFull).Containers.map (fun r => (r.Name, r.OwnerUID, r.Resources)) =
      [ ("app", "u1", { Name := "", CPULimits := 2, MemoryLimits := 4096, CPURequests := 1,
                        MemoryRequests := 0 }),
        ("sidecar", "u1", { Name := "", CPULimits := 0, MemoryLimits := 0, CPURequests := 0,
                            MemoryRequests := 0 }) ] ∧
    (∃ r, (podOf exPodFull).Containers[1]? = some r ∧ r.OwnerUID = "u1" ∧
      r.Resources.CPULimits = 0 ∧ r.Resources.MemoryLimits = 0 ∧
      r.Resources.CPURequests = 0 ∧ r.Resources.MemoryRequests = 0) := by
  refine ⟨by decide, ?_⟩
  obtain ⟨r, h1, -, -, -, h5, -, -, -, -, h10⟩ :=
    (podOf_containers exPodFull).2 1
      { Name := "sidecar", Image := "side:1", Resources := { Limits := [], Requests := [] } } rfl
  exact ⟨r, h1, h5, h10 rfl rfl⟩

/-- C12: the Owners list of a pod record has one record per input owner
reference, in input order; the record of the i-th reference copies API version,
kind and name unchanged, holds the reference's controller flag in Controller
and its block-owner-deletion flag in BlockOwnerDeletion, each with its three
states absent, true and false kept apart. -/
theorem podOf_owners (p : RawPod) :
    (podOf p).Owners.length = p.OwnerReferences.length ∧
    (∀ (i : Nat) (o : OwnerReference), p.OwnerReferences[i]? = some o →
      ∃ r, (podOf p).Owners[i]? = some r ∧
        r.ApiVersion = o.APIVersion ∧ r.Kind = o.Kind ∧ r.Name = o.Name ∧
        r.Controller = o.Controller ∧ r.BlockOwnerDeletion = o.BlockOwnerDeletion ∧
        (r.Controller = none ↔ o.Controller = none) ∧
        (r.Controller = some true ↔ o.Controller = some true) ∧
        (r.Controller = some false ↔ o.Controller = some false) ∧
        (r.BlockOwnerDeletion = none ↔ o.BlockOwnerDeletion = none) ∧
        (r.BlockOwnerDeletion = some true ↔ o.BlockOwnerDeletion = some true) ∧
        (r.BlockOwnerDeletion = some false ↔ o.BlockOwnerDeletion = some false)) := by
  rw [podOf_eq]
  refine ⟨by simp, ?_⟩
  intro i o ho
  exact ⟨ownerOf o, by simp [List.getElem?_map, ho], rfl, rfl, rfl, rfl, rfl,
    Iff.rfl, Iff.rfl, Iff.rfl, Iff.rfl, Iff.rfl, Iff.rfl⟩

/-- C12 on the example pod: the flags (true, false), (absent, true) and
(false, absent) come out as they went in. -/
theorem podOf_owners_witness :
    (podOf exPodFull).Owners.map (fun r => (r.Name, r.Controller, r.BlockOwnerDeletion)) =
      [ ("rs-1", some true, some false), ("job-1", none, some true),
        ("c-1", some false, none) ] ∧
    (∃ r, (podOf exPodFull).Owners[1]? = some r ∧ r.Controller = none ∧
      r.BlockOwnerDeletion = some true) := by
  refine ⟨by decide, ?_⟩
  obtain ⟨r, h1, -, -, -, h5, h6, -⟩ :=
    (podOf_owners exPodFull).2 1
      { APIVersion := "v1", Kind := "Job", Name := "job-1",
        Controller := none, BlockOwnerDeletion := some true } rfl
  exact ⟨r, h1, h5, h6⟩

/-! ## The scalar fields of an audit -/

/-- What `auditCluster` returns, by the outcome of the four list calls. -/
theorem auditCluster_cases (clientset : Clientset) (clusterID : String) (r : AuditResults)
    (h : auditCluster clientset clusterID = some r) :
    ((failed clientset.Namespaces ∨ failed clientset.Pods ∨ failed clientset.ResourceQuotas ∨
        failed clientset.Nodes) ∧
      ∃ msg, r = { NewAuditResults with ErrorMessage := msg }) ∨
    (¬ (failed clientset.Namespaces ∨ failed clientset.Pods ∨ failed clientset.ResourceQuotas ∨
        failed clientset.Nodes) ∧
      ∃ namespaces pods quotas nodes g, clientset.Namespaces = .ok namespaces ∧
        clientset.Pods = .ok pods ∧ clientset.ResourceQuotas = .ok quotas ∧
        clientset.Nodes = .ok nodes ∧
        generateAuditResults namespaces pods quotas nodes = some g ∧
        r = { g with ClusterID := clusterID }) := by
  obtain ⟨ns, ps, qs, nds⟩ := clientset
  cases ns with
  | error e =>
    simp only [auditCluster, Option.some.injEq] at h
    exact Or.inl ⟨by simp [failed], _, h.symm⟩
  | ok namespaces =>
    cases ps with
    | error e =>
      simp only [auditCluster, Option.some.injEq] at h
      exact Or.inl ⟨by simp [failed], _, h.symm⟩
    | ok pods =>
      cases qs with
      | error e =>
        simp only [auditCluster, Option.some.injEq] at h
        exact Or.inl ⟨by simp [failed], _, h.symm⟩
      | ok quotas =>
        cases nds with
        | error e =>
          simp only [auditCluster, Option.some.injEq] at h
          exact Or.inl ⟨by simp [failed], _, h.symm⟩
        | ok nodes =>
          cases hg : generateAuditResults namespaces pods quotas nodes with
          | none => simp [auditCluster, hg] at h
          | some g =>
            simp only [auditCluster, hg, Option.some.injEq] at h
            exact Or.inr ⟨by simp [failed], namespaces, pods, quotas, nodes, g, rfl, rfl, rfl,
              rfl, hg, h.symm⟩

/-- C14: whatever the outcome of the four list calls, a snapshot returned by
`auditCluster` has Success false, on the path where all four fetches and the
aggregation succeed as well. -/
theorem auditCluster_success_is_false (clientset : Clientset) (clusterID : String)
    (r : AuditResults) (h : auditCluster clientset clusterID = some r) :
    r.Success = false := by
  rcases auditCluster_cases clientset clusterID r h with
    ⟨-, msg, hr⟩ | ⟨-, namespaces, pods, quotas, nodes, g, -, -, -, -, hg, hr⟩
  · rw [hr]
    rfl
  · rw [hr]
    exact (generateAuditResults_shape namespaces pods quotas nodes g hg).2.2.2.1

/-- C14 on the example inventory, where all four calls and the aggregation
succeed: a snapshot is returned, without error message, and Success is false. -/
theorem auditCluster_success_is_false_witness :
    ∃ r, auditCluster exClientset "east-1" = some r ∧ r.ErrorMessage = "" ∧
      r.Success = false := by
  have hsome : (auditCluster exClientset "east-1").isSome = true := by decide
  obtain ⟨r, hr⟩ := Option.isSome_iff_exists.mp hsome
  refine ⟨r, hr, ?_, auditCluster_success_is_false exClientset "east-1" r hr⟩
  rcases auditCluster_cases exClientset "east-1" r hr with
    ⟨hf, -⟩ | ⟨-, namespaces, pods, quotas, nodes, g, -, -, -, -, hg, hr'⟩
  · simp [failed, exClientset] at hf
  · rw [hr']
    exact (generateAuditResults_shape namespaces pods quotas nodes g hg).2.2.2.2.1

/-- C16: a snapshot returned by `auditCluster` carries the caller's cluster id
when all four list calls succeed, and the empty string as ClusterID whenever a
list call fails. -/
theorem auditCluster_clusterID (clientset : Clientset) (clusterID : String)
    (r : AuditResults) (h : auditCluster clientset clusterID = some r) :
    (¬ (failed clientset.Namespaces ∨ failed clientset.Pods ∨ failed clientset.ResourceQuotas ∨
        failed clientset.Nodes) → r.ClusterID = clusterID) ∧
    ((failed clientset.Namespaces ∨ failed clientset.Pods ∨ failed clientset.ResourceQuotas ∨
        failed clientset.Nodes) → r.ClusterID = "") := by
  rcases auditCluster_cases clientset clusterID r h with
    ⟨hf, msg, hr⟩ | ⟨hf, namespaces, pods, quotas, nodes, g, -, -, -, -, hg, hr⟩
  · exact ⟨fun hn => absurd hf hn, fun _ => by rw [hr]; rfl⟩
  · exact ⟨fun _ => by rw [hr], fun hy => absurd hy hf⟩

/-- C16 on the example inventory and on a cluster whose pod list call fails:
the first snapshot is labelled `east-1`, the second carries no cluster id. -/
theorem auditCluster_clusterID_witness :
    (∃ r, auditCluster exClientset "east-1" = some r ∧ r.ClusterID = "east-1") ∧
    (∃ r, auditCluster exClientsetPodsDown "east-1" = some r ∧ r.ClusterID = "" ∧
      r.ErrorMessage = "Unable to return list of pods") := by
  constructor
  · have hsome : (auditCluster exClientset "east-1").isSome = true := by decide
    obtain ⟨r, hr⟩ := Option.isSome_iff_exists.mp hsome
    exact ⟨r, hr, (auditCluster_clusterID exClientset "east-1" r hr).1
      (by simp [failed, exClientset])⟩
  · have hr : auditCluster exClientsetPodsDown "east-1"
        = some { NewAuditResults with ErrorMessage := "Unable to return list of pods" } := rfl
    exact ⟨_, hr, (auditCluster_clusterID exClientsetPodsDown "east-1" _ hr).2
      (Or.inr (Or.inl trivial)), rfl⟩

/-! ## Node resource values -/

/-- C18: in every node record, the Allocatable and the Capacity values have
CPURequests 0, MemoryRequests 0 and an empty Name, whatever the resource lists
of the node hold; CPULimits and MemoryLimits are the cpu and memory quantities
of the respective list (0 when the entry is missing). On a node whose capacity
list even has a `requests.cpu` entry, the request fields are still 0. -/
theorem nodeOf_requests_are_zero (each : RawNode) :
    ((nodeOf each).Allocatable.CPURequests = 0 ∧ (nodeOf each).Allocatable.MemoryRequests = 0 ∧
      (nodeOf each).Allocatable.Name = "") ∧
    ((nodeOf each).Capacity.CPURequests = 0 ∧ (nodeOf each).Capacity.MemoryRequests = 0 ∧
      (nodeOf each).Capacity.Name = "") ∧
    (isDeclaredValue each.Allocatable "cpu" (nodeOf each).Allocatable.CPULimits ∧
      isDeclaredValue each.Allocatable "memory" (nodeOf each).Allocatable.MemoryLimits ∧
      isDeclaredValue each.Capacity "cpu" (nodeOf each).Capacity.CPULimits ∧
      isDeclaredValue each.Capacity "memory" (nodeOf each).Capacity.MemoryLimits) ∧
    ((nodeOf exNodeSized).Allocatable
        = { Name := "", CPULimits := 4, MemoryLimits := 8192, CPURequests := 0,
            MemoryRequests := 0 } ∧
      (nodeOf exNodeSized).Capacity
        = { Name := "", CPULimits := 8, MemoryLimits := 16384, CPURequests := 0,
            MemoryRequests := 0 }) := by
  obtain ⟨ha, hc⟩ := nodeOf_resources each
  rw [ha, hc]
  exact ⟨⟨rfl, rfl, rfl⟩, ⟨rfl, rfl, rfl⟩,
    ⟨cpu_isDeclaredValue _, memory_isDeclaredValue _, cpu_isDeclaredValue _,
      memory_isDeclaredValue _⟩, by decide⟩

/-! ## `Find` -/

/-- A pointer returned by `Find` designates a record named `s`, and no record
before it is named `s`. -/
theorem find_some_spec (n : Namespaces) (s : String) (i : Nat) (h : n.Find s = some i) :
    ∃ ns, n[i]? = some ns ∧ ns.Name = s ∧
      ∀ (j : Nat) (earlier : Namespace), j < i → n[j]? = some earlier → earlier.Name ≠ s := by
  obtain ⟨l, ns, r, h1, h2, h3, h4, -⟩ := find_split id n s i h
  refine ⟨ns, ?_, h2, ?_⟩
  · rw [h1, ← h4, List.getElem?_append_right (le_refl _)]
    simp
  · intro j earlier hj he
    rw [h1, List.getElem?_append_left (by omega)] at he
    exact h3 earlier (List.getElem?_mem he)

/-- C19: `Find` returns no record exactly when no record of the list is named
`s`; otherwise the pointer it returns designates a record named `s` such that
no record before it in the list is named `s`, the first match in list order.
`Find` is a function of the list: it returns a position in it and leaves it
as it is. -/
theorem Find_returns_first_match (n : Namespaces) (s : String) :
    (n.Find s = none ↔ ∀ ns ∈ n, ns.Name ≠ s) ∧
    (∀ i, n.Find s = some i →
      ∃ ns, n[i]? = some ns ∧ ns.Name = s ∧
        ∀ (j : Nat) (earlier : Namespace), j < i → n[j]? = some earlier → earlier.Name ≠ s) ∧
    ((∃ ns ∈ n, ns.Name = s) → ∃ i, n.Find s = some i) := by
  refine ⟨find_eq_none_iff n s, find_some_spec n s, ?_⟩
  rintro ⟨ns, hns, hname⟩
  cases hf : n.Find s with
  | none => exact absurd hname ((find_eq_none_iff n s).mp hf ns hns)
  | some i => exact ⟨i, rfl⟩

/-- C19 on three records named `ns-a`, `ns-b`, `ns-a`: the first `ns-a`, the
record `ns-b` at position 1, and nothing for `ns-c`. -/
theorem Find_returns_first_match_witness :
    Namespaces.Find [NewNamespace "ns-a", NewNamespace "ns-b", NewNamespace "ns-a"] "ns-a"
      = some 0 ∧
    Namespaces.Find [NewNamespace "ns-a", NewNamespace "ns-b", NewNamespace "ns-a"] "ns-c"
      = none ∧
    (∃ ns, [NewNamespace "ns-a", NewNamespace "ns-b", NewNamespace "ns-a"][1]? = some ns ∧
      ns.Name = "ns-b") := by
  refine ⟨by decide, by decide, ?_⟩
  obtain ⟨ns, h1, h2, -⟩ :=
    (Find_returns_first_match [NewNamespace "ns-a", NewNamespace "ns-b", NewNamespace "ns-a"]
      "ns-b").2.1 1 (by decide)
  exact ⟨ns, h1, h2⟩

/-! ## Aggregation: grouping is stable -/

theorem update_getElem? (f : Namespace → Namespace) (n : Namespaces) (i j : Nat) :
    (Namespaces.update f n i)[j]? = if j = i then (n[j]?).map f else n[j]? := by
  induction n generalizing i j with
  | nil => simp [Namespaces.update]
  | cons hd tl ih =>
    cases i with
    | zero =>
      cases j with
      | zero => simp [Namespaces.update]
      | succ j => simp [Namespaces.update]
    | succ i =>
      cases j with
      | zero => simp [Namespaces.update]
      | succ j => simp [Namespaces.update, ih]

/-- `Find` looks at the names only. -/
theorem Find_congr (a b : Namespaces)
    (h : a.map (fun ns => ns.Name) = b.map (fun ns => ns.Name)) (s : String) :
    a.Find s = b.Find s := by
  induction a generalizing b with
  | nil =>
    cases b with
    | nil => rfl
    | cons y ys => simp at h
  | cons x xs ih =>
    cases b with
    | nil => simp at h
    | cons y ys =>
      simp only [List.map_cons, List.cons.injEq] at h
      simp only [Namespaces.Find, h.1, ih ys h.2]

theorem podStep_eq (results r : AuditResults) (p : RawPod) (h : podStep results p = some r) :
    ∃ k, results.Namespaces.Find p.Namespace = some k ∧
      r.Namespaces = Namespaces.update (fun ns => { ns with Pods := ns.Pods ++ [podOf p] })
        results.Namespaces k := by
  cases hf : results.Namespaces.Find (podOf p).Namespace with
  | none => simp [podStep, hf] at h
  | some k =>
    simp only [podStep, hf, Option.some.injEq] at h
    rw [podOf_namespace] at hf
    exact ⟨k, hf, by rw [← h]⟩

theorem quotaStep_eq (results r : AuditResults) (q : RawResourceQuota)
    (h : quotaStep results q = some r) :
    ∃ k, results.Namespaces.Find q.Namespace = some k ∧
      r.Namespaces = Namespaces.update
        (fun ns => { ns with ResourceQuotas := ns.ResourceQuotas ++ [quotaOf q] })
        results.Namespaces k := by
  cases hf : results.Namespaces.Find (quotaOf q).Namespace with
  | none => simp [quotaStep, hf] at h
  | some k =>
    simp only [quotaStep, hf, Option.some.injEq] at h
    rw [quotaOf_namespace] at hf
    exact ⟨k, hf, by rw [← h]⟩

/-- The pod loop, slot by slot: slot `i` receives, in input order, the pods
whose namespace `Find` resolves to slot `i`; the quotas stay as they are. -/
theorem podLoop_slots (pods : List RawPod) (results r : AuditResults)
    (h : pods.foldlM podStep results = some r) (i : Nat) :
    (r.Namespaces[i]?).map (fun ns => ns.Pods) =
      (results.Namespaces[i]?).map (fun ns => ns.Pods ++
        (pods.filter (fun p => results.Namespaces.Find p.Namespace = some i)).map podOf) ∧
    (r.Namespaces[i]?).map (fun ns => ns.ResourceQuotas) =
      (results.Namespaces[i]?).map (fun ns => ns.ResourceQuotas) := by
  induction pods generalizing results with
  | nil =>
    simp only [List.foldlM_nil, Option.pure_def, Option.some.injEq] at h
    subst h
    simp
  | cons p ps ih =>
    rw [List.foldlM_cons] at h
    cases hs : podStep results p with
    | none => simp [hs] at h
    | some r1 =>
      simp only [hs, Option.bind_eq_bind, Option.some_bind] at h
      obtain ⟨k, hk, hr1⟩ := podStep_eq results r1 p hs
      have hfind : ∀ s, r1.Namespaces.Find s = results.Namespaces.Find s :=
        Find_congr _ _ (podStep_names results r1 p hs)
      obtain ⟨ih1, ih2⟩ := ih r1 h
      rw [ih1, ih2, hr1, update_getElem?]
      simp only [hfind, ← hr1]
      by_cases hik : i = k
      · subst hik
        cases hget : results.Namespaces[i]? with
        | none => simp
        | some ns => simp [List.filter_cons, hk]
      · have hne : ¬ (some k = some i) := fun e => hik (Option.some.inj e).symm
        cases hget : results.Namespaces[i]? with
        | none => simp [hik]
        | some ns => simp [List.filter_cons, hk, hik, hne]

/-- The quota loop, slot by slot. -/
theorem quotaLoop_slots (quotas : List RawResourceQuota) (results r : AuditResults)
    (h : quotas.foldlM quotaStep results = some r) (i : Nat) :
    (r.Namespaces[i]?).map (fun ns => ns.ResourceQuotas) =
      (results.Namespaces[i]?).map (fun ns => ns.ResourceQuotas ++
        (quotas.filter (fun q => results.Namespaces.Find q.Namespace = some i)).map quotaOf) ∧
    (r.Namespaces[i]?).map (fun ns => ns.Pods) =
      (results.Namespaces[i]?).map (fun ns => ns.Pods) := by
  induction quotas generalizing results with
  | nil =>
    simp only [List.foldlM_nil, Option.pure_def, Option.some.injEq] at h
    subst h
    simp
  | cons q qs ih =>
    rw [List.foldlM_cons] at h
    cases hs : quotaStep results q with
    | none => simp [hs] at h
    | some r1 =>
      simp only [hs, Option.bind_eq_bind, Option.some_bind] at h
      obtain ⟨k, hk, hr1⟩ := quotaStep_eq results r1 q hs
      have hfind : ∀ s, r1.Namespaces.Find s = results.Namespaces.Find s :=
        Find_congr _ _ (quotaStep_names results r1 q hs)
      obtain ⟨ih1, ih2⟩ := ih r1 h
      rw [ih1, ih2, hr1, update_getElem?]
      simp only [hfind, ← hr1]
      by_cases hik : i = k
      · subst hik
        cases hget : results.Namespaces[i]? with
        | none => simp
        | some ns => simp [List.filter_cons, hk]
      · have hne : ¬ (some k = some i) := fun e => hik (Option.some.inj e).symm
        cases hget : results.Namespaces[i]? with
        | none => simp [hik]
        | some ns => simp [List.filter_cons, hk, hik, hne]

/-- The children of every slot of a returned snapshot. -/
theorem generateAuditResults_slots
    (namespaces : List RawNamespace) (pods : List RawPod)
    (resourceQuotas : List RawResourceQuota) (nodes : List RawNode) (r : AuditResults)
    (h : generateAuditResults namespaces pods resourceQuotas nodes = some r)
    (i : Nat) (ns : Namespace) (hns : r.Namespaces[i]? = some ns) :
    ns.Pods = (pods.filter (fun p => r.Namespaces.Find p.Namespace = some i)).map podOf ∧
    ns.ResourceQuotas =
      (resourceQuotas.filter (fun q => r.Namespaces.Find q.Namespace = some i)).map quotaOf := by
  have h0 := namespaceLoop_spec namespaces NewAuditResults
  set r0 := namespaces.foldl namespaceStep NewAuditResults with hr0
  cases hl : pods.foldlM podStep r0 with
  | none => simp [generateAuditResults, ← hr0, hl] at h
  | some r1 =>
    cases hq : resourceQuotas.foldlM quotaStep r1 with
    | none => simp [generateAuditResults, ← hr0, hl, hq] at h
    | some r2 =>
      simp only [generateAuditResults, ← hr0, hl, hq, Option.bind_eq_bind, Option.some_bind,
        Option.pure_def, Option.some.injEq] at h
      have hr : r.Namespaces = r2.Namespaces := by rw [← h, nodeLoop_spec]
      have hn1 := names_of_header (podLoop_frame pods r0 r1 hl).2
      have hn2 := names_of_header (quotaLoop_frame resourceQuotas r1 r2 hq).2
      have hf1 : ∀ s, r0.Namespaces.Find s = r.Namespaces.Find s := fun s => by
        rw [hr]; exact (Find_congr _ _ (hn2.trans hn1) s).symm
      have hf2 : ∀ s, r1.Namespaces.Find s = r.Namespaces.Find s := fun s => by
        rw [hr]; exact (Find_congr _ _ hn2 s).symm
      obtain ⟨p1, q1⟩ := podLoop_slots pods r0 r1 hl i
      obtain ⟨q2, p2⟩ := quotaLoop_slots resourceQuotas r1 r2 hq i
      rw [← hr, hns] at q2 p2
      simp only [hf1] at p1 q1
      simp only [hf2] at q2
      have hempty : ∀ x, r0.Namespaces[i]? = some x → x.Pods = [] ∧ x.ResourceQuotas = [] := by
        intro x hx
        rw [h0] at hx
        have hmem := List.getElem?_mem hx
        simp only [NewAuditResults, List.nil_append, List.mem_map] at hmem
        obtain ⟨each, -, rfl⟩ := hmem
        exact ⟨rfl, rfl⟩
      cases hx0 : r0.Namespaces[i]? with
      | none =>
        rw [hx0] at p1
        rw [p1] at p2
        simp at p2
      | some x0 =>
        obtain ⟨e1, e2⟩ := hempty x0 hx0
        rw [hx0] at p1 q1
        cases hx1 : r1.Namespaces[i]? with
        | none => rw [hx1] at p1; simp at p1
        | some x1 =>
          rw [hx1] at p1 q1 p2 q2
          simp only [Option.map_some', Option.some.injEq, e1, e2, List.nil_append] at p1 q1 p2 q2
          exact ⟨p2.trans p1, by rw [q2, q1, List.nil_append]⟩

/-- C17: whenever `generateAuditResults` returns, the Pods list of the record
in slot `i` is the list of the input pods that `Find` attaches to slot `i`, in
input order (a subsequence of the input pod list), and its ResourceQuotas list
is the corresponding subsequence of the input quotas; every pod is attached to
the first record that carries the pod's namespace name; and a record whose
name already occurs earlier in the list has no pods and no quotas. -/
theorem generateAuditResults_groups_stably
    (namespaces : List RawNamespace) (pods : List RawPod)
    (resourceQuotas : List RawResourceQuota) (nodes : List RawNode) (r : AuditResults)
    (h : generateAuditResults namespaces pods resourceQuotas nodes = some r) :
    (∀ (i : Nat) (ns : Namespace), r.Namespaces[i]? = some ns →
      ns.Pods = (pods.filter (fun p => r.Namespaces.Find p.Namespace = some i)).map podOf ∧
      ns.ResourceQuotas =
        (resourceQuotas.filter
          (fun q => r.Namespaces.Find q.Namespace = some i)).map quotaOf ∧
      ns.Pods.Sublist (pods.map podOf) ∧
      ns.ResourceQuotas.Sublist (resourceQuotas.map quotaOf)) ∧
    (∀ p ∈ pods, ∃ i ns, r.Namespaces[i]? = some ns ∧ ns.Name = p.Namespace ∧
      podOf p ∈ ns.Pods ∧
      ∀ (j : Nat) (earlier : Namespace), j < i → r.Namespaces[j]? = some earlier →
        earlier.Name ≠ p.Namespace) ∧
    (∀ (i j : Nat) (first later : Namespace), j < i → r.Namespaces[j]? = some first →
      r.Namespaces[i]? = some later → first.Name = later.Name →
      later.Pods = [] ∧ later.ResourceQuotas = []) := by
  have hslots := generateAuditResults_slots namespaces pods resourceQuotas nodes r h
  refine ⟨?_, ?_, ?_⟩
  · intro i ns hns
    obtain ⟨hp, hq⟩ := hslots i ns hns
    refine ⟨hp, hq, ?_, ?_⟩
    · rw [hp]
      exact List.Sublist.map _ (List.filter_sublist _)
    · rw [hq]
      exact List.Sublist.map _ (List.filter_sublist _)
  · intro p hp
    cases hf : r.Namespaces.Find p.Namespace with
    | none =>
      exfalso
      have hnames : ∀ ns ∈ r.Namespaces, ns.Name ≠ p.Namespace :=
        (find_eq_none_iff _ _).mp hf
      have hpanic := generateAuditResults_panics_of_missing_namespace namespaces pods
        resourceQuotas nodes (Or.inl ⟨p, hp, ?_⟩)
      · rw [hpanic] at h
        cases h
      · intro n hn e
        have hh := (generateAuditResults_shape _ _ _ _ r h).2.2.2.2.2.2
        have hmem : p.Namespace ∈ r.Namespaces.map (fun ns => ns.Name) := by
          have hnm : r.Namespaces.map (fun ns => ns.Name)
              = namespaces.map (fun each => each.Name) := by
            have := congrArg (List.map Prod.fst) hh
            simpa [List.map_map, Function.comp_def, Namespace.header] using this
          rw [hnm]
          exact List.mem_map.mpr ⟨n, hn, e⟩
        obtain ⟨ns, hns, hname⟩ := List.mem_map.mp hmem
        exact hnames ns hns hname
    | some i =>
      obtain ⟨ns, h1, h2, h3⟩ := find_some_spec r.Namespaces p.Namespace i hf
      refine ⟨i, ns, h1, h2, ?_, h3⟩
      rw [(hslots i ns h1).1]
      exact List.mem_map.mpr ⟨p, List.mem_filter.mpr ⟨hp, by simpa using hf⟩, rfl⟩
  · intro i j first later hji hfirst hlater hname
    obtain ⟨hp, hq⟩ := hslots i later hlater
    have hnot : ∀ s, s = later.Name → r.Namespaces.Find s ≠ some i := by
      intro s hs hfind
      obtain ⟨ns, -, -, h3⟩ := find_some_spec r.Namespaces s i hfind
      exact h3 j first hji hfirst (hname.trans hs.symm)
    have hmatch : ∀ s, r.Namespaces.Find s = some i → s = later.Name := by
      intro s hfind
      obtain ⟨ns, h1, h2, -⟩ := find_some_spec r.Namespaces s i hfind
      rw [hlater] at h1
      cases h1
      exact h2.symm
    constructor
    · rw [hp, List.map_eq_nil_iff, List.filter_eq_nil_iff]
      intro p _ hdec
      have hfind : r.Namespaces.Find p.Namespace = some i := by simpa using hdec
      exact hnot _ (hmatch _ hfind) hfind
    · rw [hq, List.map_eq_nil_iff, List.filter_eq_nil_iff]
      intro q _ hdec
      have hfind : r.Namespaces.Find q.Namespace = some i := by simpa using hdec
      exact hnot _ (hmatch _ hfind) hfind

/-- C17 on the namespaces `ns-a`, `ns-b`, `ns-a`: the pods `p1` and `p3` of
`ns-a` sit in the first record in input order, `p2` and the quota in `ns-b`,
and the second `ns-a` record has no children. -/
theorem generateAuditResults_groups_stably_witness :
    generateAuditResults exNamespacesTwice exPods exQuotas [] = some exSnapshotTwice ∧
    (∀ (i : Nat) (ns : Namespace), exSnapshotTwice.Namespaces[i]? = some ns →
      ns.Pods.Sublist (exPods.map podOf)) ∧
    (∀ later : Namespace, exSnapshotTwice.Namespaces[2]? = some later →
      later.Pods = [] ∧ later.ResourceQuotas = []) :=
  have h : generateAuditResults exNamespacesTwice exPods exQuotas [] = some exSnapshotTwice := by
    decide
  ⟨h,
   fun i ns hns =>
    ((generateAuditResults_groups_stably exNamespacesTwice exPods exQuotas [] _ h).1
      i ns hns).2.2.1,
   fun later hl =>
    (generateAuditResults_groups_stably exNamespacesTwice exPods exQuotas [] _ h).2.2 2 0
      { NewNamespace "ns-a" with
          Pods := [podOf (exPod "p1" "ns-a" "u1"), podOf (exPod "p3" "ns-a" "u3")] }
      later (by decide) rfl hl
      (by
        have : later = { NewNamespace "ns-a" with Annotations := [("second", "yes")] } := by
          have h2 : exSnapshotTwice.Namespaces[2]?
              = some { NewNamespace "ns-a" with Annotations := [("second", "yes")] } := rfl
          rw [h2] at hl
          exact (Option.some.inj hl).symm
        rw [this])⟩

/-! ## File names of distinct ticks -/

theorem exTime_String : exTime.String = exRendering := by decide

theorem exTimeAt_String : (exTimeAt 10 30 0).String = "2017-12-15 10:30:00 +0000 UTC" := by
  decide

theorem digitChar_spec (d : Nat) (h : d < 10) :
    charVal (Char.ofNat (48 + d)) = d ∧ Char.ofNat (48 + d) ≠ '-' ∧
      Char.ofNat (48 + d) ≠ '_' ∧ Char.ofNat (48 + d) ≠ '.' := by
  interval_cases d <;> decide

theorem digitsValue_append (l : List Char) (c : Char) :
    digitsValue (l ++ [c]) = 10 * digitsValue l + charVal c := by
  simp [digitsValue, List.foldl_append]

theorem digitsValue_zeros (k : Nat) (l : List Char) :
    digitsValue (List.replicate k '0' ++ l) = digitsValue l := by
  induction k with
  | zero => simp
  | succ k ih =>
    have h0 : charVal '0' = 0 := by decide
    rw [List.replicate_succ, List.cons_append]
    simpa [digitsValue, List.foldl_cons, h0] using ih

theorem digitsValue_decimalDigits (fuel u : Nat) (h : u < 10 ^ (fuel + 1)) :
    digitsValue (decimalDigits fuel u) = u := by
  induction fuel generalizing u with
  | zero =>
    have hu : u < 10 := by simpa using h
    have hm : u % 10 = u := Nat.mod_eq_of_lt hu
    simp only [decimalDigits, hm]
    simpa [digitsValue] using (digitChar_spec u hu).1
  | succ fuel ih =>
    unfold decimalDigits
    split_ifs with h10
    · have hdiv : u / 10 < 10 ^ (fuel + 1) := by
        apply Nat.div_lt_of_lt_mul
        rw [pow_succ] at h
        omega
      rw [digitsValue_append, ih (u / 10) hdiv, (digitChar_spec (u % 10) (Nat.mod_lt _ (by omega))).1]
      omega
    · have hu : u < 10 := by omega
      simpa [digitsValue] using (digitChar_spec u hu).1

theorem digitsValue_fixedDigits (k u : Nat) (h : u < 10 ^ k) :
    digitsValue (fixedDigits k u) = u := by
  induction k generalizing u with
  | zero =>
    have : u = 0 := by simpa using h
    subst this
    rfl
  | succ k ih =>
    have hdiv : u / 10 < 10 ^ k := by
      apply Nat.div_lt_of_lt_mul
      rw [pow_succ] at h
      omega
    rw [fixedDigits, digitsValue_append, ih (u / 10) hdiv,
      (digitChar_spec (u % 10) (Nat.mod_lt _ (by omega))).1]
    omega

theorem fixedDigits_length (k u : Nat) : (fixedDigits k u).length = k := by
  induction k generalizing u with
  | zero => rfl
  | succ k ih => simp [fixedDigits, ih]

theorem decimalDigits_chars (fuel u : Nat) : ∀ c ∈ decimalDigits fuel u, isDigitChar c := by
  induction fuel generalizing u with
  | zero =>
    intro c hc
    simp only [decimalDigits, List.mem_singleton] at hc
    exact ⟨u % 10, Nat.mod_lt _ (by omega), hc⟩
  | succ fuel ih =>
    intro c hc
    unfold decimalDigits at hc
    split_ifs at hc with h10
    · rcases List.mem_append.mp hc with hc | hc
      · exact ih _ c hc
      · exact ⟨u % 10, Nat.mod_lt _ (by omega), List.mem_singleton.mp hc⟩
    · exact ⟨u, by omega, List.mem_singleton.mp hc⟩

theorem fixedDigits_chars (k u : Nat) : ∀ c ∈ fixedDigits k u, isDigitChar c := by
  induction k generalizing u with
  | zero => intro c hc; simp [fixedDigits] at hc
  | succ k ih =>
    intro c hc
    rcases List.mem_append.mp hc with hc | hc
    · exact ih _ c hc
    · exact ⟨u % 10, Nat.mod_lt _ (by omega), List.mem_singleton.mp hc⟩

theorem isDigitChar_ne (c : Char) (h : isDigitChar c) : c ≠ '-' ∧ c ≠ '_' ∧ c ≠ '.' := by
  obtain ⟨d, hd, rfl⟩ := h
  exact (digitChar_spec d hd).2

theorem decimalDigits_ne_nil (fuel u : Nat) : decimalDigits fuel u ≠ [] := by
  cases fuel with
  | zero => simp [decimalDigits]
  | succ fuel =>
    unfold decimalDigits
    split_ifs <;> simp


theorem zero_isDigitChar : isDigitChar '0' := ⟨0, by omega, by decide⟩

/-- `appendInt` is an optional sign followed by a non-empty run of digits. -/
theorem appendInt_shape (x : Int) (w : Nat) :
    ∃ body, body ≠ [] ∧ (∀ c ∈ body, isDigitChar c) ∧
      digitsValue body = digitsValue (decimalDigits 19 x.natAbs) ∧
      appendInt x w = (if x < 0 then ['-'] else []) ++ body := by
  refine ⟨List.replicate (w - (decimalDigits 19 x.natAbs).length) '0'
    ++ decimalDigits 19 x.natAbs, ?_, ?_, digitsValue_zeros _ _, ?_⟩
  · simp [decimalDigits_ne_nil]
  · intro c hc
    rcases List.mem_append.mp hc with hc | hc
    · rw [(List.mem_replicate.mp hc).2]
      exact zero_isDigitChar
    · exact decimalDigits_chars _ _ c hc
  · simp [appendInt, List.append_assoc]

theorem appendInt_ne_nil (x : Int) (w : Nat) : appendInt x w ≠ [] := by
  obtain ⟨body, hne, -, -, h⟩ := appendInt_shape x w
  rw [h]
  simp [hne]

theorem appendInt_chars (x : Int) (w : Nat) :
    ∀ c ∈ appendInt x w, c = '-' ∨ isDigitChar c := by
  obtain ⟨body, -, hd, -, h⟩ := appendInt_shape x w
  rw [h]
  intro c hc
  rcases List.mem_append.mp hc with hc | hc
  · split_ifs at hc
    · exact Or.inl (List.mem_singleton.mp hc)
    · simp at hc
  · exact Or.inr (hd c hc)

theorem appendInt_tail_chars (x : Int) (w : Nat) :
    ∀ c ∈ (appendInt x w).tail, isDigitChar c := by
  obtain ⟨body, -, hd, -, h⟩ := appendInt_shape x w
  rw [h]
  intro c hc
  split_ifs at hc
  · exact hd c (by simpa using hc)
  · exact hd c (List.mem_of_mem_tail (by simpa using hc))

/-- The printed integer can be read back. -/
theorem signedValue_appendInt (x : Int) (w : Nat) (hx : x.natAbs < 10 ^ 20) :
    signedValue (appendInt x w) = x := by
  obtain ⟨body, hne, hd, hv, h⟩ := appendInt_shape x w
  rw [h]
  have hval : digitsValue body = x.natAbs := by
    rw [hv]
    exact digitsValue_decimalDigits 19 x.natAbs hx
  by_cases hneg : x < 0
  · simp only [if_pos hneg, List.singleton_append, signedValue, if_true, hval]
    omega
  · rw [if_neg hneg, List.nil_append]
    cases hb : body with
    | nil => exact absurd hb hne
    | cons c rest =>
      have hc : c ≠ '-' := (isDigitChar_ne c (hd c (by rw [hb]; simp))).1
      simp only [signedValue, if_neg hc, ← hb, hval]
      omega

theorem appendInt_inj (x y : Int) (w : Nat) (hx : x.natAbs < 10 ^ 20) (hy : y.natAbs < 10 ^ 20)
    (h : appendInt x w = appendInt y w) : x = y := by
  rw [← signedValue_appendInt x w hx, ← signedValue_appendInt y w hy, h]

/-- The year at the front of a rendering ends at the first hyphen after its
first character. -/
theorem appendInt_hyphen_split (x y : Int) (w : Nat) (r1 r2 : List Char)
    (h : appendInt x w ++ '-' :: r1 = appendInt y w ++ '-' :: r2) :
    appendInt x w = appendInt y w ∧ r1 = r2 := by
  have key : ∀ (a b : Int) (s1 s2 a' : List Char), appendInt b w = appendInt a w ++ a' →
      '-' :: s1 = a' ++ '-' :: s2 → a' = [] := by
    intro a b s1 s2 a' hb hs
    cases a' with
    | nil => rfl
    | cons c rest =>
      exfalso
      simp only [List.cons_append, List.cons.injEq] at hs
      have hmem : '-' ∈ (appendInt b w).tail := by
        rw [hb, List.tail_append_of_ne_nil (appendInt_ne_nil a w), ← hs.1]
        simp
      exact (isDigitChar_ne _ (appendInt_tail_chars b w _ hmem)).1 rfl
  rcases List.append_eq_append_iff.mp h with ⟨a', hb, hs⟩ | ⟨c', ha, hs⟩
  · have := key x y r1 r2 a' hb hs
    subst this
    simp only [List.append_nil, List.nil_append, List.cons.injEq, true_and] at hb hs
    exact ⟨hb.symm, hs⟩
  · have := key y x r2 r1 c' ha hs
    subst this
    simp only [List.append_nil, List.nil_append, List.cons.injEq, true_and] at ha hs
    exact ⟨ha, hs.symm⟩

/-- Two fields of the same width followed by the same rest. -/
theorem fixed_split (a1 a2 r1 r2 : List Char) (c : Char) (hlen : a1.length = a2.length)
    (h : a1 ++ c :: r1 = a2 ++ c :: r2) : a1 = a2 ∧ r1 = r2 := by
  obtain ⟨h1, h2⟩ := List.append_inj h hlen
  exact ⟨h1, (List.cons.inj h2).2⟩


/-- Trimming removes a run of zeros at the end, and nothing else. -/
theorem trimZeros_spec (l : List Char) :
    l = trimZeros l ++ List.replicate (l.length - (trimZeros l).length) '0' := by
  have hsplit := List.takeWhile_append_dropWhile (fun c => c == '0') l.reverse
  have htake : l.reverse.takeWhile (fun c => c == '0')
      = List.replicate (l.reverse.takeWhile (fun c => c == '0')).length '0' := by
    rw [List.eq_replicate_iff]
    refine ⟨rfl, ?_⟩
    intro c hc
    simpa using List.mem_takeWhile_imp hc
  have hlen : (l.reverse.takeWhile (fun c => c == '0')).length
      = l.length - (trimZeros l).length := by
    have := congrArg List.length hsplit
    simp only [List.length_append, List.length_reverse] at this
    simp only [trimZeros, List.length_reverse]
    omega
  have hrev := congrArg List.reverse hsplit
  rw [List.reverse_append, List.reverse_reverse] at hrev
  rw [← hlen]
  conv_lhs => rw [← hrev]
  rw [htake]
  simp [trimZeros]

theorem trimZeros_chars (l : List Char) : ∀ c ∈ trimZeros l, c ∈ l := by
  intro c hc
  have h := trimZeros_spec l
  rw [h]
  exact List.mem_append_left _ hc

theorem formatNano_chars (n : Nat) : ∀ c ∈ formatNano n, c = '.' ∨ isDigitChar c := by
  intro c hc
  unfold formatNano at hc
  simp only at hc
  split_ifs at hc
  · simp at hc
  · rcases List.mem_cons.mp hc with hc | hc
    · exact Or.inl hc
    · exact Or.inr (fixedDigits_chars 9 n c (trimZeros_chars _ c hc))

theorem formatNano_inj (n m : Nat) (hn : n < 10 ^ 9) (hm : m < 10 ^ 9)
    (h : formatNano n = formatNano m) : n = m := by
  have htrim : trimZeros (fixedDigits 9 n) = trimZeros (fixedDigits 9 m) := by
    unfold formatNano at h
    simp only at h
    by_cases h1 : trimZeros (fixedDigits 9 n) = []
    · by_cases h2 : trimZeros (fixedDigits 9 m) = []
      · rw [h1, h2]
      · rw [if_pos h1, if_neg h2] at h
        cases h
    · by_cases h2 : trimZeros (fixedDigits 9 m) = []
      · rw [if_neg h1, if_pos h2] at h
        cases h
      · rw [if_neg h1, if_neg h2] at h
        exact (List.cons.inj h).2
  have hdig : fixedDigits 9 n = fixedDigits 9 m := by
    rw [trimZeros_spec (fixedDigits 9 n), trimZeros_spec (fixedDigits 9 m), htrim,
      fixedDigits_length, fixedDigits_length]
  rw [← digitsValue_fixedDigits 9 n hn, ← digitsValue_fixedDigits 9 m hm, hdig]

/-- The characters of a rendering, as nested fields. -/
theorem String_chars (t : Time) :
    t.String.toList = appendInt t.year 4 ++ '-' :: (appendInt t.month 2 ++ '-' ::
      (appendInt t.day 2 ++ ' ' :: (appendInt t.hour 2 ++ ':' :: (appendInt t.min 2 ++ ':' ::
      (appendInt t.sec 2 ++ (formatNano t.nsec.toNat
        ++ [' ', '+', '0', '0', '0', '0', ' ', 'U', 'T', 'C'])))))) := by
  simp [Time.String, List.append_assoc]

theorem String_no_underscore (t : Time) : ∀ c ∈ t.String.toList, c ≠ '_' := by
  intro c hc
  rw [String_chars] at hc
  have hint : ∀ (x : Int) (w : Nat), c ∈ appendInt x w → c ≠ '_' := by
    intro x w hx
    rcases appendInt_chars x w c hx with rfl | hd
    · decide
    · exact (isDigitChar_ne c hd).2.1
  simp only [List.mem_append, List.mem_cons, List.mem_singleton] at hc
  rcases hc with h | rfl | h | rfl | h | rfl | h | rfl | h | rfl | h | h | h
  · exact hint _ _ h
  · decide
  · exact hint _ _ h
  · decide
  · exact hint _ _ h
  · decide
  · exact hint _ _ h
  · decide
  · exact hint _ _ h
  · decide
  · exact hint _ _ h
  · rcases formatNano_chars _ c h with rfl | hd
    · decide
    · exact (isDigitChar_ne c hd).2.1
  · rcases h with rfl | rfl | rfl | rfl | rfl | rfl | rfl | rfl | rfl | rfl | h
    all_goals first | decide | exact absurd h (List.not_mem_nil _)

theorem map_spaceToUnderscore_inj (l1 l2 : List Char) (h1 : ∀ c ∈ l1, c ≠ '_')
    (h2 : ∀ c ∈ l2, c ≠ '_') (h : l1.map spaceToUnderscore = l2.map spaceToUnderscore) :
    l1 = l2 := by
  induction l1 generalizing l2 with
  | nil =>
    cases l2 with
    | nil => rfl
    | cons b bs => simp at h
  | cons a as ih =>
    cases l2 with
    | nil => simp at h
    | cons b bs =>
      simp only [List.map_cons, List.cons.injEq] at h
      have ha := h1 a (by simp)
      have hb := h2 b (by simp)
      have hab : a = b := by
        have := h.1
        unfold spaceToUnderscore at this
        split_ifs at this with e1 e2 e2
        · rw [e1, e2]
        · exact absurd this.symm hb
        · exact absurd this ha
        · exact this
      rw [hab, ih bs (fun c hc => h1 c (by simp [hc])) (fun c hc => h2 c (by simp [hc])) h.2]

theorem filename_chars (clusterID rendering : String) :
    (filename clusterID rendering).toList =
      clusterID.toList.map spaceToUnderscore ++ (['-', '-', '-'] ++
        (rendering.toList.map spaceToUnderscore ++ ['.', 'j', 's', 'o', 'n'])) := by
  have hf : (fun c => if c = ' ' then '_' else c) = spaceToUnderscore := rfl
  simp only [filename, stringsReplace_space, hf, String.toList, String.data_append,
    List.map_append, List.append_assoc]
  rfl

theorem daysIn_le (m year : Int) (h1 : 1 ≤ m) (h2 : m ≤ 12) : daysIn m year ≤ 31 := by
  unfold daysIn
  split_ifs
  · omega
  · interval_cases m <;> simp [daysBefore]


theorem twoDigits_length (x : Int) (h0 : 0 ≤ x) (h1 : x < 100) : (appendInt x 2).length = 2 :=
  appendInt_length x 2 (by omega) h0 (by norm_num; omega)

theorem twoDigits_inj (x y : Int) (hx0 : 0 ≤ x) (hx1 : x < 100) (hy0 : 0 ≤ y) (hy1 : y < 100)
    (h : appendInt x 2 = appendInt y 2) : x = y :=
  appendInt_inj x y 2 (by norm_num; omega) (by norm_num; omega) h

/-- The default rendering determines the time. -/
theorem String_injective (t u : Time) (ht : t.valid) (hu : u.valid)
    (hty : t.year ≤ 9223372036854775807) (huy : u.year ≤ 9223372036854775807)
    (h : t.String = u.String) : t = u := by
  have hc : t.String.toList = u.String.toList := by rw [h]
  rw [String_chars, String_chars] at hc
  obtain ⟨ty1, tm1, tm2, td1, td2, th1, th2, tmi1, tmi2, ts1, ts2, tn1, tn2⟩ := ht
  obtain ⟨uy1, um1, um2, ud1, ud2, uh1, uh2, umi1, umi2, us1, us2, un1, un2⟩ := hu
  have td3 := daysIn_le t.month t.year tm1 tm2
  have ud3 := daysIn_le u.month u.year um1 um2
  simp only [absoluteZeroYear] at ty1 uy1
  obtain ⟨hY, hc⟩ := appendInt_hyphen_split _ _ 4 _ _ hc
  obtain ⟨hM, hc⟩ := fixed_split _ _ _ _ '-'
    ((twoDigits_length _ (by omega) (by omega)).trans
      (twoDigits_length _ (by omega) (by omega)).symm) hc
  obtain ⟨hD, hc⟩ := fixed_split _ _ _ _ ' '
    ((twoDigits_length _ (by omega) (by omega)).trans
      (twoDigits_length _ (by omega) (by omega)).symm) hc
  obtain ⟨hH, hc⟩ := fixed_split _ _ _ _ ':'
    ((twoDigits_length _ (by omega) (by omega)).trans
      (twoDigits_length _ (by omega) (by omega)).symm) hc
  obtain ⟨hMi, hc⟩ := fixed_split _ _ _ _ ':'
    ((twoDigits_length _ (by omega) (by omega)).trans
      (twoDigits_length _ (by omega) (by omega)).symm) hc
  obtain ⟨hS, hc⟩ := List.append_inj hc
    ((twoDigits_length _ (by omega) (by omega)).trans
      (twoDigits_length _ (by omega) (by omega)).symm)
  have hN := List.append_cancel_right hc
  have e1 : t.year = u.year :=
    appendInt_inj _ _ 4 (by norm_num; omega) (by norm_num; omega) hY
  have e2 : t.month = u.month :=
    twoDigits_inj _ _ (by omega) (by omega) (by omega) (by omega) hM
  have e3 : t.day = u.day := twoDigits_inj _ _ (by omega) (by omega) (by omega) (by omega) hD
  have e4 : t.hour = u.hour := twoDigits_inj _ _ (by omega) (by omega) (by omega) (by omega) hH
  have e5 : t.min = u.min := twoDigits_inj _ _ (by omega) (by omega) (by omega) (by omega) hMi
  have e6 : t.sec = u.sec := twoDigits_inj _ _ (by omega) (by omega) (by omega) (by omega) hS
  have e7 : t.nsec = u.nsec := by
    have := formatNano_inj t.nsec.toNat u.nsec.toNat (by norm_num; omega) (by norm_num; omega) hN
    omega
  cases t
  cases u
  simp only [Time.mk.injEq]
  exact ⟨e1, e2, e3, e4, e5, e6, e7⟩


/-- C15: for a fixed cluster id, two UTC timestamps that differ (in any civil
field down to the nanosecond) are written to distinct file names: the map from
the timestamp to the file name computed from its default rendering, spaces
replaced by underscores, is injective. The timestamps have their fields in
range and a year that fits Go's `int`. -/
theorem filename_distinct_for_distinct_timestamps (clusterID : String) (t u : Time)
    (ht : t.valid) (hu : u.valid)
    (hty : t.year ≤ 9223372036854775807) (huy : u.year ≤ 9223372036854775807)
    (hne : t ≠ u) :
    filename clusterID t.String ≠ filename clusterID u.String := by
  intro h
  apply hne
  have hc : (filename clusterID t.String).toList = (filename clusterID u.String).toList := by
    rw [h]
  rw [filename_chars, filename_chars] at hc
  have h1 := List.append_cancel_left (List.append_cancel_left hc)
  have h2 := List.append_cancel_right h1
  have h3 := map_spaceToUnderscore_inj _ _ (String_no_underscore t) (String_no_underscore u) h2
  exact String_injective t u ht hu hty huy (String.ext h3)

/-- C15 on two timestamps one nanosecond apart. -/
theorem filename_distinct_for_distinct_timestamps_witness :
    exTime.valid ∧ { exTime with nsec := 123456790 }.valid ∧
    exTime ≠ { exTime with nsec := 123456790 } ∧
    filename "east-1" exTime.String
      ≠ filename "east-1" ({ exTime with nsec := 123456790 } : Time).String :=
  ⟨by decide, by decide, by decide,
   filename_distinct_for_distinct_timestamps "east-1" exTime { exTime with nsec := 123456790 }
     (by decide) (by decide) (by decide) (by decide) (by decide)⟩

/-! ## Serialization round trip -/

namespace GoValue

/-! ### Strings -/

theorem EncodeRune_two (a b : Nat) (ha : 2 ≤ a) (ha2 : a < 32) (hb : b < 64) :
    EncodeRune (a * 64 + b) = [0xC0 + a, 0x80 + b] := by
  unfold EncodeRune
  rw [if_neg (by omega), if_pos (by omega)]
  have h1 : (a * 64 + b) / 64 = a := by omega
  have h2 : (a * 64 + b) % 64 = b := by omega
  rw [h1, h2]

theorem EncodeRune_three (a b c : Nat) (ha : a < 16) (hb : b < 64) (hc : c < 64)
    (hlow : 0x800 ≤ a * 4096 + b * 64 + c)
    (hsur : ¬ (0xD800 ≤ a * 4096 + b * 64 + c ∧ a * 4096 + b * 64 + c ≤ 0xDFFF)) :
    EncodeRune (a * 4096 + b * 64 + c) = [0xE0 + a, 0x80 + b, 0x80 + c] := by
  unfold EncodeRune
  rw [if_neg (by omega), if_neg (by omega), if_neg (by omega), if_pos (by omega)]
  have h1 : (a * 4096 + b * 64 + c) / 4096 = a := by omega
  have h2 : (a * 4096 + b * 64 + c) / 64 % 64 = b := by omega
  have h3 : (a * 4096 + b * 64 + c) % 64 = c := by omega
  rw [h1, h2, h3]

theorem EncodeRune_four (a b c d : Nat) (hb : b < 64) (hc : c < 64) (hd : d < 64)
    (hlow : 0x10000 ≤ a * 262144 + b * 4096 + c * 64 + d)
    (hhigh : a * 262144 + b * 4096 + c * 64 + d ≤ 0x10FFFF) :
    EncodeRune (a * 262144 + b * 4096 + c * 64 + d)
      = [0xF0 + a, 0x80 + b, 0x80 + c, 0x80 + d] := by
  unfold EncodeRune
  rw [if_neg (by omega), if_neg (by omega), if_neg (by omega), if_neg (by omega)]
  have h1 : (a * 262144 + b * 4096 + c * 64 + d) / 262144 = a := by omega
  have h2 : (a * 262144 + b * 4096 + c * 64 + d) / 4096 % 64 = b := by omega
  have h3 : (a * 262144 + b * 4096 + c * 64 + d) / 64 % 64 = c := by omega
  have h4 : (a * 262144 + b * 4096 + c * 64 + d) % 64 = d := by omega
  rw [h1, h2, h3, h4]

/-- The rows of the table. -/
theorem leadByte_cases (p0 : Nat) :
    leadByte p0 = (1, 0, 0) ∨
    (0xC2 ≤ p0 ∧ p0 ≤ 0xDF ∧ leadByte p0 = (2, 0x80, 0xBF)) ∨
    (p0 = 0xE0 ∧ leadByte p0 = (3, 0xA0, 0xBF)) ∨
    (p0 = 0xED ∧ leadByte p0 = (3, 0x80, 0x9F)) ∨
    (0xE1 ≤ p0 ∧ p0 ≤ 0xEF ∧ p0 ≠ 0xED ∧ leadByte p0 = (3, 0x80, 0xBF)) ∨
    (p0 = 0xF0 ∧ leadByte p0 = (4, 0x90, 0xBF)) ∨
    (0xF1 ≤ p0 ∧ p0 ≤ 0xF3 ∧ leadByte p0 = (4, 0x80, 0xBF)) ∨
    (p0 = 0xF4 ∧ leadByte p0 = (4, 0x80, 0x8F)) := by
  unfold leadByte
  by_cases h1 : p0 < 0xC2
  · left; rw [if_pos h1]
  rw [if_neg h1]
  by_cases h2 : p0 ≤ 0xDF
  · right; left; rw [if_pos h2]; exact ⟨by omega, h2, rfl⟩
  rw [if_neg h2]
  by_cases h3 : p0 = 0xE0
  · right; right; left; rw [if_pos h3]; exact ⟨h3, rfl⟩
  rw [if_neg h3]
  by_cases h4 : p0 = 0xED
  · right; right; right; left; rw [if_pos h4]; exact ⟨h4, rfl⟩
  rw [if_neg h4]
  by_cases h5 : p0 ≤ 0xEF
  · right; right; right; right; left; rw [if_pos h5]; exact ⟨by omega, h5, h4, rfl⟩
  rw [if_neg h5]
  by_cases h6 : p0 = 0xF0
  · right; right; right; right; right; left; rw [if_pos h6]; exact ⟨h6, rfl⟩
  rw [if_neg h6]
  by_cases h7 : p0 ≤ 0xF3
  · right; right; right; right; right; right; left; rw [if_pos h7]; exact ⟨by omega, h7, rfl⟩
  rw [if_neg h7]
  by_cases h8 : p0 = 0xF4
  · right; right; right; right; right; right; right; rw [if_pos h8]; exact ⟨h8, rfl⟩
  rw [if_neg h8]
  left; rfl

theorem DecodeRune_invalid (p0 : Nat) (rest : List Nat) (h0 : ¬ p0 < 0x80)
    (hl : leadByte p0 = (1, 0, 0)) : DecodeRune (p0 :: rest) = (RuneError, 1) := by
  simp [DecodeRune, hl, h0]

theorem DecodeRune_short (p0 : Nat) (rest : List Nat) (sz lo hi : Nat) (h0 : ¬ p0 < 0x80)
    (hl : leadByte p0 = (sz, lo, hi)) (hs : sz ≠ 1) (hlen : rest.length + 1 < sz) :
    DecodeRune (p0 :: rest) = (RuneError, 1) := by
  simp [DecodeRune, hl, h0, hs, hlen]

theorem DecodeRune_two (p0 b1 : Nat) (rest : List Nat) (lo hi : Nat) (h0 : ¬ p0 < 0x80)
    (hl : leadByte p0 = (2, lo, hi)) :
    DecodeRune (p0 :: b1 :: rest)
      = if b1 < lo ∨ hi < b1 then (RuneError, 1) else (p0 % 32 * 64 + b1 % 64, 2) := by
  simp [DecodeRune, hl, h0]

theorem DecodeRune_three (p0 b1 b2 : Nat) (rest : List Nat) (lo hi : Nat) (h0 : ¬ p0 < 0x80)
    (hl : leadByte p0 = (3, lo, hi)) :
    DecodeRune (p0 :: b1 :: b2 :: rest)
      = if b1 < lo ∨ hi < b1 then (RuneError, 1)
        else if b2 < 0x80 ∨ 0xBF < b2 then (RuneError, 1)
        else (p0 % 16 * 4096 + b1 % 64 * 64 + b2 % 64, 3) := by
  simp [DecodeRune, hl, h0]

theorem DecodeRune_four (p0 b1 b2 b3 : Nat) (rest : List Nat) (lo hi : Nat) (h0 : ¬ p0 < 0x80)
    (hl : leadByte p0 = (4, lo, hi)) :
    DecodeRune (p0 :: b1 :: b2 :: b3 :: rest)
      = if b1 < lo ∨ hi < b1 then (RuneError, 1)
        else if b2 < 0x80 ∨ 0xBF < b2 then (RuneError, 1)
        else if b3 < 0x80 ∨ 0xBF < b3 then (RuneError, 1)
        else (p0 % 8 * 262144 + b1 % 64 * 4096 + b2 % 64 * 64 + b3 % 64, 4) := by
  simp [DecodeRune, hl, h0]

theorem DecodeRune_spec_two (p0 : Nat) (rest : List Nat) (h0 : ¬ p0 < 0x80)
    (hp : 0xC2 ≤ p0 ∧ p0 ≤ 0xDF) (hl : leadByte p0 = (2, 0x80, 0xBF))
    (hok : ¬ ((DecodeRune (p0 :: rest)).1 = RuneError ∧ (DecodeRune (p0 :: rest)).2 = 1)) :
    EncodeRune (DecodeRune (p0 :: rest)).1 = (p0 :: rest).take (DecodeRune (p0 :: rest)).2 ∧
      1 ≤ (DecodeRune (p0 :: rest)).2 ∧ Nat.isValidChar (DecodeRune (p0 :: rest)).1 := by
  rcases rest with _ | ⟨b1, rest⟩
  · rw [DecodeRune_short p0 [] 2 _ _ h0 hl (by omega) (by simp)] at hok
    exact absurd ⟨rfl, rfl⟩ hok
  · rw [DecodeRune_two p0 b1 rest _ _ h0 hl] at hok ⊢
    by_cases hb : b1 < 0x80 ∨ 0xBF < b1
    · rw [if_pos hb] at hok
      exact absurd ⟨rfl, rfl⟩ hok
    · rw [if_neg hb]
      have e := EncodeRune_two (p0 % 32) (b1 % 64) (by omega) (by omega) (by omega)
      have e0 : 0xC0 + p0 % 32 = p0 := by omega
      have e1 : 0x80 + b1 % 64 = b1 := by omega
      rw [e0, e1] at e
      refine ⟨by simpa using e, by simp, ?_⟩
      simp only [Nat.isValidChar]
      omega

theorem DecodeRune_spec_three (p0 : Nat) (rest : List Nat) (lo hi : Nat) (h0 : ¬ p0 < 0x80)
    (hp : 0xE0 ≤ p0 ∧ p0 ≤ 0xEF) (hlo : 0x80 ≤ lo ∧ (p0 = 0xE0 → 0xA0 ≤ lo))
    (hhi : hi ≤ 0xBF ∧ (p0 = 0xED → hi ≤ 0x9F)) (hl : leadByte p0 = (3, lo, hi))
    (hok : ¬ ((DecodeRune (p0 :: rest)).1 = RuneError ∧ (DecodeRune (p0 :: rest)).2 = 1)) :
    EncodeRune (DecodeRune (p0 :: rest)).1 = (p0 :: rest).take (DecodeRune (p0 :: rest)).2 ∧
      1 ≤ (DecodeRune (p0 :: rest)).2 ∧ Nat.isValidChar (DecodeRune (p0 :: rest)).1 := by
  rcases rest with _ | ⟨b1, _ | ⟨b2, rest⟩⟩
  · rw [DecodeRune_short p0 [] 3 _ _ h0 hl (by omega) (by simp)] at hok
    exact absurd ⟨rfl, rfl⟩ hok
  · rw [DecodeRune_short p0 [b1] 3 _ _ h0 hl (by omega) (by simp)] at hok
    exact absurd ⟨rfl, rfl⟩ hok
  · rw [DecodeRune_three p0 b1 b2 rest _ _ h0 hl] at hok ⊢
    by_cases hb : b1 < lo ∨ hi < b1
    · rw [if_pos hb] at hok
      exact absurd ⟨rfl, rfl⟩ hok
    rw [if_neg hb] at hok ⊢
    by_cases hc : b2 < 0x80 ∨ 0xBF < b2
    · rw [if_pos hc] at hok
      exact absurd ⟨rfl, rfl⟩ hok
    rw [if_neg hc]
    have e := EncodeRune_three (p0 % 16) (b1 % 64) (b2 % 64) (by omega) (by omega) (by omega)
      (by omega) (by omega)
    have e0 : 0xE0 + p0 % 16 = p0 := by omega
    have e1 : 0x80 + b1 % 64 = b1 := by omega
    have e2 : 0x80 + b2 % 64 = b2 := by omega
    rw [e0, e1, e2] at e
    refine ⟨by simpa using e, by simp, ?_⟩
    simp only [Nat.isValidChar]
    omega

theorem DecodeRune_spec_four (p0 : Nat) (rest : List Nat) (lo hi : Nat) (h0 : ¬ p0 < 0x80)
    (hp : 0xF0 ≤ p0 ∧ p0 ≤ 0xF4) (hlo : 0x80 ≤ lo ∧ (p0 = 0xF0 → 0x90 ≤ lo))
    (hhi : hi ≤ 0xBF ∧ (p0 = 0xF4 → hi ≤ 0x8F)) (hl : leadByte p0 = (4, lo, hi))
    (hok : ¬ ((DecodeRune (p0 :: rest)).1 = RuneError ∧ (DecodeRune (p0 :: rest)).2 = 1)) :
    EncodeRune (DecodeRune (p0 :: rest)).1 = (p0 :: rest).take (DecodeRune (p0 :: rest)).2 ∧
      1 ≤ (DecodeRune (p0 :: rest)).2 ∧ Nat.isValidChar (DecodeRune (p0 :: rest)).1 := by
  rcases rest with _ | ⟨b1, _ | ⟨b2, _ | ⟨b3, rest⟩⟩⟩
  · rw [DecodeRune_short p0 [] 4 _ _ h0 hl (by omega) (by simp)] at hok
    exact absurd ⟨rfl, rfl⟩ hok
  · rw [DecodeRune_short p0 [b1] 4 _ _ h0 hl (by omega) (by simp)] at hok
    exact absurd ⟨rfl, rfl⟩ hok
  · rw [DecodeRune_short p0 [b1, b2] 4 _ _ h0 hl (by omega) (by simp)] at hok
    exact absurd ⟨rfl, rfl⟩ hok
  · rw [DecodeRune_four p0 b1 b2 b3 rest _ _ h0 hl] at hok ⊢
    by_cases hb : b1 < lo ∨ hi < b1
    · rw [if_pos hb] at hok
      exact absurd ⟨rfl, rfl⟩ hok
    rw [if_neg hb] at hok ⊢
    by_cases hc : b2 < 0x80 ∨ 0xBF < b2
    · rw [if_pos hc] at hok
      exact absurd ⟨rfl, rfl⟩ hok
    rw [if_neg hc] at hok ⊢
    by_cases hd : b3 < 0x80 ∨ 0xBF < b3
    · rw [if_pos hd] at hok
      exact absurd ⟨rfl, rfl⟩ hok
    rw [if_neg hd]
    have e := EncodeRune_four (p0 % 8) (b1 % 64) (b2 % 64) (b3 % 64) (by omega) (by omega)
      (by omega) (by omega) (by omega)
    have e0 : 0xF0 + p0 % 8 = p0 := by omega
    have e1 : 0x80 + b1 % 64 = b1 := by omega
    have e2 : 0x80 + b2 % 64 = b2 := by omega
    have e3 : 0x80 + b3 % 64 = b3 := by omega
    rw [e0, e1, e2, e3] at e
    refine ⟨by simpa using e, by simp, ?_⟩
    simp only [Nat.isValidChar]
    omega

/-- A rune that `DecodeRune` accepts is encoded by the bytes it was read from. -/
theorem DecodeRune_spec (p : List Nat) (hne : p ≠ [])
    (hok : ¬ ((DecodeRune p).1 = RuneError ∧ (DecodeRune p).2 = 1)) :
    EncodeRune (DecodeRune p).1 = p.take (DecodeRune p).2 ∧ 1 ≤ (DecodeRune p).2 ∧
      Nat.isValidChar (DecodeRune p).1 := by
  rcases p with _ | ⟨p0, rest⟩
  · exact absurd rfl hne
  by_cases h0 : p0 < 0x80
  · have hd : DecodeRune (p0 :: rest) = (p0, 1) := by simp [DecodeRune, h0]
    rw [hd]
    refine ⟨?_, le_refl _, ?_⟩
    · simp only [EncodeRune]
      rw [if_pos (by omega)]
      simp
    · simp only [Nat.isValidChar]
      omega
  rcases leadByte_cases p0 with hl | ⟨h1, h2, hl⟩ | ⟨h1, hl⟩ | ⟨h1, hl⟩ | ⟨h1, h2, h3, hl⟩ |
    ⟨h1, hl⟩ | ⟨h1, h2, hl⟩ | ⟨h1, hl⟩
  · rw [DecodeRune_invalid p0 rest h0 hl] at hok
    exact absurd ⟨rfl, rfl⟩ hok
  · exact DecodeRune_spec_two p0 rest h0 ⟨h1, h2⟩ hl hok
  · exact DecodeRune_spec_three p0 rest _ _ h0 (by omega) (by omega) (by omega) hl hok
  · exact DecodeRune_spec_three p0 rest _ _ h0 (by omega) (by omega) (by omega) hl hok
  · exact DecodeRune_spec_three p0 rest _ _ h0 (by omega) (by omega) (by omega) hl hok
  · exact DecodeRune_spec_four p0 rest _ _ h0 (by omega) (by omega) (by omega) hl hok
  · exact DecodeRune_spec_four p0 rest _ _ h0 (by omega) (by omega) (by omega) hl hok
  · exact DecodeRune_spec_four p0 rest _ _ h0 (by omega) (by omega) (by omega) hl hok

theorem toNat_ofNat_of_valid (n : Nat) (h : Nat.isValidChar n) : (Char.ofNat n).toNat = n := by
  simp only [Char.ofNat, h, dif_pos, Char.ofNatAux, Char.toNat]
  rfl

theorem runes_of_valid (fuel : Nat) (src : List Nat) (hlen : src.length ≤ fuel)
    (h : (runes fuel src).all Option.isSome = true) :
    ((runes fuel src).map (fun r => Char.ofNat (r.getD RuneError))).flatMap
      (fun c => EncodeRune c.toNat) = src := by
  induction fuel generalizing src with
  | zero =>
    have : src = [] := List.length_eq_zero.mp (by omega)
    subst this
    rfl
  | succ fuel ih =>
    by_cases hne : src = []
    · subst hne
      simp [runes]
    · by_cases herr : (DecodeRune src).1 = RuneError ∧ (DecodeRune src).2 = 1
      · simp [runes, hne, herr] at h
      · obtain ⟨henc, hpos, hvalid⟩ := DecodeRune_spec src hne herr
        simp only [runes, if_neg hne, if_neg herr, List.all_cons, Option.isSome_some,
          Bool.true_and] at h
        have hlen2 : (src.drop (DecodeRune src).2).length ≤ fuel := by
          have hpos2 : 0 < src.length := List.length_pos.mpr hne
          rw [List.length_drop]
          omega
        have hrest := ih _ hlen2 h
        simp only [runes, if_neg hne, if_neg herr, List.map_cons, Option.getD_some,
          List.flatMap_cons, toNat_ofNat_of_valid _ hvalid, henc, hrest,
          List.take_append_drop]

/-- Valid UTF-8 comes back byte for byte. -/
theorem coerce_of_valid (src : GoString) (h : utf8Valid src = true) : coerce src = src := by
  simp only [coerce, ofText, toText]
  exact runes_of_valid src.length src (le_refl _) h

/-! ### Maps -/

theorem bytesLess_irrefl (k : List Nat) : bytesLess k k = false := by
  induction k with
  | nil => rfl
  | cons a s ih => simp [bytesLess, ih]

theorem bytesLess_asymm (k l : List Nat) (h : bytesLess k l = true) : bytesLess l k = false := by
  induction k generalizing l with
  | nil =>
    cases l with
    | nil => rfl
    | cons b t => rfl
  | cons a s ih =>
    cases l with
    | nil => simp [bytesLess] at h
    | cons b t =>
      simp only [bytesLess, Bool.or_eq_true, decide_eq_true_eq, Bool.and_eq_true,
        beq_iff_eq] at h
      simp only [bytesLess, Bool.or_eq_false_iff, decide_eq_false_iff_not, Bool.and_eq_false_iff,
        beq_eq_false_iff_ne]
      rcases h with h | ⟨h1, h2⟩
      · exact ⟨by omega, Or.inl (by omega)⟩
      · exact ⟨by omega, Or.inr (ih t h2)⟩

/-- Assigning under a key above all keys of the map adds the entry at the end. -/
theorem setEntry_above (m : GoMap) (k v : GoString)
    (h : ∀ e ∈ m, bytesLess e.1 k = true) : setEntry m k v = m ++ [(k, v)] := by
  induction m with
  | nil => rfl
  | cons e rest ih =>
    obtain ⟨k0, v0⟩ := e
    have h0 : bytesLess k0 k = true := h (k0, v0) (List.mem_cons_self _ _)
    have hne : k ≠ k0 := by
      intro e
      rw [e, bytesLess_irrefl] at h0
      cases h0
    simp only [setEntry, if_neg hne, bytesLess_asymm k0 k h0, Bool.false_eq_true, if_false,
      ih (fun e he => h e (List.mem_cons_of_mem _ he)), List.cons_append]

/-- Assigning the entries of a map in key order builds the same map. -/
theorem foldl_setEntry (m acc : GoMap) (hm : orderedKeys m = true)
    (hacc : ∀ a ∈ acc, ∀ e ∈ m, bytesLess a.1 e.1 = true) :
    m.foldl (fun acc kv => setEntry acc kv.1 kv.2) acc = acc ++ m := by
  induction m generalizing acc with
  | nil => simp
  | cons e rest ih =>
    simp only [orderedKeys, Bool.and_eq_true, List.all_eq_true] at hm
    rw [List.foldl_cons, setEntry_above acc e.1 e.2 (fun a ha => hacc a ha e (List.mem_cons_self _ _)),
      ih _ hm.2, List.append_assoc, List.singleton_append]
    intro a ha x hx
    rcases List.mem_append.mp ha with ha | ha
    · exact hacc a ha x (List.mem_cons_of_mem _ hx)
    · rw [List.mem_singleton.mp ha]
      exact hm.1 x hx

theorem coerceMap_of_valid (m : GoMap) (hm : orderedKeys m = true)
    (hv : m.all (fun kv => utf8Valid kv.1 && utf8Valid kv.2) = true) : coerceMap m = m := by
  have hfold : ∀ (l acc : GoMap), (∀ kv ∈ l, utf8Valid kv.1 = true ∧ utf8Valid kv.2 = true) →
      l.foldl (fun acc kv => setEntry acc (coerce kv.1) (coerce kv.2)) acc
        = l.foldl (fun acc kv => setEntry acc kv.1 kv.2) acc := by
    intro l
    induction l with
    | nil => intro acc _; rfl
    | cons e rest ih =>
      intro acc h
      obtain ⟨h1, h2⟩ := h e (List.mem_cons_self _ _)
      rw [List.foldl_cons, List.foldl_cons, coerce_of_valid _ h1, coerce_of_valid _ h2]
      exact ih _ (fun kv hkv => h kv (List.mem_cons_of_mem _ hkv))
  have hv2 : ∀ kv ∈ m, utf8Valid kv.1 = true ∧ utf8Valid kv.2 = true := by
    intro kv hkv
    have := List.all_eq_true.mp hv kv hkv
    simpa using this
  rw [coerceMap, hfold m [] hv2, foldl_setEntry m [] hm (fun a ha => absurd ha (List.not_mem_nil _)),
    List.nil_append]

theorem backMap_of_valid (m : Option GoMap) (hm : orderedMap m = true) (hv : validMap m = true) :
    backMap m = nilIfEmpty id m := by
  match m with
  | none => rfl
  | some [] => rfl
  | some (kv :: rest) =>
    simp only [backMap, nilIfEmpty, List.map_id]
    rw [coerceMap_of_valid (kv :: rest) hm hv]

/-! ### Members, slices and structs -/

theorem decodeString_encodeString (s : GoString) :
    decodeString (some (encodeString s)) = some (coerce s) := rfl

theorem decodeInt_encodeInt (n : Int) : decodeInt (some (encodeInt n)) = some n := by
  simp [decodeInt, encodeInt]

theorem decodeAll_map {α β : Type} (decode : JSON → Option β) (encode : α → JSON)
    (back : α → β) (l : List α) (h : ∀ a ∈ l, decode (encode a) = some (back a)) :
    decodeAll decode (l.map encode) = some (l.map back) := by
  induction l with
  | nil => rfl
  | cons x xs ih =>
    have hx := h x (List.mem_cons_self _ _)
    have hxs := ih (fun a ha => h a (List.mem_cons_of_mem _ ha))
    simp only [List.map_cons, decodeAll, hx, hxs]

theorem decodeEntries_map (m acc : GoMap) :
    decodeEntries (m.map (fun kv => (toText kv.1, encodeString kv.2))) acc
      = some (m.foldl (fun acc kv => setEntry acc (coerce kv.1) (coerce kv.2)) acc) := by
  induction m generalizing acc with
  | nil => rfl
  | cons kv rest ih =>
    simp only [List.map_cons, decodeEntries, decodeString_encodeString, List.foldl_cons]
    exact ih _

theorem lookup_omitempty_self (key : String) (isEmpty : Bool) (value : JSON)
    (rest : List (String × JSON)) :
    (omitempty key isEmpty value ++ rest).lookup key
      = if isEmpty then rest.lookup key else some value := by
  cases isEmpty <;> simp [omitempty, List.lookup]

theorem lookup_omitempty_other (key other : String) (isEmpty : Bool) (value : JSON)
    (rest : List (String × JSON)) (h : key ≠ other) :
    (omitempty other isEmpty value ++ rest).lookup key = rest.lookup key := by
  have hb : (key == other) = false := by simpa using h
  cases isEmpty <;> simp [omitempty, List.lookup, hb]

theorem lookup_omitempty_last (key : String) (isEmpty : Bool) (value : JSON) :
    (omitempty key isEmpty value).lookup key = if isEmpty then none else some value := by
  cases isEmpty <;> simp [omitempty, List.lookup]

theorem lookup_omitempty_last_other (key other : String) (isEmpty : Bool) (value : JSON)
    (h : key ≠ other) : (omitempty other isEmpty value).lookup key = none := by
  have hb : (key == other) = false := by simpa using h
  cases isEmpty <;> simp [omitempty, List.lookup, hb]

theorem decodeSlice_omitempty {α : Type} (decode : JSON → Option α) (encode : α → JSON)
    (back : α → α) (s : Option (List α)) (h : ∀ a, decode (encode a) = some (back a)) :
    decodeSlice decode (if isEmptyValue s then none else some (encodeSlice encode s))
      = some (nilIfEmpty back s) := by
  match s with
  | none => rfl
  | some [] => rfl
  | some (x :: xs) =>
    simp only [isEmptyValue, List.isEmpty_cons, Bool.false_eq_true, if_false, encodeSlice,
      decodeSlice, decodeAll_map decode encode back (x :: xs) (fun a _ => h a), nilIfEmpty,
      Option.map_some']

theorem decodeMap_omitempty (m : Option GoMap) :
    decodeMap (if isEmptyValue m then none else some (encodeMap m)) = some (backMap m) := by
  match m with
  | none => rfl
  | some [] => rfl
  | some (kv :: rest) =>
    simp only [isEmptyValue, List.isEmpty_cons, Bool.false_eq_true, if_false, encodeMap,
      decodeMap, decodeEntries_map, backMap, coerceMap, Option.map_some']

theorem decodeResourceValues_encode (r : ResourceValues) :
    decodeResourceValues (some (encodeResourceValues r)) = some r.back := by
  simp [decodeResourceValues, encodeResourceValues, List.lookup, decodeString_encodeString,
    decodeInt_encodeInt, ResourceValues.back]

theorem decodeOwner_encode (o : Owner) : decodeOwner (encodeOwner o) = some o.back := by
  obtain ⟨a, b, c, k, n⟩ := o
  cases b <;> cases c <;>
    simp [decodeOwner, encodeOwner, encodeBoolPointer, List.lookup, decodeString_encodeString,
      decodeBoolPointer, Owner.back]

theorem decodeContainer_encode (c : Container) :
    decodeContainer (encodeContainer c) = some c.back := by
  simp [decodeContainer, encodeContainer, List.lookup, decodeString_encodeString,
    decodeResourceValues_encode, Container.back]

theorem decodeResourceQuota_encode (q : ResourceQuota) :
    decodeResourceQuota (encodeResourceQuota q) = some q.back := by
  simp [decodeResourceQuota, encodeResourceQuota, List.lookup, decodeString_encodeString,
    decodeResourceValues_encode, ResourceQuota.back]

theorem decodePod_encode (p : Pod) : decodePod (encodePod p) = some p.back := by
  simp [decodePod, encodePod, List.lookup, decodeString_encodeString, lookup_omitempty_self,
    lookup_omitempty_other, decodeMap_omitempty,
    decodeSlice_omitempty decodeOwner encodeOwner Owner.back _ decodeOwner_encode,
    decodeSlice_omitempty decodeContainer encodeContainer Container.back _
      decodeContainer_encode, Pod.back]

theorem decodeNamespace_encode (ns : Namespace) :
    decodeNamespace (encodeNamespace ns) = some ns.back := by
  simp [decodeNamespace, encodeNamespace, List.lookup, decodeString_encodeString,
    lookup_omitempty_self, lookup_omitempty_other, lookup_omitempty_last,
    lookup_omitempty_last_other, decodeMap_omitempty,
    decodeSlice_omitempty decodeResourceQuota encodeResourceQuota ResourceQuota.back _
      decodeResourceQuota_encode,
    decodeSlice_omitempty decodePod encodePod Pod.back _ decodePod_encode, Namespace.back]

theorem decodeNamespacePointer_encode (ns : Option Namespace) :
    decodeNamespacePointer (encodeNamespacePointer ns) = some (ns.map Namespace.back) := by
  cases ns with
  | none => rfl
  | some ns =>
    have h : decodeNamespacePointer (encodeNamespace ns)
        = (decodeNamespace (encodeNamespace ns)).map some := rfl
    rw [encodeNamespacePointer, h, decodeNamespace_encode]
    rfl

theorem decodeNode_encode (n : Node) : decodeNode (encodeNode n) = some n.back := by
  simp [decodeNode, encodeNode, List.lookup, decodeString_encodeString, lookup_omitempty_self,
    lookup_omitempty_last, decodeMap_omitempty, decodeResourceValues_encode, Node.back]

/-- `Marshal` returns an error exactly for a Duration that is not finite. -/
theorem Marshal_eq_none (r : AuditResults) : Marshal r = none ↔ r.Duration.isFinite = false := by
  unfold Marshal
  cases r.Duration <;> simp [encodeFloat, Float64.isFinite]

/-- Decoding what `Marshal` returns. -/
theorem Unmarshal_Marshal (r : AuditResults) (doc : JSON) (h : Marshal r = some doc) :
    Unmarshal doc = some r.back := by
  unfold Marshal at h
  cases hd : r.Duration with
  | finite q =>
    simp only [hd, encodeFloat, Option.some.injEq] at h
    subst h
    simp [Unmarshal, List.lookup, decodeString_encodeString, decodeFloat, decodeBool,
      lookup_omitempty_self, lookup_omitempty_other,
      decodeSlice_omitempty decodeNode encodeNode Node.back _ decodeNode_encode,
      decodeSlice_omitempty decodeNamespacePointer encodeNamespacePointer
        (Option.map Namespace.back) _ decodeNamespacePointer_encode, AuditResults.back, hd]
  | nan => simp [hd, encodeFloat] at h
  | inf negative => simp [hd, encodeFloat] at h

/-! ### Valid strings and ordered maps: only the empty slices and maps change -/

theorem allOf_spec {α : Type} (ok : α → Bool) (s : Option (List α)) :
    allOf ok s = true ↔ ∀ l, s = some l → ∀ a ∈ l, ok a = true := by
  cases s with
  | none => simp [allOf]
  | some l => simp [allOf, List.all_eq_true]

theorem nilIfEmpty_congr {α : Type} (back fix : α → α) (s : Option (List α))
    (h : ∀ l, s = some l → ∀ a ∈ l, back a = fix a) : nilIfEmpty back s = nilIfEmpty fix s := by
  match s with
  | none => rfl
  | some [] => rfl
  | some (x :: xs) =>
    simp only [nilIfEmpty, Option.some.injEq]
    exact List.map_congr_left (h _ rfl)

theorem resourceValues_back_of_valid (v : ResourceValues) (hv : v.validUTF8 = true) :
    v.back = v := by
  simp only [ResourceValues.validUTF8] at hv
  simp only [ResourceValues.back, coerce_of_valid _ hv]

theorem owner_back_of_valid (o : Owner) (hv : o.validUTF8 = true) : o.back = o := by
  simp only [Owner.validUTF8, Bool.and_eq_true] at hv
  simp only [Owner.back, coerce_of_valid _ hv.1.1, coerce_of_valid _ hv.1.2,
    coerce_of_valid _ hv.2]

theorem container_back_of_valid (c : Container) (hv : c.validUTF8 = true) : c.back = c := by
  simp only [Container.validUTF8, Bool.and_eq_true] at hv
  simp only [Container.back, coerce_of_valid _ hv.1.1.1, coerce_of_valid _ hv.1.1.2,
    resourceValues_back_of_valid _ hv.1.2, coerce_of_valid _ hv.2]

theorem resourceQuota_back_of_valid (q : ResourceQuota) (hv : q.validUTF8 = true) :
    q.back = q := by
  simp only [ResourceQuota.validUTF8, Bool.and_eq_true] at hv
  simp only [ResourceQuota.back, coerce_of_valid _ hv.1.1.1.1, coerce_of_valid _ hv.1.1.1.2,
    resourceValues_back_of_valid _ hv.1.1.2, resourceValues_back_of_valid _ hv.1.2,
    resourceValues_back_of_valid _ hv.2]

theorem pod_back_of_valid (p : Pod) (ho : p.ordered = true) (hv : p.validUTF8 = true) :
    p.back = p.emptyToNil := by
  simp only [Pod.validUTF8, Bool.and_eq_true] at hv
  simp only [Pod.ordered, Bool.and_eq_true] at ho
  obtain ⟨⟨⟨⟨⟨⟨⟨⟨⟨h1, h2⟩, h3⟩, h4⟩, h5⟩, h6⟩, h7⟩, h8⟩, h9⟩, h10⟩ := hv
  simp only [Pod.back, Pod.emptyToNil, coerce_of_valid _ h1, coerce_of_valid _ h6,
    coerce_of_valid _ h7, coerce_of_valid _ h8, coerce_of_valid _ h9, coerce_of_valid _ h10,
    backMap_of_valid _ ho.1 h2, backMap_of_valid _ ho.2 h3,
    nilIfEmpty_congr Owner.back id p.Owners
      (fun l hl a ha => owner_back_of_valid a ((allOf_spec _ _).mp h4 l hl a ha)),
    nilIfEmpty_congr Container.back id p.Containers
      (fun l hl a ha => container_back_of_valid a ((allOf_spec _ _).mp h5 l hl a ha))]

theorem namespace_back_of_valid (ns : Namespace) (ho : ns.ordered = true)
    (hv : ns.validUTF8 = true) : ns.back = ns.emptyToNil := by
  simp only [Namespace.validUTF8, Bool.and_eq_true] at hv
  simp only [Namespace.ordered, Bool.and_eq_true] at ho
  obtain ⟨⟨⟨⟨h1, h2⟩, h3⟩, h4⟩, h5⟩ := hv
  simp only [Namespace.back, Namespace.emptyToNil, coerce_of_valid _ h1,
    backMap_of_valid _ ho.1.1 h2, backMap_of_valid _ ho.1.2 h3,
    nilIfEmpty_congr ResourceQuota.back id ns.ResourceQuotas
      (fun l hl a ha => resourceQuota_back_of_valid a ((allOf_spec _ _).mp h4 l hl a ha)),
    nilIfEmpty_congr Pod.back Pod.emptyToNil ns.Pods
      (fun l hl a ha => pod_back_of_valid a ((allOf_spec _ _).mp ho.2 l hl a ha)
        ((allOf_spec _ _).mp h5 l hl a ha))]

theorem node_back_of_valid (n : Node) (ho : n.ordered = true) (hv : n.validUTF8 = true) :
    n.back = n.emptyToNil := by
  simp only [Node.validUTF8, Bool.and_eq_true] at hv
  simp only [Node.ordered] at ho
  obtain ⟨⟨⟨⟨⟨⟨⟨h1, h2⟩, h3⟩, h4⟩, h5⟩, h6⟩, h7⟩, h8⟩ := hv
  simp only [Node.back, Node.emptyToNil, coerce_of_valid _ h1, coerce_of_valid _ h2,
    coerce_of_valid _ h3, coerce_of_valid _ h4, coerce_of_valid _ h7,
    resourceValues_back_of_valid _ h5, resourceValues_back_of_valid _ h6,
    backMap_of_valid _ ho h8]

theorem auditResults_back_of_valid (r : AuditResults) (ho : r.ordered = true)
    (hv : r.validUTF8 = true) : r.back = r.emptyToNil := by
  simp only [AuditResults.validUTF8, Bool.and_eq_true] at hv
  simp only [AuditResults.ordered, Bool.and_eq_true] at ho
  obtain ⟨⟨⟨⟨h1, h2⟩, h3⟩, h4⟩, h5⟩ := hv
  have hns : ∀ l, r.Namespaces = some l → ∀ a ∈ l,
      Option.map Namespace.back a = Option.map Namespace.emptyToNil a := by
    intro l hl a ha
    cases a with
    | none => rfl
    | some x =>
      have e1 := (allOf_spec _ _).mp ho.2 l hl (some x) ha
      have e2 := (allOf_spec _ _).mp h4 l hl (some x) ha
      simp only [Option.map_some', namespace_back_of_valid x e1 e2]
  simp only [AuditResults.back, AuditResults.emptyToNil, coerce_of_valid _ h1,
    coerce_of_valid _ h2, coerce_of_valid _ h5,
    nilIfEmpty_congr Node.back Node.emptyToNil r.Nodes
      (fun l hl a ha => node_back_of_valid a ((allOf_spec _ _).mp ho.1 l hl a ha)
        ((allOf_spec _ _).mp h3 l hl a ha)),
    nilIfEmpty_congr (Option.map Namespace.back) (Option.map Namespace.emptyToNil)
      r.Namespaces hns]

/-! ### When nothing changes -/

theorem map_eq_self {α : Type} (back : α → α) (l : List α) :
    l.map back = l ↔ ∀ a ∈ l, back a = a := by
  induction l with
  | nil => simp
  | cons x xs ih => simp [ih]

theorem nilIfEmpty_eq_self {α : Type} (back : α → α) (inner : α → Prop) (s : Option (List α))
    (h : ∀ a, back a = a ↔ inner a) : nilIfEmpty back s = s ↔ noEmptyNonNil inner s := by
  match s with
  | none => simp [nilIfEmpty, noEmptyNonNil]
  | some [] => simp [nilIfEmpty, noEmptyNonNil]
  | some (x :: xs) =>
    simp only [nilIfEmpty, noEmptyNonNil, Option.some.injEq]
    rw [map_eq_self]
    exact forall_congr' (fun a => imp_congr_right (fun _ => h a))

theorem nilIfEmpty_id_eq_self {α : Type} (s : Option (List α)) :
    nilIfEmpty id s = s ↔ noEmptyNonNil (fun _ => True) s :=
  nilIfEmpty_eq_self id (fun _ => True) s (fun _ => by simp)

theorem pod_emptyToNil_eq_self (p : Pod) : p.emptyToNil = p ↔ p.canonical := by
  obtain ⟨n, a, l, o, c, s, i, nn, ns, u⟩ := p
  simp only [Pod.emptyToNil, Pod.canonical, Pod.mk.injEq, true_and, and_true,
    nilIfEmpty_id_eq_self]

theorem namespace_emptyToNil_eq_self (ns : Namespace) : ns.emptyToNil = ns ↔ ns.canonical := by
  obtain ⟨n, a, l, q, p⟩ := ns
  simp only [Namespace.emptyToNil, Namespace.canonical, Namespace.mk.injEq, true_and,
    nilIfEmpty_id_eq_self,
    nilIfEmpty_eq_self Pod.emptyToNil Pod.canonical p pod_emptyToNil_eq_self]

theorem node_emptyToNil_eq_self (n : Node) : n.emptyToNil = n ↔ n.canonical := by
  obtain ⟨a, b, c, d, e, f, g, h⟩ := n
  simp only [Node.emptyToNil, Node.canonical, Node.mk.injEq, true_and, nilIfEmpty_id_eq_self]

theorem auditResults_emptyToNil_eq_self (r : AuditResults) :
    r.emptyToNil = r ↔ r.canonical := by
  obtain ⟨a, b, c, d, e, f, g⟩ := r
  have hp : ∀ ns : Option Namespace,
      Option.map Namespace.emptyToNil ns = ns ↔ ∀ x, ns = some x → x.canonical := by
    intro ns
    cases ns with
    | none => simp
    | some x => simp [namespace_emptyToNil_eq_self]
  simp only [AuditResults.emptyToNil, AuditResults.canonical, AuditResults.mk.injEq, true_and,
    and_true, nilIfEmpty_eq_self Node.emptyToNil Node.canonical d node_emptyToNil_eq_self,
    nilIfEmpty_eq_self (Option.map Namespace.emptyToNil) _ e hp]

end GoValue

/-- C13 fails as stated. The snapshot of `NewAuditResults`, whose Namespaces
list is empty and not nil, comes back with a nil Namespaces list, and a pod of
`NewPod`, whose Containers list is empty and not nil, comes back with a nil
Containers list; a snapshot whose Duration is a NaN is not serialized at all;
and a cluster id that is not valid UTF-8 comes back with U+FFFD in the place of
the offending byte. In none of the four cases is the original obtained. -/
theorem round_trip_drops_empty_lists :
    (∃ doc, GoValue.Marshal GoValue.NewAuditResults = some doc ∧
      GoValue.Unmarshal doc = some { GoValue.NewAuditResults with Namespaces := none } ∧
      GoValue.Unmarshal doc ≠ some GoValue.NewAuditResults) ∧
    (∃ doc, GoValue.Marshal GoValue.exSnapshot = some doc ∧
      GoValue.Unmarshal doc
        = some { GoValue.exSnapshot with
            Namespaces := some [some { GoValue.NewNamespace (GoValue.ofText "ns-a") with
              Pods := some [{ GoValue.NewPod (GoValue.ofText "p1") with
                              Containers := none }] }] } ∧
      GoValue.Unmarshal doc ≠ some GoValue.exSnapshot) ∧
    GoValue.Marshal GoValue.exSnapshotNaN = none ∧
    (∃ doc, GoValue.Marshal GoValue.exSnapshotBadID = some doc ∧
      GoValue.Unmarshal doc
        = some { GoValue.exSnapshotFull with ClusterID := [0x61, 0xEF, 0xBF, 0xBD, 0x62] } ∧
      GoValue.Unmarshal doc ≠ some GoValue.exSnapshotBadID) := by
  refine ⟨⟨_, rfl, ?_, ?_⟩, ⟨_, rfl, ?_, ?_⟩, rfl, ⟨_, rfl, ?_, ?_⟩⟩ <;> decide

/-- C13, amended. For every snapshot, `json.Marshal` returns an error exactly
when the Duration is a NaN or an infinity. For every snapshot with a finite
Duration (its maps given in key order) the serialization succeeds, and
deserializing it succeeds and yields `r.back`: the snapshot in which every
string is coerced to valid UTF-8 and every slice or map under an `omitempty`
tag that was empty without being nil has become nil. When moreover every string
of the snapshot is valid UTF-8, the result is the original with only those
empty slices and maps made nil, all other fields, the untagged `Pod.Name`
included, being equal; it then equals the original field for field exactly
when the original has no such empty non-nil slice or map. -/
theorem round_trip_up_to_empty_lists (r : GoValue.AuditResults) :
    (GoValue.Marshal r = none ↔ r.Duration.isFinite = false) ∧
    (r.Duration.isFinite = true → r.ordered = true →
      ∃ doc, GoValue.Marshal r = some doc ∧ GoValue.Unmarshal doc = some r.back ∧
        (r.validUTF8 = true →
          GoValue.Unmarshal doc = some r.emptyToNil ∧
          (GoValue.Unmarshal doc = some r ↔ r.canonical))) := by
  refine ⟨GoValue.Marshal_eq_none r, ?_⟩
  intro hfin hord
  cases hm : GoValue.Marshal r with
  | none =>
    rw [(GoValue.Marshal_eq_none r).mp hm] at hfin
    cases hfin
  | some doc =>
    have hback := GoValue.Unmarshal_Marshal r doc hm
    refine ⟨doc, rfl, hback, ?_⟩
    intro hvalid
    have he := GoValue.auditResults_back_of_valid r hord hvalid
    rw [hback, he]
    refine ⟨rfl, ?_⟩
    rw [Option.some.injEq]
    exact GoValue.auditResults_emptyToNil_eq_self r

/-- C13, amended, on a snapshot with one node and one namespace whose pod has
an owner and a container: its Duration is finite, its strings are valid UTF-8
and no list in it is empty without being nil, and it comes back equal field for
field. -/
theorem round_trip_up_to_empty_lists_witness :
    GoValue.exSnapshotFull.Duration.isFinite = true ∧ GoValue.exSnapshotFull.ordered = true ∧
      GoValue.exSnapshotFull.validUTF8 = true ∧ GoValue.exSnapshotFull.canonical ∧
      ∃ doc, GoValue.Marshal GoValue.exSnapshotFull = some doc ∧
        GoValue.Unmarshal doc = some GoValue.exSnapshotFull :=
  have hc : GoValue.exSnapshotFull.canonical := by
    simp [GoValue.AuditResults.canonical, GoValue.exSnapshotFull, GoValue.noEmptyNonNil,
      GoValue.Node.canonical, GoValue.Namespace.canonical, GoValue.Pod.canonical]
  have h := (round_trip_up_to_empty_lists GoValue.exSnapshotFull).2 (by decide) (by decide)
  ⟨by decide, by decide, by decide, hc,
    h.elim (fun doc hd => ⟨doc, hd.1, (hd.2.2 (by decide)).2.mpr hc⟩)⟩

end Catalog
